import Mathlib

/-!
# polygen: raster comparators and the evolution loop

A shallow embedding of `image.go` and `evolver.go`.

Machine integers are natural numbers or integers with explicit wrap-around:
`uint8` values live in `Fin 256`, `uint32`/`uint64` arithmetic is reduced modulo
`2^32`/`2^64`, `int64` arithmetic goes through `wrapInt64`.  The one
floating-point expression, `int64(math.Sqrt(float64(n)))`, is computed exactly in
integer arithmetic from the IEEE-754 rounding rules.  A run-time panic (index out
of range) is an explicit `Except` error, and a run of the loop carries the list of
its observable effects.
-/

namespace Polygen

/-! ## Go standard library types used by `image.go` -/

/-- Go `image.Point`. -/
structure Point where
  X : Int
  Y : Int
deriving DecidableEq, Repr

/-- Go `image.Rectangle`; `==` on it is field-wise equality. -/
structure Rectangle where
  Min : Point
  Max : Point
deriving DecidableEq, Repr

/-- Two's-complement reduction of an integer to the range of a Go `int64`/`int`. -/
def wrapInt64 (z : Int) : Int := (z + 2 ^ 63) % 2 ^ 64 - 2 ^ 63

/-- Go `Rectangle.Dx`: the width `Max.X - Min.X`. -/
def Rectangle.Dx (r : Rectangle) : Int := wrapInt64 (r.Max.X - r.Min.X)

/-- Go `Rectangle.Dy`: the height `Max.Y - Min.Y`. -/
def Rectangle.Dy (r : Rectangle) : Int := wrapInt64 (r.Max.Y - r.Min.Y)

/-- Go `Point.In`: the point lies inside the rectangle. -/
def Point.In (p : Point) (r : Rectangle) : Bool :=
  decide (r.Min.X ≤ p.X) && decide (p.X < r.Max.X) &&
  decide (r.Min.Y ≤ p.Y) && decide (p.Y < r.Max.Y)

/-- Go `image.Rect`: the rectangle with the given corners, put in canonical order. -/
def Rect (x0 y0 x1 y1 : Int) : Rectangle :=
  let (x0, x1) := if x0 > x1 then (x1, x0) else (x0, x1)
  let (y0, y1) := if y0 > y1 then (y1, y0) else (y0, y1)
  ⟨⟨x0, y0⟩, ⟨x1, y1⟩⟩

/-- Go `*image.RGBA`: the byte buffer `Pix` (R, G, B, A interleaved), the row
stride and the bounds.  The capacity of `Pix` is taken equal to its length. -/
structure RGBA where
  Pix : List (Fin 256)
  Stride : Int
  Rect : Rectangle
deriving DecidableEq, Repr

/-- Go `(*image.RGBA).Bounds`. -/
def RGBA.Bounds (p : RGBA) : Rectangle := p.Rect

/-- The four `uint32` values returned by Go `color.Color.RGBA()`. -/
structure Color where
  R : Nat
  G : Nat
  B : Nat
  A : Nat
deriving DecidableEq, Repr

/-- The ways a Go evaluation can fail to return a value. -/
inductive Fault where
  /-- Run-time panic: index or slice bounds out of range. -/
  | indexOutOfRange
  /-- The language leaves the value to the implementation (conversion of NaN to an integer). -/
  | implementationDependent
  /-- Run-time panic: `image.NewRGBA` on huge or negative dimensions. -/
  | hugeDimensions
  /-- Run-time panic: nil pointer dereference. -/
  | nilDereference
deriving DecidableEq, Repr

deriving instance DecidableEq for Except

/-- The error built by `fmt.Errorf("image bounds not equal: %+v, %+v", b1, b2)`. -/
structure BoundsError where
  b1 : Rectangle
  b2 : Rectangle
deriving DecidableEq, Repr

/-- Go `(*image.RGBA).PixOffset`. -/
def RGBA.PixOffset (p : RGBA) (x y : Int) : Int :=
  (y - p.Rect.Min.Y) * p.Stride + (x - p.Rect.Min.X) * 4

/-- Go `color.RGBA.RGBA()`: every 8-bit channel `c` becomes `c | c << 8`. -/
def colorRGBA (r g b a : Fin 256) : Color :=
  ⟨r.val * 0x101, g.val * 0x101, b.val * 0x101, a.val * 0x101⟩

/-- Go `(*image.RGBA).At` followed by `RGBA()`: the zero colour outside the bounds,
otherwise the four bytes at `PixOffset`, read through the slice `Pix[i : i+4 : i+4]`. -/
def RGBA.At (p : RGBA) (x y : Int) : Except Fault Color :=
  if !(Point.In ⟨x, y⟩ p.Rect) then .ok ⟨0, 0, 0, 0⟩
  else
    let i := p.PixOffset x y
    if i < 0 ∨ (p.Pix.length : Int) < i + 4 then .error .indexOutOfRange
    else
      let s := (p.Pix.drop i.toNat).take 4
      match s with
      | [r, g, b, a] => .ok (colorRGBA r g b a)
      | _ => .error .indexOutOfRange

/-- Go `image.Image`: either a concrete `*image.RGBA` (the only dynamic type the
code tests for) or any other implementation, given by its bounds and the colour
`At(x, y).RGBA()` of each point. -/
inductive Image where
  | rgba (p : RGBA)
  | generic (bounds : Rectangle) (colorAt : Int → Int → Color)

/-- Go `Image.Bounds`. -/
def Image.Bounds : Image → Rectangle
  | .rgba p => p.Rect
  | .generic b _ => b

/-- Go `Image.At(x, y).RGBA()`. -/
def Image.At : Image → Int → Int → Except Fault Color
  | .rgba p, x, y => p.At x y
  | .generic _ f, x, y => .ok (f x y)

/-! ## `image.go` -/

/-- Go `sqDiff` on `uint32`: the subtraction, the product and the shift are the
32-bit operations. -/
def sqDiff (x y : Nat) : Nat :=
  let d := if x > y then (x + 2 ^ 32 - y) % 2 ^ 32 else (y + 2 ^ 32 - x) % 2 ^ 32
  ((d * d) % 2 ^ 32) >>> 2

/-- Go `diffUint8` on `uint8`: the subtraction is the 8-bit one. -/
def diffUint8 (x y : Fin 256) : Nat :=
  if x.val > y.val then (x.val + 2 ^ 8 - y.val) % 2 ^ 8 else (y.val + 2 ^ 8 - x.val) % 2 ^ 8

/-- The loop `for i := 0; i < len(img1.Pix); i++` of `FastCompare`, started at
index `i` with `n` iterations left and accumulator `acc`; the accumulator is a
`uint64`, `img1.Pix[i]` and `img2.Pix[i]` are checked indexings. -/
def FastCompare.loop (pix1 pix2 : List (Fin 256)) : Nat → Nat → Nat → Except Fault Nat
  | 0, _, acc => .ok acc
  | n + 1, i, acc =>
    match pix1[i]?, pix2[i]? with
    | some x, some y => FastCompare.loop pix1 pix2 n (i + 1) ((acc + diffUint8 x y) % 2 ^ 64)
    | _, _ => .error .indexOutOfRange

/-- Go `FastCompare`: the pair `(value, error)` it returns, or the panic. -/
def FastCompare (img1 img2 : RGBA) : Except Fault (Nat × Option BoundsError) :=
  if img1.Bounds ≠ img2.Bounds then .ok (0, some ⟨img1.Bounds, img2.Bounds⟩)
  else
    match FastCompare.loop img1.Pix img2.Pix img1.Pix.length 0 0 with
    | .ok accumError => .ok (accumError, none)
    | .error f => .error f

/-- The colour pairs compared at one pixel by `Compare`: the sum, in `uint32`
arithmetic, of the four `sqDiff` terms. -/
def pixelSum (c1 c2 : Color) : Nat :=
  (((sqDiff c1.R c2.R + sqDiff c1.G c2.G) % 2 ^ 32 + sqDiff c1.B c2.B) % 2 ^ 32
    + sqDiff c1.A c2.A) % 2 ^ 32

/-- The inner loop `for x := bounds.Min.X; x < bounds.Max.X; x++` of `Compare` on
row `y`, with `n` iterations left; `accumError` is an `int64`. -/
def Compare.row (img1 img2 : Image) (y : Int) : Nat → Int → Int → Except Fault Int
  | 0, _, acc => .ok acc
  | n + 1, x, acc =>
    match img1.At x y with
    | .error f => .error f
    | .ok c1 =>
      match img2.At x y with
      | .error f => .error f
      | .ok c2 => Compare.row img1 img2 y n (x + 1) (wrapInt64 (acc + (pixelSum c1 c2 : Int)))

/-- The outer loop `for y := bounds.Min.Y; y < bounds.Max.Y; y++` of `Compare`,
with `n` rows left. -/
def Compare.rows (img1 img2 : Image) (bounds : Rectangle) : Nat → Int → Int → Except Fault Int
  | 0, _, acc => .ok acc
  | n + 1, y, acc =>
    match Compare.row img1 img2 y (bounds.Max.X - bounds.Min.X).toNat bounds.Min.X acc with
    | .error f => .error f
    | .ok acc1 => Compare.rows img1 img2 bounds n (y + 1) acc1

/-- Go `float64(n)` for a natural `n`: the nearest number with a 53-bit
significand, ties to even; the result is again a natural number. -/
def float64OfNat (n : Nat) : Nat :=
  if n < 2 ^ 53 then n
  else
    let e := Nat.log2 n - 52
    let q := n / 2 ^ e
    let r := n % 2 ^ e
    let half := 2 ^ (e - 1)
    if r > half ∨ (r = half ∧ q % 2 = 1) then (q + 1) * 2 ^ e else q * 2 ^ e

/-- Go `int64(math.Sqrt(v))` for a `float64` `v` that is a natural number below
`2^64`.  `math.Sqrt` is the correctly rounded IEEE-754 square root: with
`4^j ≤ v < 4^(j+1)` the root lies in `[2^j, 2^(j+1))`, where the doubles are the
multiples of `2^(j-52)`, so the rounded root is `q / 2^(52-j)` with `q` the integer
nearest to `sqrt (v * 4^(52-j))` (a tie cannot occur).  The conversion to `int64`
truncates. -/
def sqrtFloat64ToInt (v : Nat) : Nat :=
  if v = 0 then 0
  else
    let j := Nat.log2 v / 2
    let m := v * 4 ^ (52 - j)
    let s := Nat.sqrt m
    let q := if m - s * s > s then s + 1 else s
    q / 2 ^ (52 - j)

/-- The last line of `Compare`: `int64(math.Sqrt(float64(accumError)))`.  The root
of a negative number is NaN, whose conversion to `int64` is left to the
implementation. -/
def sqrtOfAccum (accumError : Int) : Except Fault Int :=
  if accumError < 0 then .error .implementationDependent
  else .ok (sqrtFloat64ToInt (float64OfNat accumError.toNat) : Nat)

/-- Go `Compare`: the pair `(value, error)` it returns, or the panic. -/
def Compare (img1 img2 : Image) : Except Fault (Int × Option BoundsError) :=
  if img1.Bounds ≠ img2.Bounds then .ok (0, some ⟨img1.Bounds, img2.Bounds⟩)
  else
    let bounds := img1.Bounds
    match Compare.rows img1 img2 bounds (bounds.Max.Y - bounds.Min.Y).toNat bounds.Min.Y 0 with
    | .error f => .error f
    | .ok accumError =>
      match sqrtOfAccum accumError with
      | .error f => .error f
      | .ok v => .ok (v, none)

/-- Go `image.NewRGBA`: a zeroed buffer of `4 * w * h` bytes; it panics when the
dimensions are negative or the length overflows an `int`. -/
def NewRGBA (r : Rectangle) : Except Fault RGBA :=
  let w := r.Dx
  let h := r.Dy
  if w < 0 ∨ h < 0 ∨ 2 ^ 63 ≤ 4 * w * h then .error .hugeDimensions
  else .ok ⟨List.replicate (4 * w * h).toNat 0, 4 * w, r⟩

/-- Go `uint8(v >> 8)`: the high byte of a 16-bit channel value. -/
def highByte (v : Nat) : Fin 256 := ⟨(v >>> 8) % 256, Nat.mod_lt _ (by decide)⟩

/-- Go `draw.Draw(result, result.Bounds(), img, b.Min, draw.Src)` into a fresh
`w × h` raster from a source that is not an `*image.RGBA`: pixel `(x, y)` receives
the high bytes of `img.At(b.Min.X + x, b.Min.Y + y).RGBA()`.  When the source
bounds are empty, clipping leaves the destination untouched. -/
def drawSrc (b : Rectangle) (colorAt : Int → Int → Color) (w h : Nat) : List (Fin 256) :=
  if b.Min.X ≤ b.Max.X ∧ b.Min.Y ≤ b.Max.Y then
    (List.range h).flatMap fun y => (List.range w).flatMap fun x =>
      let c := colorAt (b.Min.X + x) (b.Min.Y + y)
      [highByte c.R, highByte c.G, highByte c.B, highByte c.A]
  else List.replicate (4 * w * h) 0

/-- Go `ConvertToRGBA`: the input itself when it already is an `*image.RGBA`,
otherwise a new raster at the origin with the input drawn into it. -/
def ConvertToRGBA (img : Image) : Except Fault RGBA :=
  match img with
  | .rgba result => .ok result
  | .generic b colorAt =>
    match NewRGBA (Rect 0 0 b.Dx b.Dy) with
    | .error f => .error f
    | .ok result =>
      .ok { result with Pix := drawSrc b colorAt result.Rect.Dx.toNat result.Rect.Dy.toNat }

/-! ## External collaborators of `evolver.go`

`Candidate`, `RandomCandidate`, `MutateInPlace`, `CopyOf`, `DrawAndSave`,
`PopulationCount`, `ByFitness` and `SafeImage` are declared outside the two
source files; they are parameters of the embedding. -/

/-- Modelled from the spec: the `Candidate` contract.  `ptr` is the identity of the
Go pointer, `genome` the opaque internal representation, `img` the rendered raster
and `Fitness` the `uint64` score. -/
structure Candidate (G : Type) where
  ptr : Nat
  genome : G
  img : RGBA
  Fitness : Nat
deriving DecidableEq, Repr

/-- Modelled from the spec: `Copy`, "an independent deep clone"; the clone lives at
a fresh pointer. -/
def Candidate.CopyOf {G : Type} (c : Candidate G) (fresh : Nat) : Candidate G :=
  { c with ptr := fresh }

/-- Modelled from the spec: `ByFitness.Less`; the selection step sorts "ascending
by Fitness", so element `a` goes before `b` when `a.Fitness < b.Fitness`. -/
def ByFitness.Less {G : Type} (a b : Candidate G) : Bool := decide (a.Fitness < b.Fitness)

/-- The contract of Go `sort.Sort` on `ByFitness`: the result is a rearrangement of
the input in which no element is `Less` than an earlier one.  The order of
elements of equal fitness is not determined (the sort is not stable). -/
structure IsSortSort {G : Type} (sort : List (Candidate G) → List (Candidate G)) : Prop where
  perm : ∀ l, (sort l).Perm l
  sorted : ∀ l, (sort l).Pairwise (fun a b => ByFitness.Less b a = false)

/-- The external operations the loop depends on.  Randomness and goroutine
scheduling are resolved by the indices: `MutateInPlace gen i` is the effect of the
mutation on the copy that ends up in slot `i` of generation `gen`. -/
structure Env (G : Type) where
  PopulationCount : Nat
  RandomCandidate : Int → Int → G × RGBA
  MutateInPlace : Nat → Nat → G × RGBA → G × RGBA
  sortSort : List (Candidate G) → List (Candidate G)

/-- Modelled from the spec: a `LiveSink`, known to the loop only through `Update`. -/
structure SafeImage where
  ident : Nat
deriving DecidableEq, Repr

/-- The observable effects of a run, in order of occurrence. -/
inductive Event (G : Type) where
  /-- The log line of `printStats`: generation, since change, best, worst. -/
  | stats (generations generationsSinceChange best worst : Nat)
  /-- The call `safeImages[i].Update(img)`. -/
  | update (i : Nat) (sink : SafeImage) (img : RGBA)
  /-- The call `mostFit.DrawAndSave(destFile)`. -/
  | saved (destFile : String) (c : Candidate G)
  /-- The final log line: generations, fitness, destination. -/
  | summary (maxGen : Int) (fitness : Nat) (destFile : String)
deriving DecidableEq, Repr

/-- The ways a run ends early. -/
inductive Halt where
  /-- The call `log.Fatalf` of `evaluateCandidate`: the process exits. -/
  | fatal (err : BoundsError)
  /-- A run-time panic. -/
  | panic (f : Fault)
deriving DecidableEq, Repr

/-- A run that ended early: the effects it had until then, and the cause. -/
structure Aborted (G : Type) where
  events : List (Event G)
  cause : Halt
deriving DecidableEq, Repr

/-- The variables of `SimulateAnnealing` that live across generations, with the
effects so far and the next unused pointer. -/
structure LoopState (G : Type) where
  candidates : List (Option (Candidate G))
  mostFit : Candidate G
  generationsSinceChange : Nat
  events : List (Event G)
  nextPtr : Nat
deriving DecidableEq, Repr

/-! ## `evolver.go` -/

section Evolver

variable {G : Type}

/-- Go `evaluateCandidate`: the fitness is the `FastCompare` distance to the
reference; a comparator error ends the process through `log.Fatalf`. -/
def evaluateCandidate (c : Candidate G) (referenceImg : RGBA) : Except Halt (Candidate G) :=
  match FastCompare referenceImg c.img with
  | .error f => .error (.panic f)
  | .ok (_, some err) => .error (.fatal err)
  | .ok (diff, none) => .ok { c with Fitness := diff }

/-- The task `processCandidate(mostFit.CopyOf())` for slot `i` of generation `gen`:
copy, mutate in place, evaluate. -/
def processCandidate (env : Env G) (refImgRGBA : RGBA) (mostFit : Candidate G)
    (gen i fresh : Nat) : Except Halt (Candidate G) :=
  let copy := mostFit.CopyOf fresh
  let mutated := env.MutateInPlace gen i (copy.genome, copy.img)
  evaluateCandidate { copy with genome := mutated.1, img := mutated.2 } refImgRGBA

/-- The fan-out `for i := 1; i < PopulationCount; i++ { go processCandidate(...) }`
followed by `wg.Wait()`, with `n` tasks left from slot `i` on: the candidates sent
on the channel, or the first failure, which ends the process. -/
def fanOut (env : Env G) (refImgRGBA : RGBA) (mostFit : Candidate G) (gen : Nat) :
    Nat → Nat → Nat → Except Halt (List (Candidate G))
  | 0, _, _ => .ok []
  | n + 1, i, fresh =>
    match processCandidate env refImgRGBA mostFit gen i fresh with
    | .error h => .error h
    | .ok c =>
      match fanOut env refImgRGBA mostFit gen n (i + 1) (fresh + 1) with
      | .error h => .error h
      | .ok cs => .ok (c :: cs)

/-- The loop `for i := 1; i < PopulationCount; i++ { candidates[i] = <- c }`,
from slot `i` on; the assignment is a checked indexing. -/
def receive (candidates : List (Option (Candidate G))) :
    List (Candidate G) → Nat → Except Fault (List (Option (Candidate G)))
  | [], _ => .ok candidates
  | c :: cs, i =>
    if i < candidates.length then receive (candidates.set i (some c)) cs (i + 1)
    else .error .indexOutOfRange

/-- The candidates behind the pointers of the slice; `none` when a slot is nil,
which the code would dereference. -/
def nonNil : List (Option (Candidate G)) → Option (List (Candidate G))
  | [] => some []
  | none :: _ => none
  | some c :: cs =>
    match nonNil cs with
    | none => none
    | some l => some (c :: l)

/-- Go `printStats`: the log line with the fitness at indices `0` and `len - 1` (the
elapsed time is left out). -/
def printStats (sortedPop : List (Candidate G)) (generations generationsSinceChange : Nat) :
    Except Fault (Event G) :=
  match sortedPop[0]?, sortedPop[sortedPop.length - 1]? with
  | some best, some worst =>
    .ok (.stats generations generationsSinceChange best.Fitness worst.Fitness)
  | _, _ => .error .indexOutOfRange

/-- The loop `for i := 0; i < len(safeImages); i++ { safeImages[i].Update(candidates[i].img) }`
from index `i` on; on an index out of range it returns the effects so far. -/
def updateSinks (candidates : List (Candidate G)) :
    List SafeImage → Nat → List (Event G) → Except (List (Event G)) (List (Event G))
  | [], _, events => .ok events
  | sink :: rest, i, events =>
    match candidates[i]? with
    | none => .error events
    | some c => updateSinks candidates rest (i + 1) (events ++ [.update i sink c.img])

/-- The first half of an iteration of the loop of `SimulateAnnealing`, up to the
selection step: fan-out, barrier, refill of the slots `1 ..` and
`sort.Sort(ByFitness(candidates))`.  It returns the sorted slice. -/
def selection (env : Env G) (refImgRGBA : RGBA) (gen : Nat) (s : LoopState G) :
    Except (Aborted G) (List (Candidate G)) :=
  match fanOut env refImgRGBA s.mostFit gen (env.PopulationCount - 1) 1 s.nextPtr with
  | .error h => .error ⟨s.events, h⟩
  | .ok offspring =>
    match receive s.candidates offspring 1 with
    | .error f => .error ⟨s.events, .panic f⟩
    | .ok filled =>
      match nonNil filled with
      | none => .error ⟨s.events, .panic .nilDereference⟩
      | some population => .ok (env.sortSort population)

/-- The statement `if gen % 10 == 0 { printStats(...) }`: the effects after it. -/
def logStats (candidates : List (Candidate G)) (gen : Nat) (s : LoopState G) :
    Except Fault (List (Event G)) :=
  if gen % 10 = 0 then
    match printStats candidates gen s.generationsSinceChange with
    | .error f => .error f
    | .ok e => .ok (s.events ++ [e])
  else .ok s.events

/-- The acceptance step at the end of an iteration: `currBest := candidates[0]`
replaces `mostFit` when its fitness is strictly lower. -/
def accept (env : Env G) (candidates : List (Candidate G)) (currBest : Candidate G)
    (events : List (Event G)) (s : LoopState G) : LoopState G :=
  if currBest.Fitness < s.mostFit.Fitness then
    { candidates := candidates.map some
      mostFit := currBest
      generationsSinceChange := 0
      events := events
      nextPtr := s.nextPtr + (env.PopulationCount - 1) }
  else
    { candidates := candidates.map some
      mostFit := s.mostFit
      generationsSinceChange := s.generationsSinceChange + 1
      events := events
      nextPtr := s.nextPtr + (env.PopulationCount - 1) }

/-- One iteration of the loop `for gen := 0; gen < maxGen; gen++` of
`SimulateAnnealing`. -/
def generation (env : Env G) (refImgRGBA : RGBA) (safeImages : List SafeImage) (gen : Nat)
    (s : LoopState G) : Except (Aborted G) (LoopState G) :=
  match selection env refImgRGBA gen s with
  | .error a => .error a
  | .ok candidates =>
    match logStats candidates gen s with
    | .error f => .error ⟨s.events, .panic f⟩
    | .ok events1 =>
      match updateSinks candidates safeImages 0 events1 with
      | .error events2 => .error ⟨events2, .panic .indexOutOfRange⟩
      | .ok events2 =>
        match candidates[0]? with
        | none => .error ⟨events2, .panic .indexOutOfRange⟩
        | some currBest => .ok (accept env candidates currBest events2 s)

/-- The loop `for gen := 0; gen < maxGen; gen++`, with `n` iterations left. -/
def generations (env : Env G) (refImgRGBA : RGBA) (safeImages : List SafeImage) :
    Nat → Nat → LoopState G → Except (Aborted G) (LoopState G)
  | 0, _, s => .ok s
  | n + 1, gen, s =>
    match generation env refImgRGBA safeImages gen s with
    | .error a => .error a
    | .ok s1 => generations env refImgRGBA safeImages n (gen + 1) s1

/-- The state of `SimulateAnnealing` when it enters the loop: the reference is
normalised, the random candidate is evaluated and put in slot `0` of a slice of
`PopulationCount` nil pointers. -/
def initialState (env : Env G) (referenceImg : Image) :
    Except (Aborted G) (RGBA × LoopState G) :=
  match ConvertToRGBA referenceImg with
  | .error f => .error ⟨[], .panic f⟩
  | .ok refImgRGBA =>
    let w := refImgRGBA.Bounds.Dx
    let h := refImgRGBA.Bounds.Dy
    let random := env.RandomCandidate w h
    match evaluateCandidate ⟨0, random.1, random.2, 0⟩ refImgRGBA with
    | .error halt => .error ⟨[], halt⟩
    | .ok mostFit =>
      let candidates : List (Option (Candidate G)) := List.replicate env.PopulationCount none
      if 0 < candidates.length then
        .ok (refImgRGBA, ⟨candidates.set 0 (some mostFit), mostFit, 0, [], 1⟩)
      else .error ⟨[], .panic .indexOutOfRange⟩

/-- Go `SimulateAnnealing`: the final state, whose `events` end with the save of
the champion and the summary line, or the early end of the run. -/
def SimulateAnnealing (env : Env G) (maxGen : Int) (referenceImg : Image) (destFile : String)
    (safeImages : List SafeImage) : Except (Aborted G) (LoopState G) :=
  match initialState env referenceImg with
  | .error a => .error a
  | .ok (refImgRGBA, s0) =>
    match generations env refImgRGBA safeImages maxGen.toNat 0 s0 with
    | .error a => .error a
    | .ok s =>
      .ok { s with
        events := s.events ++
          [.saved destFile s.mostFit, .summary maxGen s.mostFit.Fitness destFile] }

end Evolver

/-! ## A small concrete instance

A `1 × 1` reference raster and an environment of three candidates whose mutation
is fixed by the generation and the slot; it serves the witnesses below. -/

/-- The reference raster of the instance. -/
def sampleRef : RGBA := ⟨[10, 20, 30, 255], 4, Rect 0 0 1 1⟩

/-- The `sort.Sort` of the instance: insertion sort, which Go uses on short slices. -/
def sampleSort (l : List (Candidate Nat)) : List (Candidate Nat) :=
  l.insertionSort (fun a b => a.Fitness ≤ b.Fitness)

/-- The environment of the instance: the random candidate is the black transparent
pixel, and the mutation of slot `i` in generation `gen` sets the red byte to
`3 * gen + i` and the alpha byte to `255`. -/
def sampleEnv : Env Nat where
  PopulationCount := 3
  RandomCandidate := fun w h => (0, ⟨[0, 0, 0, 0], 4, Rect 0 0 w h⟩)
  MutateInPlace := fun gen i p =>
    (p.1 + 1, { p.2 with Pix := [Fin.ofNat (3 * gen + i), 0, 0, 255] })
  sortSort := sampleSort

/-- The state in which the instance enters the loop. -/
def sampleStart : LoopState Nat :=
  ⟨[some ⟨0, 0, ⟨[0, 0, 0, 0], 4, Rect 0 0 1 1⟩, 315⟩, none, none],
    ⟨0, 0, ⟨[0, 0, 0, 0], 4, Rect 0 0 1 1⟩, 315⟩, 0, [], 1⟩

/-- The state of the instance after `n` iterations, with two live sinks. -/
def sampleAfter (n : Nat) : LoopState Nat :=
  match generations sampleEnv sampleRef [⟨0⟩, ⟨1⟩] n 0 sampleStart with
  | .ok s => s
  | .error _ => sampleStart

/-- The sorted slice of the instance in the iteration `gen = 1`. -/
def sampleSelected : List (Candidate Nat) :=
  match selection sampleEnv sampleRef 1 (sampleAfter 1) with
  | .ok candidates => candidates
  | .error _ => []

/-- The instance with a population of one. -/
def soloEnv : Env Nat := { sampleEnv with PopulationCount := 1 }

/-- The state in which `soloEnv` enters the loop. -/
def soloStart : LoopState Nat :=
  ⟨[some ⟨0, 0, ⟨[0, 0, 0, 0], 4, Rect 0 0 1 1⟩, 315⟩],
    ⟨0, 0, ⟨[0, 0, 0, 0], 4, Rect 0 0 1 1⟩, 315⟩, 0, [], 1⟩

/-- The instance with a mutation that, in generation `1` and slot `2`, renders a
raster of the wrong size. -/
def faultyEnv : Env Nat :=
  { sampleEnv with
    MutateInPlace := fun gen i p =>
      if gen = 1 ∧ i = 2 then (p.1, { p.2 with Rect := Rect 0 0 2 1 })
      else sampleEnv.MutateInPlace gen i p }

/-- The state of `faultyEnv` after its first iteration, with one live sink. -/
def faultyAfterOne : LoopState Nat :=
  match generations faultyEnv sampleRef [⟨0⟩] 1 0 sampleStart with
  | .ok s => s
  | .error _ => sampleStart

/-- The final state of the instance after a run of three generations, with two
live sinks. -/
def sampleDone : LoopState Nat :=
  match SimulateAnnealing sampleEnv 3 (.rgba sampleRef) "out.png" [⟨0⟩, ⟨1⟩] with
  | .ok s => s
  | .error _ => sampleStart

/-! ## Specification-level notions used by the theorems -/

/-- The absolute difference of two bytes, as the distance is specified. -/
def absDiff (x y : Fin 256) : Nat := Int.natAbs ((x.val : Int) - (y.val : Int))

/-- The part of a comparator's result the caller can observe: the value and
whether an error came with it. -/
def observed {α : Type} (r : Except Fault (α × Option BoundsError)) : Except Fault (α × Bool) :=
  r.map fun p => (p.1, p.2.isSome)

/-- The squared difference of two channel values shifted right by two, as the
distance is specified (no wrap-around). -/
def specSqDiff (x y : Nat) : Nat := (Int.natAbs ((x : Int) - (y : Int))) ^ 2 >>> 2

/-- The contribution of one pixel to the total: the four channel terms. -/
def specPixel (c1 c2 : Color) : Nat :=
  specSqDiff c1.R c2.R + specSqDiff c1.G c2.G + specSqDiff c1.B c2.B + specSqDiff c1.A c2.A

/-- The total `T` of the specification: the sum of the pixel contributions over
all points of the bounds, row by row. -/
def specTotal (b : Rectangle) (c1 c2 : Int → Int → Color) : Nat :=
  ∑ j ∈ Finset.range (b.Max.Y - b.Min.Y).toNat, ∑ i ∈ Finset.range (b.Max.X - b.Min.X).toNat,
    specPixel (c1 (b.Min.X + i) (b.Min.Y + j)) (c2 (b.Min.X + i) (b.Min.Y + j))

/-- The channel values of a colour are 16-bit, as `color.Color.RGBA` promises. -/
def Color.Valid (c : Color) : Prop :=
  c.R ≤ 0xffff ∧ c.G ≤ 0xffff ∧ c.B ≤ 0xffff ∧ c.A ≤ 0xffff

instance (c : Color) : Decidable c.Valid := by
  unfold Color.Valid
  infer_instance

/-- The image can be read at every point of its bounds, where it has the 16-bit
colours `c`. -/
def Image.ReadsAs (img : Image) (c : Int → Int → Color) : Prop :=
  ∀ x y, img.Bounds.Min.X ≤ x → x < img.Bounds.Max.X → img.Bounds.Min.Y ≤ y →
    y < img.Bounds.Max.Y → img.At x y = .ok (c x y) ∧ (c x y).Valid

/-- A `1024 × 1506` image of the constant opaque colour `(0x8200, 0xAE00, 0xFFFF, 0xFFFF)`. -/
def opaqueImage : Image :=
  .generic (Rect 0 0 1024 1506) fun _ _ => ⟨0x8200, 0xAE00, 0xFFFF, 0xFFFF⟩

/-- A `1024 × 1506` fully transparent image. -/
def clearImage : Image :=
  .generic (Rect 0 0 1024 1506) fun _ _ => ⟨0, 0, 0, 0⟩

/-- The effect is a write of the destination file. -/
def Event.isSaved {G : Type} : Event G → Bool
  | .saved _ _ => true
  | _ => false

/-- None of the effects is a write of the destination file. -/
def NoSaved {G : Type} (events : List (Event G)) : Prop :=
  ∀ e ∈ events, e.isSaved = false

/-- A raster cut out of a `2 × 1` raster by `SubImage(image.Rect(0, 0, 1, 1))`: it
keeps the buffer and the stride of its parent. -/
def subRaster : RGBA := ⟨[10, 20, 30, 255, 1, 2, 3, 255], 8, Rect 0 0 1 1⟩

/-- The raster `image.NewRGBA(image.Rect(0, 0, 1, 1))` with the first pixel of
`subRaster`. -/
def freshRaster : RGBA := ⟨[10, 20, 30, 255], 4, Rect 0 0 1 1⟩

/-- Four live sinks, one more than the instance has candidates. -/
def fourSinks : List SafeImage := [⟨0⟩, ⟨1⟩, ⟨2⟩, ⟨3⟩]

/-- A `sort.Sort` that meets the contract and is not stable: insertion sort of the
reversed slice, which puts the later of two elements of equal fitness first. -/
def tieSort (l : List (Candidate Nat)) : List (Candidate Nat) :=
  l.reverse.insertionSort (fun a b => a.Fitness ≤ b.Fitness)

/-- An environment of thirteen candidates sorted by `tieSort`, whose mutation
renders `[20, 0, 0, 0]` in the even slots, at the distance `315` of the random
candidate from `sampleRef`, and `[30, 0, 0, 0]` in the odd slots, at distance `325`. -/
def tieEnv : Env Nat where
  PopulationCount := 13
  RandomCandidate := fun w h => (0, ⟨[0, 0, 0, 0], 4, Rect 0 0 w h⟩)
  MutateInPlace := fun _ i p =>
    (p.1 + 1, { p.2 with Pix := if i % 2 = 0 then [20, 0, 0, 0] else [30, 0, 0, 0] })
  sortSort := tieSort

/-- The state in which `tieEnv` enters the loop. -/
def tieStart : LoopState Nat :=
  match initialState tieEnv (.rgba sampleRef) with
  | .ok p => p.2
  | .error _ => sampleStart

/-- The state of `tieEnv` after its first iteration, without live sinks. -/
def tieAfterOne : LoopState Nat :=
  match generations tieEnv sampleRef [] 1 0 tieStart with
  | .ok s => s
  | .error _ => tieStart

/-- A sort through `sort.Interface` reaches the elements only by `Less` and `Swap`:
on two slices whose elements have pairwise the same fitness it takes the same
decisions and performs the same swaps, so elements that correspond before the
sort correspond after it. -/
structure IsComparisonSort {G : Type} (sort : List (Candidate G) → List (Candidate G)) :
    Prop where
  natural : ∀ R : Candidate G → Candidate G → Prop, (∀ a b, R a b → a.Fitness = b.Fitness) →
    ∀ l1 l2, List.Forall₂ R l1 l2 → List.Forall₂ R (sort l1) (sort l2)

/-- The variant of one iteration described in the design rationale of the spec:
"re-seed `Population[0] = Champion` explicitly at the top of each generation", then
proceed as the loop does. -/
def generationReseed {G : Type} (env : Env G) (refImgRGBA : RGBA) (safeImages : List SafeImage)
    (gen : Nat) (s : LoopState G) : Except (Aborted G) (LoopState G) :=
  if 0 < s.candidates.length then
    generation env refImgRGBA safeImages gen
      { s with candidates := s.candidates.set 0 (some s.mostFit) }
  else .error ⟨s.events, .panic .indexOutOfRange⟩

/-- The loop of the variant, with `n` iterations left. -/
def generationsReseed {G : Type} (env : Env G) (refImgRGBA : RGBA)
    (safeImages : List SafeImage) : Nat → Nat → LoopState G → Except (Aborted G) (LoopState G)
  | 0, _, s => .ok s
  | n + 1, gen, s =>
    match generationReseed env refImgRGBA safeImages gen s with
    | .error a => .error a
    | .ok s1 => generationsReseed env refImgRGBA safeImages n (gen + 1) s1

/-- The variant of `SimulateAnnealing` whose loop re-seeds slot `0`. -/
def SimulateAnnealingReseed {G : Type} (env : Env G) (maxGen : Int) (referenceImg : Image)
    (destFile : String) (safeImages : List SafeImage) : Except (Aborted G) (LoopState G) :=
  match initialState env referenceImg with
  | .error a => .error a
  | .ok (refImgRGBA, s0) =>
    match generationsReseed env refImgRGBA safeImages maxGen.toNat 0 s0 with
    | .error a => .error a
    | .ok s =>
      .ok { s with
        events := s.events ++
          [.saved destFile s.mostFit, .summary maxGen s.mostFit.Fitness destFile] }

/-- The champion and the stale counter a run of the loop ends with, if it
completes. -/
def championOf {G : Type} (r : Except (Aborted G) (LoopState G)) : Option (Candidate G × Nat) :=
  match r with
  | .ok s => some (s.mostFit, s.generationsSinceChange)
  | .error _ => none

/-- The writes of the destination a run has made, if it returns. -/
def savedOf {G : Type} (r : Except (Aborted G) (LoopState G)) : Option (List (Event G)) :=
  match r with
  | .ok s => some (s.events.filter Event.isSaved)
  | .error _ => none

/-- The states of the loop as written and of the re-seeding variant correspond:
same champion, stale counter and next pointer, `PopulationCount` slots each, no
write of the destination so far, and in the loop as written a candidate of the
champion's fitness in slot `0`. -/
def Corresponds {G : Type} (env : Env G) (sw sv : LoopState G) : Prop :=
  sw.mostFit = sv.mostFit ∧ sw.generationsSinceChange = sv.generationsSinceChange ∧
  sw.nextPtr = sv.nextPtr ∧
  sw.candidates.length = env.PopulationCount ∧ sv.candidates.length = env.PopulationCount ∧
  NoSaved sw.events ∧ NoSaved sv.events ∧
  ∃ c0, sw.candidates[0]? = some (some c0) ∧ c0.Fitness = sw.mostFit.Fitness

/-- The canonical layout, the one `image.NewRGBA` gives: well-ordered bounds, a
stride of four bytes per pixel of a row, and a buffer of exactly
`4 * width * height` bytes. -/
def RGBA.Canonical (p : RGBA) : Prop :=
  p.Rect.Min.X ≤ p.Rect.Max.X ∧ p.Rect.Min.Y ≤ p.Rect.Max.Y ∧
  p.Stride = 4 * (p.Rect.Max.X - p.Rect.Min.X) ∧
  (p.Pix.length : Int) = 4 * (p.Rect.Max.X - p.Rect.Min.X) * (p.Rect.Max.Y - p.Rect.Min.Y)

instance (p : RGBA) : Decidable p.Canonical := by
  unfold RGBA.Canonical
  infer_instance

/-- The colour a raster holds at the point `(x, y)`: the four bytes at `PixOffset`,
each widened to 16 bits. -/
def RGBA.colorAt (p : RGBA) (x y : Int) : Color :=
  colorRGBA (p.Pix.getD (p.PixOffset x y).toNat 0) (p.Pix.getD ((p.PixOffset x y).toNat + 1) 0)
    (p.Pix.getD ((p.PixOffset x y).toNat + 2) 0) (p.Pix.getD ((p.PixOffset x y).toNat + 3) 0)

/-- The transparent black pixel, as a `1 × 1` raster. -/
def pixelClear : RGBA := ⟨[0, 0, 0, 0], 4, Rect 0 0 1 1⟩

/-- A `1 × 1` raster that differs from `pixelClear` by `5` in one byte. -/
def pixelOneByte : RGBA := ⟨[0, 0, 0, 5], 4, Rect 0 0 1 1⟩

/-- A `1 × 1` raster that differs from `pixelClear` by `2` in each of its four bytes. -/
def pixelFourBytes : RGBA := ⟨[2, 2, 2, 2], 4, Rect 0 0 1 1⟩

/-! ## Theorems: `FastCompare` -/

theorem diffUint8_eq_absDiff (x y : Fin 256) : diffUint8 x y = absDiff x y := by
  unfold diffUint8 absDiff
  have hx := x.isLt
  have hy := y.isLt
  split <;> omega

theorem diffUint8_comm (x y : Fin 256) : diffUint8 x y = diffUint8 y x := by
  rw [diffUint8_eq_absDiff, diffUint8_eq_absDiff]
  unfold absDiff
  omega

theorem diffUint8_self (x : Fin 256) : diffUint8 x x = 0 := by
  rw [diffUint8_eq_absDiff]
  unfold absDiff
  omega

theorem diffUint8_le (x y : Fin 256) : diffUint8 x y ≤ 255 := by
  rw [diffUint8_eq_absDiff]
  unfold absDiff
  have hx := x.isLt
  have hy := y.isLt
  omega

/-- The loop of `FastCompare` returns the accumulator plus the sum of the byte
differences at the indices it visits, when both buffers cover them and the total
stays below `2^64`. -/
theorem FastCompare.loop_eq_sum (pix1 pix2 : List (Fin 256)) :
    ∀ (n i acc : Nat), i + n ≤ pix1.length → i + n ≤ pix2.length → acc + 255 * n < 2 ^ 64 →
      FastCompare.loop pix1 pix2 n i acc =
        .ok (acc + ∑ k ∈ Finset.range n, absDiff (pix1.getD (i + k) 0) (pix2.getD (i + k) 0)) := by
  intro n
  induction n with
  | zero => intro i acc _ _ _; simp [FastCompare.loop]
  | succ n ih =>
    intro i acc h1 h2 hacc
    have hi1 : i < pix1.length := by omega
    have hi2 : i < pix2.length := by omega
    have hd := diffUint8_le pix1[i] pix2[i]
    have hmod : (acc + diffUint8 pix1[i] pix2[i]) % 2 ^ 64 = acc + diffUint8 pix1[i] pix2[i] :=
      Nat.mod_eq_of_lt (by omega)
    have e1 : pix1.getD i 0 = pix1[i] := by simp [hi1]
    have e2 : pix2.getD i 0 = pix2[i] := by simp [hi2]
    have hsum : ∀ k, absDiff (pix1.getD (i + 1 + k) 0) (pix2.getD (i + 1 + k) 0) =
        absDiff (pix1.getD (i + (k + 1)) 0) (pix2.getD (i + (k + 1)) 0) := by
      intro k
      rw [show i + 1 + k = i + (k + 1) by omega]
    rw [FastCompare.loop, List.getElem?_eq_getElem hi1, List.getElem?_eq_getElem hi2]
    simp only []
    rw [hmod, ih (i + 1) _ (by omega) (by omega) (by omega), Finset.sum_range_succ',
      diffUint8_eq_absDiff]
    simp only [hsum, Nat.add_zero, e1, e2]
    congr 1
    omega

theorem FastCompare.loop_self (pix : List (Fin 256)) :
    ∀ (n i : Nat), i + n ≤ pix.length → FastCompare.loop pix pix n i 0 = .ok 0 := by
  intro n
  induction n with
  | zero => intro i _; simp [FastCompare.loop]
  | succ n ih =>
    intro i h
    have hi : i < pix.length := by omega
    rw [FastCompare.loop, List.getElem?_eq_getElem hi]
    simp only [diffUint8_self, Nat.add_zero, Nat.zero_mod]
    exact ih (i + 1) (by omega)

theorem FastCompare.loop_comm (pix1 pix2 : List (Fin 256)) :
    ∀ (n i acc : Nat), FastCompare.loop pix1 pix2 n i acc = FastCompare.loop pix2 pix1 n i acc := by
  intro n
  induction n with
  | zero => intro i acc; simp [FastCompare.loop]
  | succ n ih =>
    intro i acc
    rw [FastCompare.loop, FastCompare.loop]
    cases h1 : pix1[i]? <;> cases h2 : pix2[i]? <;> simp only []
    rw [diffUint8_comm, ih]

/-! ### Claims on `FastCompare` and the bounds check -/

/-- The loop of `FastCompare` completes when both buffers cover the indices it
visits. -/
theorem FastCompare.loop_ok (pix1 pix2 : List (Fin 256)) :
    ∀ (n i acc : Nat), i + n ≤ pix1.length → i + n ≤ pix2.length →
      ∃ d, FastCompare.loop pix1 pix2 n i acc = .ok d := by
  intro n
  induction n with
  | zero => intro i acc _ _; exact ⟨acc, rfl⟩
  | succ n ih =>
    intro i acc h1 h2
    have hi1 : i < pix1.length := by omega
    have hi2 : i < pix2.length := by omega
    rw [FastCompare.loop, List.getElem?_eq_getElem hi1, List.getElem?_eq_getElem hi2]
    exact ih (i + 1) _ (by omega) (by omega)

/-- The loop of `FastCompare` panics when the second buffer ends before the first. -/
theorem FastCompare.loop_panics (pix1 pix2 : List (Fin 256)) :
    ∀ (n i acc : Nat), i ≤ pix2.length → pix2.length < i + n →
      FastCompare.loop pix1 pix2 n i acc = .error .indexOutOfRange := by
  intro n
  induction n with
  | zero => intro i acc h1 h2; omega
  | succ n ih =>
    intro i acc h1 h2
    rw [FastCompare.loop]
    cases hx : pix1[i]? with
    | none => rfl
    | some x =>
      cases hy : pix2[i]? with
      | none => rfl
      | some y =>
        have hi2 : i < pix2.length := by
          by_contra hcon
          rw [List.getElem?_eq_none (by omega)] at hy
          simp at hy
        exact ih (i + 1) _ (by omega) (by omega)

/-- C1: for rasters `a`, `b` with identical bounds and pixel buffers of the same
length (a length the 64-bit accumulator cannot overflow on, `255 * len < 2^64`, which
holds for every buffer that fits in memory), `FastCompare a b` returns no error and
the sum over every byte index of `|a.Pix[i] - b.Pix[i]|`; on the `1 × 1` rasters
`[10,20,30,255]` and `[12,20,25,255]` the result is `7`. -/
theorem FastCompare_eq_sum_absDiff :
    (∀ a b : RGBA, a.Bounds = b.Bounds → a.Pix.length = b.Pix.length →
      255 * a.Pix.length < 2 ^ 64 →
      FastCompare a b =
        .ok (∑ i ∈ Finset.range a.Pix.length, absDiff (a.Pix.getD i 0) (b.Pix.getD i 0), none)) ∧
    FastCompare ⟨[10, 20, 30, 255], 4, Rect 0 0 1 1⟩ ⟨[12, 20, 25, 255], 4, Rect 0 0 1 1⟩ =
      .ok (7, none) := by
  refine ⟨?_, by decide⟩
  intro a b hb hlen hmem
  have h := FastCompare.loop_eq_sum a.Pix b.Pix a.Pix.length 0 0 (by omega) (by omega) (by omega)
  simp only [Nat.zero_add] at h
  simp [FastCompare, hb, h]

/-- The theorem of C1 applied to the two `1 × 1` rasters of the scenario. -/
theorem FastCompare_eq_sum_absDiff_witness :
    FastCompare ⟨[10, 20, 30, 255], 4, Rect 0 0 1 1⟩ ⟨[12, 20, 25, 255], 4, Rect 0 0 1 1⟩ =
      .ok (∑ i ∈ Finset.range 4,
        absDiff (([10, 20, 30, 255] : List (Fin 256)).getD i 0)
          (([12, 20, 25, 255] : List (Fin 256)).getD i 0), none) :=
  FastCompare_eq_sum_absDiff.1 ⟨[10, 20, 30, 255], 4, Rect 0 0 1 1⟩
    ⟨[12, 20, 25, 255], 4, Rect 0 0 1 1⟩ rfl rfl (by decide)

/-- C2: when the widths or the heights of the bounds differ, `Compare` returns the
value `0` with a bounds error, and so does `FastCompare` on all rasters with those
bounds, whatever their pixel buffers hold (even none at all): no pixel is read and
nothing panics. -/
theorem bounds_mismatch_error (img1 img2 : Image)
    (h : img1.Bounds.Dx ≠ img2.Bounds.Dx ∨ img1.Bounds.Dy ≠ img2.Bounds.Dy) :
    Compare img1 img2 = .ok (0, some ⟨img1.Bounds, img2.Bounds⟩) ∧
    ∀ a b : RGBA, a.Bounds = img1.Bounds → b.Bounds = img2.Bounds →
      FastCompare a b = .ok (0, some ⟨img1.Bounds, img2.Bounds⟩) := by
  have hne : img1.Bounds ≠ img2.Bounds := by
    intro heq
    rw [heq] at h
    simp at h
  refine ⟨by simp [Compare, hne], ?_⟩
  intro a b ha hb
  simp [FastCompare, ha, hb, hne]

/-- The theorem of C2 on a `2 × 1` and a `1 × 1` image, with rasters whose pixel
buffers are empty. -/
theorem bounds_mismatch_error_witness :
    Compare (.generic (Rect 0 0 2 1) fun _ _ => ⟨0, 0, 0, 0⟩) (.rgba ⟨[], 4, Rect 0 0 1 1⟩) =
        .ok (0, some ⟨Rect 0 0 2 1, Rect 0 0 1 1⟩) ∧
      FastCompare ⟨[], 8, Rect 0 0 2 1⟩ ⟨[], 4, Rect 0 0 1 1⟩ =
        .ok (0, some ⟨Rect 0 0 2 1, Rect 0 0 1 1⟩) :=
  have h := bounds_mismatch_error (.generic (Rect 0 0 2 1) fun _ _ => ⟨0, 0, 0, 0⟩)
    (.rgba ⟨[], 4, Rect 0 0 1 1⟩) (Or.inl (by decide))
  ⟨h.1, h.2 ⟨[], 8, Rect 0 0 2 1⟩ ⟨[], 4, Rect 0 0 1 1⟩ rfl rfl⟩

/-- C3: `FastCompare x x` returns no error and the value `0`, for every raster. -/
theorem FastCompare_self (x : RGBA) : FastCompare x x = .ok (0, none) := by
  simp [FastCompare, FastCompare.loop_self x.Pix x.Pix.length 0 (by omega)]

/-- C4, as amended: for equally-sized rasters whose pixel buffers have equal length,
and for any two rasters with such buffers, `FastCompare a b` and `FastCompare b a`
give the same value and the same error status; for rasters of identical bounds
they do so only when the buffers have equal length. -/
theorem FastCompare_comm (a b : RGBA) :
    (a.Pix.length = b.Pix.length →
      observed (FastCompare a b) = observed (FastCompare b a)) ∧
    (a.Bounds = b.Bounds → observed (FastCompare a b) = observed (FastCompare b a) →
      a.Pix.length = b.Pix.length) := by
  constructor
  · intro h
    unfold FastCompare
    by_cases hb : a.Bounds = b.Bounds
    · rw [if_neg (by simpa using hb), if_neg (by simpa using hb.symm), FastCompare.loop_comm, h]
    · rw [if_pos hb, if_pos (Ne.symm hb)]
      rfl
  · intro hb hobs
    by_contra hne
    rcases Nat.lt_or_gt_of_ne hne with hlt | hgt
    · obtain ⟨d, hd⟩ := FastCompare.loop_ok a.Pix b.Pix a.Pix.length 0 0 (by omega) (by omega)
      have hp := FastCompare.loop_panics b.Pix a.Pix b.Pix.length 0 0 (by omega) (by omega)
      simp [observed, Except.map, FastCompare, hb, hd, hp] at hobs
    · obtain ⟨d, hd⟩ := FastCompare.loop_ok b.Pix a.Pix b.Pix.length 0 0 (by omega) (by omega)
      have hp := FastCompare.loop_panics a.Pix b.Pix a.Pix.length 0 0 (by omega) (by omega)
      simp [observed, Except.map, FastCompare, hb, hd, hp] at hobs

/-- The theorem of C4 on two `1 × 1` rasters. -/
theorem FastCompare_comm_witness :
    observed (FastCompare ⟨[10, 20, 30, 255], 4, Rect 0 0 1 1⟩ ⟨[12, 20, 25, 255], 4, Rect 0 0 1 1⟩) =
      observed (FastCompare ⟨[12, 20, 25, 255], 4, Rect 0 0 1 1⟩ ⟨[10, 20, 30, 255], 4, Rect 0 0 1 1⟩) :=
  (FastCompare_comm ⟨[10, 20, 30, 255], 4, Rect 0 0 1 1⟩ ⟨[12, 20, 25, 255], 4, Rect 0 0 1 1⟩).1 rfl

/-- C4 fails as stated: `subRaster` and `freshRaster` are both `1 × 1` with identical
bounds; `FastCompare freshRaster subRaster` returns `0` and no error, while
`FastCompare subRaster freshRaster` panics at `img2.Pix[4]`. -/
theorem FastCompare_not_comm_counterexample :
    subRaster.Bounds = freshRaster.Bounds ∧
    subRaster.Bounds.Dx = 1 ∧ subRaster.Bounds.Dy = 1 ∧
    freshRaster.Bounds.Dx = 1 ∧ freshRaster.Bounds.Dy = 1 ∧
    FastCompare freshRaster subRaster = .ok (0, none) ∧
    FastCompare subRaster freshRaster = .error .indexOutOfRange ∧
    observed (FastCompare subRaster freshRaster) ≠
      observed (FastCompare freshRaster subRaster) := by
  decide

/-! ## Theorems: `Compare` -/

theorem wrapInt64_eq (z : Int) (h0 : -2 ^ 63 ≤ z) (h1 : z < 2 ^ 63) : wrapInt64 z = z := by
  unfold wrapInt64
  omega

theorem sqDiff_eq (x y : Nat) (hx : x ≤ 0xffff) (hy : y ≤ 0xffff) :
    sqDiff x y = specSqDiff x y ∧ sqDiff x y ≤ 0x3fff8000 := by
  unfold sqDiff specSqDiff
  obtain ⟨d, hd, hd1, hd2⟩ : ∃ d : Nat, d = Int.natAbs ((x : Int) - (y : Int)) ∧ d ≤ 0xffff ∧
      (if x > y then (x + 2 ^ 32 - y) % 2 ^ 32 else (y + 2 ^ 32 - x) % 2 ^ 32) = d := by
    refine ⟨_, rfl, by omega, ?_⟩
    split <;> omega
  rw [← hd]
  simp only [hd2]
  have hdd : d * d ≤ 0xffff * 0xffff := Nat.mul_le_mul hd1 hd1
  have hmod : d * d % 2 ^ 32 = d * d := Nat.mod_eq_of_lt (by omega)
  rw [hmod, pow_two, Nat.shiftRight_eq_div_pow]
  constructor
  · rfl
  · omega

theorem pixelSum_eq (c1 c2 : Color) (h1 : c1.Valid) (h2 : c2.Valid) :
    pixelSum c1 c2 = specPixel c1 c2 ∧ pixelSum c1 c2 < 2 ^ 32 := by
  obtain ⟨r1, g1, b1, a1⟩ := h1
  obtain ⟨r2, g2, b2, a2⟩ := h2
  obtain ⟨er, hr⟩ := sqDiff_eq c1.R c2.R r1 r2
  obtain ⟨eg, hg⟩ := sqDiff_eq c1.G c2.G g1 g2
  obtain ⟨eb, hb⟩ := sqDiff_eq c1.B c2.B b1 b2
  obtain ⟨ea, ha⟩ := sqDiff_eq c1.A c2.A a1 a2
  unfold pixelSum specPixel
  rw [← er, ← eg, ← eb, ← ea]
  omega

/-- The inner loop of `Compare` adds the pixel contributions of the row, when the
accumulator stays in the `int64` range. -/
theorem Compare.row_eq_sum (img1 img2 : Image) (c1 c2 : Int → Int → Color) (y : Int) :
    ∀ (n : Nat) (x acc : Int),
      (∀ k : Nat, k < n → (img1.At (x + k) y = .ok (c1 (x + k) y) ∧ (c1 (x + k) y).Valid) ∧
        (img2.At (x + k) y = .ok (c2 (x + k) y) ∧ (c2 (x + k) y).Valid)) →
      0 ≤ acc →
      acc + (∑ k ∈ Finset.range n, specPixel (c1 (x + k) y) (c2 (x + k) y) : Nat) < 2 ^ 63 →
      Compare.row img1 img2 y n x acc =
        .ok (acc + (∑ k ∈ Finset.range n, specPixel (c1 (x + k) y) (c2 (x + k) y) : Nat)) := by
  intro n
  induction n with
  | zero => intro x acc _ _ _; simp [Compare.row]
  | succ n ih =>
    intro x acc h hacc hlt
    obtain ⟨⟨e1, v1⟩, ⟨e2, v2⟩⟩ := h 0 (by omega)
    simp only [Nat.cast_zero, add_zero] at e1 e2 v1 v2
    obtain ⟨ep, _⟩ := pixelSum_eq _ _ v1 v2
    have hstep : ∀ k : Nat, x + 1 + (k : Int) = x + ((k + 1 : Nat) : Int) := by
      intro k; push_cast; ring
    rw [Finset.sum_range_succ'] at hlt ⊢
    simp only [Nat.cast_zero, add_zero] at hlt ⊢
    rw [Nat.cast_add] at hlt ⊢
    rw [Compare.row, e1, e2]
    simp only []
    rw [ep, wrapInt64_eq _ (by omega) (by omega), ih (x + 1) _ ?_ (by omega) ?_]
    · simp only [hstep]
      congr 1
      omega
    · intro k hk
      have := h (k + 1) (by omega)
      simpa only [hstep] using this
    · simp only [hstep]
      omega

/-- The outer loop of `Compare` adds the pixel contributions of the rows it
visits, when the accumulator stays in the `int64` range. -/
theorem Compare.rows_eq_sum (img1 img2 : Image) (b : Rectangle) (c1 c2 : Int → Int → Color) :
    ∀ (n : Nat) (y acc : Int),
      (∀ j : Nat, j < n → ∀ k : Nat, k < (b.Max.X - b.Min.X).toNat →
        (img1.At (b.Min.X + k) (y + j) = .ok (c1 (b.Min.X + k) (y + j)) ∧
          (c1 (b.Min.X + k) (y + j)).Valid) ∧
        (img2.At (b.Min.X + k) (y + j) = .ok (c2 (b.Min.X + k) (y + j)) ∧
          (c2 (b.Min.X + k) (y + j)).Valid)) →
      0 ≤ acc →
      acc + (∑ j ∈ Finset.range n, ∑ i ∈ Finset.range (b.Max.X - b.Min.X).toNat,
        specPixel (c1 (b.Min.X + i) (y + j)) (c2 (b.Min.X + i) (y + j)) : Nat) < 2 ^ 63 →
      Compare.rows img1 img2 b n y acc =
        .ok (acc + (∑ j ∈ Finset.range n, ∑ i ∈ Finset.range (b.Max.X - b.Min.X).toNat,
          specPixel (c1 (b.Min.X + i) (y + j)) (c2 (b.Min.X + i) (y + j)) : Nat)) := by
  intro n
  induction n with
  | zero => intro y acc _ _ _; simp [Compare.rows]
  | succ n ih =>
    intro y acc h hacc hlt
    have hstep : ∀ j : Nat, y + 1 + (j : Int) = y + ((j + 1 : Nat) : Int) := by
      intro j; push_cast; ring
    have h0 := h 0 (by omega)
    simp only [Nat.cast_zero, add_zero] at h0
    rw [Finset.sum_range_succ'] at hlt ⊢
    simp only [Nat.cast_zero, add_zero] at hlt ⊢
    rw [Nat.cast_add] at hlt ⊢
    rw [Compare.rows, Compare.row_eq_sum img1 img2 c1 c2 y _ _ _ h0 hacc (by omega)]
    simp only []
    rw [ih (y + 1) _ ?_ (by omega) ?_]
    · simp only [hstep]
      congr 1
      omega
    · intro j hj
      have := h (j + 1) (by omega)
      simpa only [hstep] using this
    · simp only [hstep]
      omega

/-- On images with identical bounds that can be read everywhere, `Compare`
converts the total `T` to a `float64`, takes the rounded root and truncates it. -/
theorem Compare_eq_float (img1 img2 : Image) (c1 c2 : Int → Int → Color)
    (hb : img1.Bounds = img2.Bounds) (h1 : img1.ReadsAs c1) (h2 : img2.ReadsAs c2)
    (hT : specTotal img1.Bounds c1 c2 < 2 ^ 63) :
    Compare img1 img2 =
      .ok ((sqrtFloat64ToInt (float64OfNat (specTotal img1.Bounds c1 c2)) : Nat), none) := by
  have hrows := Compare.rows_eq_sum img1 img2 img1.Bounds c1 c2
    (img1.Bounds.Max.Y - img1.Bounds.Min.Y).toNat img1.Bounds.Min.Y 0 ?_ (le_refl 0) ?_
  · unfold Compare
    rw [if_neg (by simpa using hb)]
    simp only []
    rw [hrows]
    simp only [zero_add]
    unfold sqrtOfAccum
    rw [if_neg (by omega)]
    simp only [Int.toNat_ofNat]
    rfl
  · intro j hj k hk
    constructor
    · exact h1 _ _ (by omega) (by omega) (by omega) (by omega)
    · exact h2 _ _ (by rw [← hb]; omega) (by rw [← hb]; omega) (by rw [← hb]; omega)
        (by rw [← hb]; omega)
  · simp only [zero_add]
    exact_mod_cast hT

theorem log2_eq_of_bounds {n k : Nat} (h1 : 2 ^ k ≤ n) (h2 : n < 2 ^ (k + 1)) :
    Nat.log2 n = k := by
  have h0 : n ≠ 0 := by
    have : 0 < 2 ^ k := Nat.pow_pos (by decide)
    omega
  have ha : Nat.log2 n < k + 1 := (Nat.log2_lt h0).mpr h2
  have hb : ¬ Nat.log2 n < k := fun h => absurd ((Nat.log2_lt h0).mp h) (by omega)
  omega

/-- Rounding the root of `v * S^2` to the nearest integer and dividing by `S`
gives the integer root `k` of `v`, when `k < S`, or when `k < 2 * S` and `v` is not
the predecessor of the square `(k + 1)^2`. -/
theorem round_sqrt_div (v S : Nat) (hSpos : 0 < S)
    (hS : Nat.sqrt v + 1 ≤ S ∨
      (Nat.sqrt v + 1 ≤ 2 * S ∧ v + 2 ≤ (Nat.sqrt v + 1) * (Nat.sqrt v + 1))) :
    (if v * (S * S) - Nat.sqrt (v * (S * S)) * Nat.sqrt (v * (S * S)) > Nat.sqrt (v * (S * S))
      then Nat.sqrt (v * (S * S)) + 1 else Nat.sqrt (v * (S * S))) / S = Nat.sqrt v := by
  obtain ⟨hk1, hk2⟩ := Nat.eq_sqrt.mp (rfl : Nat.sqrt v = Nat.sqrt v)
  obtain ⟨hs1, hs2⟩ := Nat.eq_sqrt.mp (rfl : Nat.sqrt (v * (S * S)) = Nat.sqrt (v * (S * S)))
  generalize Nat.sqrt v = k at *
  generalize Nat.sqrt (v * (S * S)) = s at *
  have hlow : k * S ≤ s := by
    by_contra hcon
    have h1 : s + 1 ≤ k * S := by omega
    have h2 : (s + 1) * (s + 1) ≤ (k * S) * (k * S) := Nat.mul_le_mul h1 h1
    have h3 : (k * S) * (k * S) ≤ v * (S * S) := by
      calc (k * S) * (k * S) = (k * k) * (S * S) := by ring
        _ ≤ v * (S * S) := Nat.mul_le_mul_right _ hk1
    omega
  have hA : v * (S * S) + S * S ≤ ((k + 1) * S) * ((k + 1) * S) := by
    calc v * (S * S) + S * S = (v + 1) * (S * S) := by ring
      _ ≤ ((k + 1) * (k + 1)) * (S * S) := Nat.mul_le_mul_right _ hk2
      _ = ((k + 1) * S) * ((k + 1) * S) := by ring
  have hSS : 0 < S * S := Nat.mul_pos hSpos hSpos
  have hhigh : s < (k + 1) * S := by
    by_contra hcon
    have h1 : (k + 1) * S ≤ s := by omega
    have h2 : ((k + 1) * S) * ((k + 1) * S) ≤ s * s := Nat.mul_le_mul h1 h1
    omega
  apply Nat.div_eq_of_lt_le
  · split <;> omega
  · split
    · rename_i hgt
      by_contra hcon
      have hs : s + 1 = (k + 1) * S := by
        have : (k + 1) * S = k.succ * S := rfl
        omega
      have h1 : ((k + 1) * S) * ((k + 1) * S) = s * s + s + (k + 1) * S := by
        rw [← hs]; ring
      rcases hS with hS | ⟨hS, hv⟩
      · have h2 : (k + 1) * S ≤ S * S := Nat.mul_le_mul_right _ hS
        omega
      · have h2 : (k + 1) * S ≤ 2 * S * S := Nat.mul_le_mul_right _ hS
        have hB : v * (S * S) + 2 * (S * S) ≤ ((k + 1) * S) * ((k + 1) * S) := by
          calc v * (S * S) + 2 * (S * S) = (v + 2) * (S * S) := by ring
            _ ≤ ((k + 1) * (k + 1)) * (S * S) := Nat.mul_le_mul_right _ hv
            _ = ((k + 1) * S) * ((k + 1) * S) := by ring
        have h3 : 2 * S * S = 2 * (S * S) := by ring
        omega
    · exact hhigh

/-- Below `2^52 + 2^27` the truncated `float64` root is the integer square root. -/
theorem sqrtFloat64ToInt_eq_sqrt (v : Nat) (hv : v < 2 ^ 52 + 2 ^ 27) :
    sqrtFloat64ToInt (float64OfNat v) = Nat.sqrt v := by
  have hf : float64OfNat v = v := by
    unfold float64OfNat
    rw [if_pos (by omega)]
  rw [hf]
  unfold sqrtFloat64ToInt
  by_cases h0 : v = 0
  · simp [h0]
  · rw [if_neg h0]
    simp only []
    have h4 : (4 : Nat) ^ (52 - Nat.log2 v / 2) =
        2 ^ (52 - Nat.log2 v / 2) * 2 ^ (52 - Nat.log2 v / 2) := by
      rw [← Nat.mul_pow]
    rw [h4]
    have hpos : 0 < 2 ^ (52 - Nat.log2 v / 2) := Nat.pow_pos (by decide)
    by_cases hlt : v < 2 ^ 52
    · have hlog : Nat.log2 v < 52 := (Nat.log2_lt h0).mpr hlt
      have hj : 27 ≤ 52 - Nat.log2 v / 2 := by omega
      have hk : Nat.sqrt v < 2 ^ 26 := Nat.sqrt_lt.mpr (by omega)
      have hS : (2 : Nat) ^ 27 ≤ 2 ^ (52 - Nat.log2 v / 2) := Nat.pow_le_pow_right (by omega) hj
      exact round_sqrt_div v _ hpos (Or.inl (by omega))
    · have hlog : Nat.log2 v = 52 := log2_eq_of_bounds (by omega) (by omega)
      have hk : Nat.sqrt v = 2 ^ 26 := (Nat.eq_sqrt.mpr ⟨by omega, by omega⟩).symm
      rw [hlog]
      exact round_sqrt_div v _ (by norm_num) (Or.inr (by rw [hk]; constructor <;> omega))

theorem specTotal_opaque_clear :
    specTotal (Rect 0 0 1024 1506) (fun _ _ => ⟨0x8200, 0xAE00, 0xFFFF, 0xFFFF⟩)
      (fun _ _ => ⟨0, 0, 0, 0⟩) = 4503599761588224 := by
  have hp : specPixel ⟨0x8200, 0xAE00, 0xFFFF, 0xFFFF⟩ ⟨0, 0, 0, 0⟩ = 2920349696 := by decide
  unfold specTotal
  simp only [hp, Finset.sum_const, Finset.card_range, smul_eq_mul]
  decide

theorem sqrtFloat64ToInt_above :
    sqrtFloat64ToInt (float64OfNat 4503599761588224) = 67108865 := by
  have hf : float64OfNat 4503599761588224 = 4503599761588224 := by
    unfold float64OfNat
    rw [if_pos (by norm_num)]
  have hl : Nat.log2 4503599761588224 = 52 := log2_eq_of_bounds (by norm_num) (by norm_num)
  have hs : Nat.sqrt (4503599761588224 * 4 ^ (52 - 52 / 2)) = 4503599694479359 :=
    (Nat.eq_sqrt.mpr ⟨by norm_num, by norm_num⟩).symm
  rw [hf]
  unfold sqrtFloat64ToInt
  rw [if_neg (by norm_num)]
  simp only [hl, hs]
  norm_num

theorem generic_readsAs (b : Rectangle) (f : Int → Int → Color) (hf : ∀ x y, (f x y).Valid) :
    (Image.generic b f).ReadsAs f :=
  fun x y _ _ _ _ => ⟨rfl, hf x y⟩

theorem pixel_readsAs (r g b a : Fin 256) :
    (Image.rgba ⟨[r, g, b, a], 4, Rect 0 0 1 1⟩).ReadsAs fun _ _ => colorRGBA r g b a := by
  intro x y h1 h2 h3 h4
  have hx : x = 0 := by
    simp only [Image.Bounds, Rect] at h1 h2
    simp at h1 h2
    omega
  have hy : y = 0 := by
    simp only [Image.Bounds, Rect] at h3 h4
    simp at h3 h4
    omega
  subst hx hy
  refine ⟨rfl, ?_⟩
  have hr := r.isLt
  have hg := g.isLt
  have hb := b.isLt
  have ha := a.isLt
  simp only [Color.Valid, colorRGBA]
  omega

/-! ### Claim on `Compare` -/

/-- C5, as amended: for two images with identical bounds that can be read at every
point of the bounds with 16-bit channel values, and whose total `T` is below
`2^52 + 2^27`, `Compare` returns no error and the integer square root of `T`, the
sum over all pixels of the four channel terms `|x - y|^2 >> 2`. -/
theorem Compare_eq_sqrt (img1 img2 : Image) (c1 c2 : Int → Int → Color)
    (hb : img1.Bounds = img2.Bounds) (h1 : img1.ReadsAs c1) (h2 : img2.ReadsAs c2)
    (hT : specTotal img1.Bounds c1 c2 < 2 ^ 52 + 2 ^ 27) :
    Compare img1 img2 = .ok ((Nat.sqrt (specTotal img1.Bounds c1 c2) : Nat), none) := by
  rw [Compare_eq_float img1 img2 c1 c2 hb h1 h2 (by omega), sqrtFloat64ToInt_eq_sqrt _ hT]

/-- The theorem of C5 on the two `1 × 1` rasters `[10,20,30,255]` and
`[12,20,25,255]`, whose total is `478153`. -/
theorem Compare_eq_sqrt_witness :
    Compare (.rgba ⟨[10, 20, 30, 255], 4, Rect 0 0 1 1⟩) (.rgba ⟨[12, 20, 25, 255], 4, Rect 0 0 1 1⟩) =
      .ok ((Nat.sqrt (specTotal (Rect 0 0 1 1) (fun _ _ => colorRGBA 10 20 30 255)
        (fun _ _ => colorRGBA 12 20 25 255)) : Nat), none) :=
  Compare_eq_sqrt (.rgba ⟨[10, 20, 30, 255], 4, Rect 0 0 1 1⟩)
    (.rgba ⟨[12, 20, 25, 255], 4, Rect 0 0 1 1⟩) _ _ rfl (pixel_readsAs 10 20 30 255)
    (pixel_readsAs 12 20 25 255) (by decide)

/-- C5 fails as stated: on the `1024 × 1506` images `opaqueImage` and `clearImage`,
of identical bounds, the total is `T = 2^52 + 2^27 = 67108865^2 - 1`; `Compare`
returns `67108865`, because the `float64` root of `T` rounds up to that integer,
while the integer square root of `T` is `67108864`. -/
theorem Compare_ne_sqrt_counterexample :
    opaqueImage.Bounds = clearImage.Bounds ∧
    Compare opaqueImage clearImage = .ok (67108865, none) ∧
    Nat.sqrt (specTotal opaqueImage.Bounds (fun _ _ => ⟨0x8200, 0xAE00, 0xFFFF, 0xFFFF⟩)
      (fun _ _ => ⟨0, 0, 0, 0⟩)) = 67108864 := by
  have hT := specTotal_opaque_clear
  refine ⟨rfl, ?_, ?_⟩
  · have h := Compare_eq_float opaqueImage clearImage
      (fun _ _ => ⟨0x8200, 0xAE00, 0xFFFF, 0xFFFF⟩) (fun _ _ => ⟨0, 0, 0, 0⟩) rfl
      (generic_readsAs _ _ fun _ _ => by decide) (generic_readsAs _ _ fun _ _ => by decide)
      (by
        show specTotal (Rect 0 0 1024 1506) _ _ < 2 ^ 63
        rw [hT]
        norm_num)
    rw [h]
    show Except.ok (((sqrtFloat64ToInt (float64OfNat (specTotal (Rect 0 0 1024 1506) _ _)) : Nat) : Int), none) = _
    rw [hT, sqrtFloat64ToInt_above]
    rfl
  · show Nat.sqrt (specTotal (Rect 0 0 1024 1506) _ _) = _
    rw [hT]
    exact (Nat.eq_sqrt.mpr ⟨by norm_num, by norm_num⟩).symm

/-! ## Theorems: the evolution loop -/

section EvolverTheorems

variable {G : Type}

theorem noSaved_append {l1 l2 : List (Event G)} (h1 : NoSaved l1) (h2 : NoSaved l2) :
    NoSaved (l1 ++ l2) := by
  intro e he
  rcases List.mem_append.mp he with h | h
  · exact h1 e h
  · exact h2 e h

/-- The sink loop only appends `update` effects, whether it completes or panics. -/
theorem updateSinks_noSaved (candidates : List (Candidate G)) :
    ∀ (sinks : List SafeImage) (i : Nat) (events : List (Event G)), NoSaved events →
      (∀ events2, updateSinks candidates sinks i events = .ok events2 → NoSaved events2) ∧
      (∀ events2, updateSinks candidates sinks i events = .error events2 → NoSaved events2) := by
  intro sinks
  induction sinks with
  | nil =>
    intro i events h
    constructor
    · intro events2 h2
      simp only [updateSinks, Except.ok.injEq] at h2
      exact h2 ▸ h
    · intro events2 h2
      simp [updateSinks] at h2
  | cons sink rest ih =>
    intro i events h
    unfold updateSinks
    cases hc : candidates[i]? with
    | none =>
      constructor
      · intro events2 h2
        simp at h2
      · intro events2 h2
        simp only [Except.error.injEq] at h2
        exact h2 ▸ h
    | some c =>
      have hn : NoSaved (events ++ [Event.update i sink c.img]) :=
        noSaved_append h (by intro e he; simp at he; subst he; rfl)
      exact ih (i + 1) _ hn

/-- The sink loop completes when the slice has a candidate for every sink. -/
theorem updateSinks_ok (candidates : List (Candidate G)) :
    ∀ (sinks : List SafeImage) (i : Nat) (events : List (Event G)),
      i + sinks.length ≤ candidates.length →
      ∃ events2, updateSinks candidates sinks i events = .ok events2 := by
  intro sinks
  induction sinks with
  | nil => intro i events _; exact ⟨events, rfl⟩
  | cons sink rest ih =>
    intro i events h
    simp only [List.length_cons] at h
    have hi : i < candidates.length := by omega
    unfold updateSinks
    rw [List.getElem?_eq_getElem hi]
    exact ih (i + 1) _ (by omega)

theorem printStats_noSaved (candidates : List (Candidate G)) (gen since : Nat) (e : Event G)
    (h : printStats candidates gen since = .ok e) : e.isSaved = false := by
  unfold printStats at h
  split at h
  · simp only [Except.ok.injEq] at h
    subst h
    rfl
  · simp at h

theorem logStats_noSaved (candidates : List (Candidate G)) (gen : Nat) (s : LoopState G)
    (events1 : List (Event G)) (h : logStats candidates gen s = .ok events1)
    (hs : NoSaved s.events) : NoSaved events1 := by
  unfold logStats at h
  split at h
  · cases hp : printStats candidates gen s.generationsSinceChange with
    | error f => rw [hp] at h; simp at h
    | ok e =>
      rw [hp] at h
      simp only [Except.ok.injEq] at h
      subst h
      exact noSaved_append hs (by
        intro e1 he
        simp only [List.mem_singleton] at he
        subst he
        exact printStats_noSaved candidates gen _ _ hp)
  · simp only [Except.ok.injEq] at h
    exact h ▸ hs

theorem selection_error_events (env : Env G) (ref : RGBA) (gen : Nat) (s : LoopState G)
    (a : Aborted G) (h : selection env ref gen s = .error a) : a.events = s.events := by
  unfold selection at h
  split at h
  · simp only [Except.error.injEq] at h
    subst h
    rfl
  · split at h
    · simp only [Except.error.injEq] at h
      subst h
      rfl
    · split at h
      · simp only [Except.error.injEq] at h
        subst h
        rfl
      · simp at h

/-- What a completed iteration went through. -/
theorem generation_ok_inv (env : Env G) (ref : RGBA) (sinks : List SafeImage) (gen : Nat)
    (s s1 : LoopState G) (h : generation env ref sinks gen s = .ok s1) :
    ∃ candidates events1 events2 currBest,
      selection env ref gen s = .ok candidates ∧
      logStats candidates gen s = .ok events1 ∧
      updateSinks candidates sinks 0 events1 = .ok events2 ∧
      candidates[0]? = some currBest ∧
      s1 = accept env candidates currBest events2 s := by
  unfold generation at h
  split at h
  · simp at h
  · rename_i candidates hsel
    split at h
    · simp at h
    · rename_i events1 hlog
      split at h
      · simp at h
      · rename_i events2 hup
        split at h
        · simp at h
        · rename_i currBest hbest
          simp only [Except.ok.injEq] at h
          exact ⟨candidates, events1, events2, currBest, hsel, hlog, hup, hbest, h.symm⟩

theorem accept_events (env : Env G) (candidates : List (Candidate G)) (currBest : Candidate G)
    (events : List (Event G)) (s : LoopState G) :
    (accept env candidates currBest events s).events = events := by
  unfold accept
  split <;> rfl

theorem accept_fitness_le (env : Env G) (candidates : List (Candidate G))
    (currBest : Candidate G) (events : List (Event G)) (s : LoopState G) :
    (accept env candidates currBest events s).mostFit.Fitness ≤ s.mostFit.Fitness := by
  unfold accept
  split
  · rename_i h
    exact Nat.le_of_lt h
  · exact Nat.le_refl _

theorem generation_fitness_le (env : Env G) (ref : RGBA) (sinks : List SafeImage) (gen : Nat)
    (s s1 : LoopState G) (h : generation env ref sinks gen s = .ok s1) :
    s1.mostFit.Fitness ≤ s.mostFit.Fitness := by
  obtain ⟨candidates, events1, events2, currBest, _, _, _, _, hs1⟩ :=
    generation_ok_inv env ref sinks gen s s1 h
  rw [hs1]
  exact accept_fitness_le env candidates currBest events2 s

/-- A run of `a + b` iterations is a run of `a` iterations followed by `b` more. -/
theorem generations_add (env : Env G) (ref : RGBA) (sinks : List SafeImage) :
    ∀ (a b gen : Nat) (s : LoopState G),
      generations env ref sinks (a + b) gen s =
        match generations env ref sinks a gen s with
        | .error e => .error e
        | .ok s1 => generations env ref sinks b (gen + a) s1 := by
  intro a
  induction a with
  | zero => intro b gen s; simp [generations]
  | succ a ih =>
    intro b gen s
    rw [show a + 1 + b = (a + b) + 1 by omega, generations, generations]
    cases hg : generation env ref sinks gen s with
    | error e => rfl
    | ok s1 =>
      simp only []
      rw [ih b (gen + 1) s1, show gen + 1 + a = gen + (a + 1) by omega]

theorem generations_fitness_le (env : Env G) (ref : RGBA) (sinks : List SafeImage) :
    ∀ (n gen : Nat) (s s1 : LoopState G), generations env ref sinks n gen s = .ok s1 →
      s1.mostFit.Fitness ≤ s.mostFit.Fitness := by
  intro n
  induction n with
  | zero =>
    intro gen s s1 h
    simp only [generations, Except.ok.injEq] at h
    rw [h]
  | succ n ih =>
    intro gen s s1 h
    rw [generations] at h
    cases hg : generation env ref sinks gen s with
    | error e => rw [hg] at h; simp at h
    | ok s2 =>
      rw [hg] at h
      exact Nat.le_trans (ih (gen + 1) s2 s1 h) (generation_fitness_le env ref sinks gen s s2 hg)

theorem receive_length : ∀ (offspring : List (Candidate G))
    (candidates : List (Option (Candidate G))) (i : Nat) (filled : List (Option (Candidate G))),
    receive candidates offspring i = .ok filled → filled.length = candidates.length := by
  intro offspring
  induction offspring with
  | nil =>
    intro candidates i filled h
    simp only [receive, Except.ok.injEq] at h
    rw [h]
  | cons c cs ih =>
    intro candidates i filled h
    unfold receive at h
    split at h
    · rw [ih _ _ _ h, List.length_set]
    · simp at h

theorem nonNil_eq_some : ∀ (l : List (Option (Candidate G))) (population : List (Candidate G)),
    nonNil l = some population → l = population.map some := by
  intro l
  induction l with
  | nil =>
    intro population h
    simp only [nonNil, Option.some.injEq] at h
    subst h
    rfl
  | cons x xs ih =>
    intro population h
    cases x with
    | none => simp [nonNil] at h
    | some c =>
      unfold nonNil at h
      cases hx : nonNil xs with
      | none => rw [hx] at h; simp at h
      | some l1 =>
        rw [hx] at h
        simp only [Option.some.injEq] at h
        subst h
        rw [ih l1 hx]
        rfl

/-- What a completed selection went through. -/
theorem selection_ok_inv (env : Env G) (ref : RGBA) (gen : Nat) (s : LoopState G)
    (candidates : List (Candidate G)) (h : selection env ref gen s = .ok candidates) :
    ∃ offspring filled population,
      fanOut env ref s.mostFit gen (env.PopulationCount - 1) 1 s.nextPtr = .ok offspring ∧
      receive s.candidates offspring 1 = .ok filled ∧
      nonNil filled = some population ∧
      candidates = env.sortSort population := by
  unfold selection at h
  split at h
  · simp at h
  · rename_i offspring hf
    split at h
    · simp at h
    · rename_i filled hr
      split at h
      · simp at h
      · rename_i population hn
        simp only [Except.ok.injEq] at h
        exact ⟨offspring, filled, population, hf, hr, hn, h.symm⟩

theorem selection_length (env : Env G) (hsort : IsSortSort env.sortSort) (ref : RGBA) (gen : Nat)
    (s : LoopState G) (candidates : List (Candidate G))
    (h : selection env ref gen s = .ok candidates) :
    candidates.length = s.candidates.length := by
  obtain ⟨offspring, filled, population, _, hr, hn, hc⟩ := selection_ok_inv env ref gen s _ h
  rw [hc, (hsort.perm population).length_eq, ← receive_length _ _ _ _ hr, nonNil_eq_some _ _ hn,
    List.length_map]

theorem accept_candidates (env : Env G) (candidates : List (Candidate G)) (currBest : Candidate G)
    (events : List (Event G)) (s : LoopState G) :
    (accept env candidates currBest events s).candidates = candidates.map some := by
  unfold accept
  split <;> rfl

theorem generation_length (env : Env G) (hsort : IsSortSort env.sortSort) (ref : RGBA)
    (sinks : List SafeImage) (gen : Nat) (s s1 : LoopState G)
    (h : generation env ref sinks gen s = .ok s1) :
    s1.candidates.length = s.candidates.length := by
  obtain ⟨candidates, events1, events2, currBest, hsel, _, _, _, hs1⟩ :=
    generation_ok_inv env ref sinks gen s s1 h
  rw [hs1, accept_candidates, List.length_map, selection_length env hsort ref gen s _ hsel]

theorem generations_length (env : Env G) (hsort : IsSortSort env.sortSort) (ref : RGBA)
    (sinks : List SafeImage) :
    ∀ (n gen : Nat) (s s1 : LoopState G), generations env ref sinks n gen s = .ok s1 →
      s1.candidates.length = s.candidates.length := by
  intro n
  induction n with
  | zero =>
    intro gen s s1 h
    simp only [generations, Except.ok.injEq] at h
    rw [h]
  | succ n ih =>
    intro gen s s1 h
    rw [generations] at h
    cases hg : generation env ref sinks gen s with
    | error e => rw [hg] at h; simp at h
    | ok s2 =>
      rw [hg] at h
      rw [ih (gen + 1) s2 s1 h, generation_length env hsort ref sinks gen s s2 hg]

/-- What the start of a run that reaches the loop went through. -/
theorem initialState_ok_inv (env : Env G) (img : Image) (ref : RGBA) (s0 : LoopState G)
    (h : initialState env img = .ok (ref, s0)) :
    ConvertToRGBA img = .ok ref ∧
    evaluateCandidate ⟨0, (env.RandomCandidate ref.Bounds.Dx ref.Bounds.Dy).1,
      (env.RandomCandidate ref.Bounds.Dx ref.Bounds.Dy).2, 0⟩ ref = .ok s0.mostFit ∧
    0 < env.PopulationCount ∧
    s0 = ⟨(List.replicate env.PopulationCount none).set 0 (some s0.mostFit), s0.mostFit, 0, [], 1⟩ := by
  unfold initialState at h
  split at h
  · simp at h
  · rename_i ref1 hc
    simp only [] at h
    split at h
    · simp at h
    · rename_i mostFit he
      split at h
      · rename_i hP
        simp only [Except.ok.injEq, Prod.mk.injEq] at h
        obtain ⟨h1, h2⟩ := h
        subst h1
        subst h2
        simp only [List.length_replicate] at hP
        exact ⟨hc, he, hP, rfl⟩
      · simp at h

theorem sorted_of_isSortSort (env : Env G) (hsort : IsSortSort env.sortSort)
    (population : List (Candidate G)) :
    (env.sortSort population).Pairwise fun a b => a.Fitness ≤ b.Fitness := by
  refine (hsort.sorted population).imp ?_
  intro a b h
  simp only [ByFitness.Less, decide_eq_false_iff_not, Nat.not_lt] at h
  exact h

/-- In a sorted slice the first element is a minimum and the last a maximum. -/
theorem pairwise_first_last (l : List (Candidate G))
    (h : l.Pairwise fun a b => a.Fitness ≤ b.Fitness) (hl : 0 < l.length) :
    ∃ best worst, l[0]? = some best ∧ l[l.length - 1]? = some worst ∧
      ∀ c ∈ l, best.Fitness ≤ c.Fitness ∧ c.Fitness ≤ worst.Fitness := by
  have hlast : l.length - 1 < l.length := by omega
  refine ⟨l[0], l[l.length - 1], List.getElem?_eq_getElem hl, List.getElem?_eq_getElem hlast, ?_⟩
  intro c hc
  obtain ⟨k, hk, rfl⟩ := List.getElem_of_mem hc
  rw [List.pairwise_iff_getElem] at h
  constructor
  · rcases Nat.eq_zero_or_pos k with h0 | h0
    · subst h0; exact Nat.le_refl _
    · exact h 0 k hl hk h0
  · rcases Nat.lt_or_ge k (l.length - 1) with h1 | h1
    · exact h k (l.length - 1) hk hlast h1
    · have : k = l.length - 1 := by omega
      subst this
      exact Nat.le_refl _

theorem evaluateCandidate_ok_inv (c c1 : Candidate G) (ref : RGBA)
    (h : evaluateCandidate c ref = .ok c1) :
    FastCompare ref c.img = .ok (c1.Fitness, none) ∧ c1 = { c with Fitness := c1.Fitness } := by
  unfold evaluateCandidate at h
  split at h
  · simp at h
  · simp at h
  · rename_i diff hf
    simp only [Except.ok.injEq] at h
    subst h
    exact ⟨hf, rfl⟩

/-- With a population of one the selection step has no offspring and returns the
slice it found. -/
theorem solo_selection (env : Env G) (hP : env.PopulationCount = 1)
    (hsort : IsSortSort env.sortSort) (ref : RGBA) (gen : Nat) (s : LoopState G)
    (hc : s.candidates = [some s.mostFit]) :
    fanOut env ref s.mostFit gen (env.PopulationCount - 1) 1 s.nextPtr = .ok [] ∧
    selection env ref gen s = .ok [s.mostFit] := by
  have hf : fanOut env ref s.mostFit gen (env.PopulationCount - 1) 1 s.nextPtr = .ok [] := by
    rw [hP]
    rfl
  refine ⟨hf, ?_⟩
  unfold selection
  rw [hf, hc]
  simp only [receive, nonNil]
  rw [List.perm_singleton.mp (hsort.perm [s.mostFit])]

theorem solo_generation (env : Env G) (hP : env.PopulationCount = 1)
    (hsort : IsSortSort env.sortSort) (ref : RGBA) (sinks : List SafeImage)
    (hs : sinks.length ≤ 1) (gen : Nat) (s : LoopState G)
    (hc : s.candidates = [some s.mostFit]) :
    ∃ s1, generation env ref sinks gen s = .ok s1 ∧ s1.mostFit = s.mostFit ∧
      s1.candidates = [some s1.mostFit] ∧ s1.nextPtr = s.nextPtr ∧
      s1.generationsSinceChange = s.generationsSinceChange + 1 := by
  obtain ⟨_, hsel⟩ := solo_selection env hP hsort ref gen s hc
  obtain ⟨events1, h1⟩ : ∃ events1, logStats [s.mostFit] gen s = .ok events1 := by
    unfold logStats printStats
    split
    · exact ⟨_, rfl⟩
    · exact ⟨_, rfl⟩
  obtain ⟨events2, h2⟩ := updateSinks_ok [s.mostFit] sinks 0 events1 (by simpa using hs)
  refine ⟨accept env [s.mostFit] s.mostFit events2 s, ?_, ?_⟩
  · unfold generation
    rw [hsel]
    simp only []
    rw [h1]
    simp only []
    rw [h2]
    rfl
  · unfold accept
    rw [if_neg (Nat.lt_irrefl _), hP]
    exact ⟨rfl, rfl, rfl, rfl⟩

theorem solo_generations (env : Env G) (hP : env.PopulationCount = 1)
    (hsort : IsSortSort env.sortSort) (ref : RGBA) (sinks : List SafeImage)
    (hs : sinks.length ≤ 1) :
    ∀ (n gen : Nat) (s : LoopState G), s.candidates = [some s.mostFit] →
      ∃ sn, generations env ref sinks n gen s = .ok sn ∧ sn.mostFit = s.mostFit ∧
        sn.candidates = [some sn.mostFit] ∧ sn.nextPtr = s.nextPtr ∧
        sn.generationsSinceChange = s.generationsSinceChange + n := by
  intro n
  induction n with
  | zero => intro gen s hc; exact ⟨s, rfl, rfl, hc, rfl, rfl⟩
  | succ n ih =>
    intro gen s hc
    obtain ⟨s1, hg, hm, hc1, hp, hq⟩ := solo_generation env hP hsort ref sinks hs gen s hc
    obtain ⟨sn, hgn, hmn, hcn, hpn, hqn⟩ := ih (gen + 1) s1 hc1
    refine ⟨sn, ?_, by rw [hmn, hm], hcn, by rw [hpn, hp], by rw [hqn, hq]; omega⟩
    rw [generations, hg]
    exact hgn

/-- A fan-out that completes has evaluated every one of its tasks. -/
theorem fanOut_ok_all (env : Env G) (ref : RGBA) (mostFit : Candidate G) (gen : Nat) :
    ∀ (n i fresh : Nat) (cs : List (Candidate G)),
      fanOut env ref mostFit gen n i fresh = .ok cs →
      ∀ k, k < n → ∃ c, processCandidate env ref mostFit gen (i + k) (fresh + k) = .ok c := by
  intro n
  induction n with
  | zero => intro i fresh cs _ k hk; omega
  | succ n ih =>
    intro i fresh cs h k hk
    unfold fanOut at h
    cases hp : processCandidate env ref mostFit gen i fresh with
    | error e => rw [hp] at h; simp at h
    | ok c =>
      rw [hp] at h
      simp only [] at h
      cases hf : fanOut env ref mostFit gen n (i + 1) (fresh + 1) with
      | error e => rw [hf] at h; simp at h
      | ok cs1 =>
        cases k with
        | zero => exact ⟨c, hp⟩
        | succ k =>
          obtain ⟨c1, hc1⟩ := ih (i + 1) (fresh + 1) cs1 hf k (by omega)
          refine ⟨c1, ?_⟩
          rw [show i + (k + 1) = i + 1 + k by omega, show fresh + (k + 1) = fresh + 1 + k by omega]
          exact hc1

theorem generation_noSaved (env : Env G) (ref : RGBA) (sinks : List SafeImage) (gen : Nat)
    (s : LoopState G) (hs : NoSaved s.events) :
    (∀ s1, generation env ref sinks gen s = .ok s1 → NoSaved s1.events) ∧
    (∀ a, generation env ref sinks gen s = .error a → NoSaved a.events) := by
  constructor
  · intro s1 h
    obtain ⟨candidates, events1, events2, currBest, _, hlog, hup, _, hs1⟩ :=
      generation_ok_inv env ref sinks gen s s1 h
    rw [hs1, accept_events]
    exact (updateSinks_noSaved candidates sinks 0 events1
      (logStats_noSaved candidates gen s events1 hlog hs)).1 events2 hup
  · intro a h
    unfold generation at h
    cases hsel : selection env ref gen s with
    | error a1 =>
      rw [hsel] at h
      simp only [Except.error.injEq] at h
      rw [← h, selection_error_events env ref gen s a1 hsel]
      exact hs
    | ok candidates =>
      rw [hsel] at h
      simp only [] at h
      cases hlog : logStats candidates gen s with
      | error f =>
        rw [hlog] at h
        simp only [Except.error.injEq] at h
        rw [← h]
        exact hs
      | ok events1 =>
        rw [hlog] at h
        simp only [] at h
        have hn1 := logStats_noSaved candidates gen s events1 hlog hs
        cases hup : updateSinks candidates sinks 0 events1 with
        | error events2 =>
          rw [hup] at h
          simp only [Except.error.injEq] at h
          rw [← h]
          exact (updateSinks_noSaved candidates sinks 0 events1 hn1).2 events2 hup
        | ok events2 =>
          rw [hup] at h
          simp only [] at h
          cases hb : candidates[0]? with
          | none =>
            rw [hb] at h
            simp only [Except.error.injEq] at h
            rw [← h]
            exact (updateSinks_noSaved candidates sinks 0 events1 hn1).1 events2 hup
          | some currBest =>
            rw [hb] at h
            simp at h

theorem generations_noSaved (env : Env G) (ref : RGBA) (sinks : List SafeImage) :
    ∀ (n gen : Nat) (s : LoopState G), NoSaved s.events →
      (∀ s1, generations env ref sinks n gen s = .ok s1 → NoSaved s1.events) ∧
      (∀ a, generations env ref sinks n gen s = .error a → NoSaved a.events) := by
  intro n
  induction n with
  | zero =>
    intro gen s hs
    constructor
    · intro s1 h
      simp only [generations, Except.ok.injEq] at h
      exact h ▸ hs
    · intro a h
      simp [generations] at h
  | succ n ih =>
    intro gen s hs
    obtain ⟨hok, herr⟩ := generation_noSaved env ref sinks gen s hs
    rw [generations]
    cases hg : generation env ref sinks gen s with
    | error a1 =>
      constructor
      · intro s1 h
        simp at h
      · intro a h
        simp only [Except.error.injEq] at h
        exact h ▸ herr a1 hg
    | ok s2 => exact ih (gen + 1) s2 (hok s2 hg)

theorem generations_succ_of_error (env : Env G) (ref : RGBA) (sinks : List SafeImage)
    (n gen : Nat) (s : LoopState G) (a : Aborted G)
    (h : generation env ref sinks gen s = .error a) :
    generations env ref sinks (n + 1) gen s = .error a := by
  rw [generations, h]

theorem generation_of_fanOut_error (env : Env G) (ref : RGBA) (sinks : List SafeImage)
    (gen : Nat) (s : LoopState G) (halt : Halt)
    (h : fanOut env ref s.mostFit gen (env.PopulationCount - 1) 1 s.nextPtr = .error halt) :
    generation env ref sinks gen s = .error ⟨s.events, halt⟩ := by
  unfold generation selection
  rw [h]

theorem filter_isSaved_of_noSaved (l : List (Event G)) (h : NoSaved l) :
    l.filter Event.isSaved = [] := by
  rw [List.filter_eq_nil_iff]
  intro e he
  rw [h e he]
  simp

/-- What a completed run went through. -/
theorem SimulateAnnealing_ok_inv (env : Env G) (maxGen : Int) (img : Image) (destFile : String)
    (sinks : List SafeImage) (s : LoopState G)
    (h : SimulateAnnealing env maxGen img destFile sinks = .ok s) :
    ∃ ref s0 sN, initialState env img = .ok (ref, s0) ∧
      generations env ref sinks maxGen.toNat 0 s0 = .ok sN ∧
      s = { sN with
        events := sN.events ++
          [.saved destFile sN.mostFit, .summary maxGen sN.mostFit.Fitness destFile] } := by
  unfold SimulateAnnealing at h
  cases hi : initialState env img with
  | error a => rw [hi] at h; simp at h
  | ok p =>
    obtain ⟨ref, s0⟩ := p
    rw [hi] at h
    simp only [] at h
    cases hg : generations env ref sinks maxGen.toNat 0 s0 with
    | error a => rw [hg] at h; simp at h
    | ok sN =>
      rw [hg] at h
      simp only [Except.ok.injEq] at h
      exact ⟨ref, s0, sN, rfl, hg, h.symm⟩

/-- A run that ends early had no effect on the destination. -/
theorem SimulateAnnealing_error_noSaved (env : Env G) (maxGen : Int) (img : Image)
    (destFile : String) (sinks : List SafeImage) (a : Aborted G)
    (h : SimulateAnnealing env maxGen img destFile sinks = .error a) : NoSaved a.events := by
  unfold SimulateAnnealing at h
  cases hi : initialState env img with
  | error a1 =>
    rw [hi] at h
    simp only [Except.error.injEq] at h
    subst h
    have hnil : a1.events = [] := by
      unfold initialState at hi
      split at hi
      · simp only [Except.error.injEq] at hi
        rw [← hi]
      · simp only [] at hi
        split at hi
        · simp only [Except.error.injEq] at hi
          rw [← hi]
        · split at hi
          · simp at hi
          · simp only [Except.error.injEq] at hi
            rw [← hi]
    rw [hnil]
    intro e he
    simp at he
  | ok p =>
    obtain ⟨ref, s0⟩ := p
    rw [hi] at h
    simp only [] at h
    obtain ⟨_, _, _, hs0⟩ := initialState_ok_inv env img ref s0 hi
    have hn0 : NoSaved s0.events := by
      rw [hs0]
      intro e he
      simp at he
    cases hg : generations env ref sinks maxGen.toNat 0 s0 with
    | error a1 =>
      rw [hg] at h
      simp only [Except.error.injEq] at h
      exact h ▸ (generations_noSaved env ref sinks maxGen.toNat 0 s0 hn0).2 a1 hg
    | ok sN => rw [hg] at h; simp at h

/-- In a run of the loop that completes, every task of every generation was
evaluated with success. -/
theorem generations_ok_all_evaluated (env : Env G) (ref : RGBA) (sinks : List SafeImage)
    (n : Nat) (s0 sN : LoopState G) (h : generations env ref sinks n 0 s0 = .ok sN)
    (g : Nat) (hg : g < n) :
    ∃ sg, generations env ref sinks g 0 s0 = .ok sg ∧
      ∀ i, 1 ≤ i → i < env.PopulationCount →
        ∃ c, processCandidate env ref sg.mostFit g i (sg.nextPtr + (i - 1)) = .ok c := by
  obtain ⟨m, hm⟩ : ∃ m, n = g + (m + 1) := ⟨n - g - 1, by omega⟩
  rw [hm, generations_add] at h
  cases hgg : generations env ref sinks g 0 s0 with
  | error a => rw [hgg] at h; simp at h
  | ok sg =>
    rw [hgg] at h
    simp only [Nat.zero_add] at h
    refine ⟨sg, rfl, ?_⟩
    intro i hi1 hi2
    rw [generations] at h
    cases hgen : generation env ref sinks g sg with
    | error a => rw [hgen] at h; simp at h
    | ok s1 =>
      obtain ⟨candidates, _, _, _, hsel, _, _, _, _⟩ := generation_ok_inv env ref sinks g sg s1 hgen
      obtain ⟨offspring, _, _, hf, _, _, _⟩ := selection_ok_inv env ref g sg candidates hsel
      obtain ⟨c, hc⟩ := fanOut_ok_all env ref sg.mostFit g _ 1 sg.nextPtr offspring hf (i - 1)
        (by omega)
      rw [show 1 + (i - 1) = i by omega] at hc
      exact ⟨c, hc⟩

/-- A task whose evaluation fails ends the run where the generation started. -/
theorem generations_error_of_task (env : Env G) (ref : RGBA) (sinks : List SafeImage)
    (n : Nat) (s0 sg : LoopState G) (g : Nat) (hg : g < n)
    (hgg : generations env ref sinks g 0 s0 = .ok sg) (i : Nat) (hi1 : 1 ≤ i)
    (hi2 : i < env.PopulationCount) (halt : Halt)
    (hp : processCandidate env ref sg.mostFit g i (sg.nextPtr + (i - 1)) = .error halt) :
    ∃ cause, generations env ref sinks n 0 s0 = .error ⟨sg.events, cause⟩ := by
  obtain ⟨m, hm⟩ : ∃ m, n = g + (m + 1) := ⟨n - g - 1, by omega⟩
  cases hf : fanOut env ref sg.mostFit g (env.PopulationCount - 1) 1 sg.nextPtr with
  | ok offspring =>
    obtain ⟨c, hc⟩ := fanOut_ok_all env ref sg.mostFit g _ 1 sg.nextPtr offspring hf (i - 1)
      (by omega)
    rw [show 1 + (i - 1) = i by omega, hp] at hc
    simp at hc
  | error cause =>
    refine ⟨cause, ?_⟩
    rw [hm, generations_add, hgg]
    simp only [Nat.zero_add]
    exact generations_succ_of_error env ref sinks m g sg _
      (generation_of_fanOut_error env ref sinks g sg cause hf)

/-! ### Claims on the champion and the selection step -/

/-- C6: along a run of the loop the champion's fitness never increases: the
fitness after `g + k` iterations is at most the fitness after `g` iterations
(with `k = 1`: after generation `g` it is at most what it was before), whatever
the mutations produce. -/
theorem champion_fitness_nonincreasing (env : Env G) (ref : RGBA) (sinks : List SafeImage)
    (s0 sg sh : LoopState G) (g k : Nat)
    (hg : generations env ref sinks g 0 s0 = .ok sg)
    (hh : generations env ref sinks (g + k) 0 s0 = .ok sh) :
    sh.mostFit.Fitness ≤ sg.mostFit.Fitness := by
  rw [generations_add, hg] at hh
  exact generations_fitness_le env ref sinks k _ sg sh hh

/-- C7: in every generation of a run, the slice that leaves the selection step has
`PopulationCount` elements and is sorted ascending by `Fitness`; the elements at
indices `0` and `PopulationCount - 1` are a minimum and a maximum of the
population, and they are the best and worst values `printStats` reports. -/
theorem population_sorted_after_selection (env : Env G) (hsort : IsSortSort env.sortSort)
    (img : Image) (ref : RGBA) (sinks : List SafeImage) (s0 sg : LoopState G) (g : Nat)
    (candidates : List (Candidate G))
    (hinit : initialState env img = .ok (ref, s0))
    (hg : generations env ref sinks g 0 s0 = .ok sg)
    (hsel : selection env ref g sg = .ok candidates) :
    candidates.length = env.PopulationCount ∧
    candidates.Pairwise (fun a b => a.Fitness ≤ b.Fitness) ∧
    ∃ best worst, candidates[0]? = some best ∧
      candidates[env.PopulationCount - 1]? = some worst ∧
      (∀ c ∈ candidates, best.Fitness ≤ c.Fitness ∧ c.Fitness ≤ worst.Fitness) ∧
      printStats candidates g sg.generationsSinceChange =
        .ok (.stats g sg.generationsSinceChange best.Fitness worst.Fitness) := by
  obtain ⟨_, _, hP, hs0⟩ := initialState_ok_inv env img ref s0 hinit
  have hlen0 : s0.candidates.length = env.PopulationCount := by
    rw [hs0]
    simp
  have hlen : candidates.length = env.PopulationCount := by
    rw [selection_length env hsort ref g sg _ hsel, generations_length env hsort ref sinks g 0 s0 sg hg,
      hlen0]
  obtain ⟨_, _, population, _, _, _, hc⟩ := selection_ok_inv env ref g sg _ hsel
  have hpw : candidates.Pairwise fun a b => a.Fitness ≤ b.Fitness := by
    rw [hc]
    exact sorted_of_isSortSort env hsort population
  obtain ⟨best, worst, hb, hw, hall⟩ := pairwise_first_last candidates hpw (by omega)
  refine ⟨hlen, hpw, best, worst, hb, hlen ▸ hw, hall, ?_⟩
  unfold printStats
  rw [hb, hw]

/-- C8: with `maxGen = 0` a run that reaches the loop ends with the champion it
started with: the random candidate at its own pointer, with the fitness of its one
evaluation.  That candidate is the one saved to the destination, no copy was
made, and the result does not depend on the mutation or the sort: neither is
called. -/
theorem zero_generations_persist_initial (env : Env G) (img : Image) (destFile : String)
    (sinks : List SafeImage) (ref : RGBA) (s0 : LoopState G)
    (hinit : initialState env img = .ok (ref, s0)) :
    SimulateAnnealing env 0 img destFile sinks =
      .ok { s0 with
        events := [.saved destFile s0.mostFit, .summary 0 s0.mostFit.Fitness destFile] } ∧
    s0.mostFit = ⟨0, (env.RandomCandidate ref.Bounds.Dx ref.Bounds.Dy).1,
      (env.RandomCandidate ref.Bounds.Dx ref.Bounds.Dy).2, s0.mostFit.Fitness⟩ ∧
    FastCompare ref (env.RandomCandidate ref.Bounds.Dx ref.Bounds.Dy).2 =
      .ok (s0.mostFit.Fitness, none) ∧
    s0.nextPtr = 1 ∧
    ∀ (mutate : Nat → Nat → G × RGBA → G × RGBA)
      (sort : List (Candidate G) → List (Candidate G)),
      SimulateAnnealing { env with MutateInPlace := mutate, sortSort := sort } 0 img destFile sinks =
        SimulateAnnealing env 0 img destFile sinks := by
  obtain ⟨_, he, _, hs0⟩ := initialState_ok_inv env img ref s0 hinit
  obtain ⟨hf, hm⟩ := evaluateCandidate_ok_inv _ _ _ he
  refine ⟨?_, hm, hf, by rw [hs0], ?_⟩
  · unfold SimulateAnnealing
    rw [hinit]
    simp only [Int.toNat_zero, generations]
    rw [hs0]
    rfl
  · intro mutate sort
    rfl

/-- C9, as amended: with `PopulationCount = 1` and at most one live sink, a run
that reaches the loop completes every generation, for every `maxGen`: no
generation has offspring or makes a copy, the champion stays the candidate the
run started with, so its fitness is constant, and that candidate is saved at the
end. -/
theorem single_candidate_run (env : Env G) (hP : env.PopulationCount = 1)
    (hsort : IsSortSort env.sortSort) (img : Image) (destFile : String)
    (sinks : List SafeImage) (hs : sinks.length ≤ 1) (ref : RGBA) (s0 : LoopState G)
    (hinit : initialState env img = .ok (ref, s0)) (maxGen : Int) :
    (∀ g : Nat, ∃ sg, generations env ref sinks g 0 s0 = .ok sg ∧
      fanOut env ref sg.mostFit g (env.PopulationCount - 1) 1 sg.nextPtr = .ok [] ∧
      sg.mostFit = s0.mostFit ∧ sg.candidates = [some s0.mostFit] ∧ sg.nextPtr = 1 ∧
      sg.generationsSinceChange = g) ∧
    ∃ s, SimulateAnnealing env maxGen img destFile sinks = .ok s ∧ s.mostFit = s0.mostFit ∧
      Event.saved destFile s0.mostFit ∈ s.events := by
  obtain ⟨_, _, _, hs0⟩ := initialState_ok_inv env img ref s0 hinit
  have hc0 : s0.candidates = [some s0.mostFit] := by
    rw [hs0, hP]
    rfl
  have hp0 : s0.nextPtr = 1 := by rw [hs0]
  have hq0 : s0.generationsSinceChange = 0 := by rw [hs0]
  have hall : ∀ g : Nat, ∃ sg, generations env ref sinks g 0 s0 = .ok sg ∧
      sg.mostFit = s0.mostFit ∧ sg.candidates = [some sg.mostFit] ∧ sg.nextPtr = 1 ∧
      sg.generationsSinceChange = g := by
    intro g
    obtain ⟨sg, h1, h2, h3, h4, h5⟩ := solo_generations env hP hsort ref sinks hs g 0 s0 hc0
    exact ⟨sg, h1, h2, h3, by rw [h4, hp0], by rw [h5, hq0]; omega⟩
  constructor
  · intro g
    obtain ⟨sg, h1, h2, h3, h4, h5⟩ := hall g
    exact ⟨sg, h1, (solo_selection env hP hsort ref g sg h3).1, h2, h2 ▸ h3, h4, h5⟩
  · obtain ⟨sn, h1, h2, _, _, _⟩ := hall maxGen.toNat
    refine ⟨{ sn with
      events := sn.events ++
        [.saved destFile sn.mostFit, .summary maxGen sn.mostFit.Fitness destFile] }, ?_, h2, ?_⟩
    · unfold SimulateAnnealing
      rw [hinit]
      simp only []
      rw [h1]
    · rw [h2]
      simp

/-- C10: the destination is written only by a run that completed.  A run that ends
early has written nothing; a run that returns has written the destination exactly
once, after all `maxGen` generations, in each of which every task was evaluated
with success; a comparator error on the initial candidate ends the run with no
effect at all, and a comparator error on an offspring of generation `g` ends the
run with the effects it had when that generation started. -/
theorem destination_written_only_on_completion (env : Env G) (maxGen : Int) (img : Image)
    (destFile : String) (sinks : List SafeImage) :
    (∀ a, SimulateAnnealing env maxGen img destFile sinks = .error a → NoSaved a.events) ∧
    (∀ s, SimulateAnnealing env maxGen img destFile sinks = .ok s →
      s.events.filter Event.isSaved = [.saved destFile s.mostFit] ∧
      ∃ ref s0 sN, initialState env img = .ok (ref, s0) ∧
        generations env ref sinks maxGen.toNat 0 s0 = .ok sN ∧
        s.events = sN.events ++
          [.saved destFile sN.mostFit, .summary maxGen sN.mostFit.Fitness destFile] ∧
        ∀ g, g < maxGen.toNat → ∃ sg, generations env ref sinks g 0 s0 = .ok sg ∧
          ∀ i, 1 ≤ i → i < env.PopulationCount →
            ∃ c, processCandidate env ref sg.mostFit g i (sg.nextPtr + (i - 1)) = .ok c) ∧
    (∀ ref v err, ConvertToRGBA img = .ok ref →
      FastCompare ref (env.RandomCandidate ref.Bounds.Dx ref.Bounds.Dy).2 = .ok (v, some err) →
      SimulateAnnealing env maxGen img destFile sinks = .error ⟨[], .fatal err⟩) ∧
    (∀ ref s0 g sg i v err, initialState env img = .ok (ref, s0) → g < maxGen.toNat →
      generations env ref sinks g 0 s0 = .ok sg → 1 ≤ i → i < env.PopulationCount →
      FastCompare ref (env.MutateInPlace g i (sg.mostFit.genome, sg.mostFit.img)).2 =
        .ok (v, some err) →
      ∃ cause, SimulateAnnealing env maxGen img destFile sinks = .error ⟨sg.events, cause⟩) := by
  refine ⟨SimulateAnnealing_error_noSaved env maxGen img destFile sinks, ?_, ?_, ?_⟩
  · intro s h
    obtain ⟨ref, s0, sN, hi, hg, hs⟩ := SimulateAnnealing_ok_inv env maxGen img destFile sinks s h
    obtain ⟨_, _, _, hs0⟩ := initialState_ok_inv env img ref s0 hi
    have hn0 : NoSaved s0.events := by
      rw [hs0]
      intro e he
      simp at he
    have hnN := (generations_noSaved env ref sinks maxGen.toNat 0 s0 hn0).1 sN hg
    refine ⟨?_, ref, s0, sN, hi, hg, by rw [hs], ?_⟩
    · rw [hs]
      simp only [List.filter_append, filter_isSaved_of_noSaved _ hnN, List.nil_append]
      rfl
    · intro g hgl
      exact generations_ok_all_evaluated env ref sinks maxGen.toNat s0 sN hg g hgl
  · intro ref v err hc hf
    unfold SimulateAnnealing initialState
    rw [hc]
    simp only [evaluateCandidate, hf]
  · intro ref s0 g sg i v err hi hgl hg hi1 hi2 hf
    have hp : processCandidate env ref sg.mostFit g i (sg.nextPtr + (i - 1)) = .error (.fatal err) := by
      unfold processCandidate evaluateCandidate
      simp only [Candidate.CopyOf, hf]
    obtain ⟨cause, hc⟩ := generations_error_of_task env ref sinks maxGen.toNat s0 sg g hgl hg i
      hi1 hi2 _ hp
    refine ⟨cause, ?_⟩
    unfold SimulateAnnealing
    rw [hi]
    simp only []
    rw [hc]

end EvolverTheorems

/-- Insertion sort by fitness meets the contract of `sort.Sort`. -/
theorem sampleSort_isSortSort : IsSortSort sampleSort := by
  haveI : IsTotal (Candidate Nat) (fun a b => a.Fitness ≤ b.Fitness) :=
    ⟨fun a b => Nat.le_total a.Fitness b.Fitness⟩
  haveI : IsTrans (Candidate Nat) (fun a b => a.Fitness ≤ b.Fitness) :=
    ⟨fun _ _ _ h1 h2 => Nat.le_trans h1 h2⟩
  constructor
  · intro l
    exact List.perm_insertionSort _ l
  · intro l
    refine (List.sorted_insertionSort (fun a b : Candidate Nat => a.Fitness ≤ b.Fitness) l).imp ?_
    intro a b h
    simp only [ByFitness.Less, decide_eq_false_iff_not, Nat.not_lt]
    exact h

/-- The theorem of C6 on the instance: the champion's fitness after one and after
three iterations. -/
theorem champion_fitness_nonincreasing_witness :
    generations sampleEnv sampleRef [⟨0⟩, ⟨1⟩] 1 0 sampleStart = .ok (sampleAfter 1) ∧
    generations sampleEnv sampleRef [⟨0⟩, ⟨1⟩] (1 + 2) 0 sampleStart = .ok (sampleAfter 3) ∧
    (sampleAfter 3).mostFit.Fitness ≤ (sampleAfter 1).mostFit.Fitness :=
  ⟨by decide, by decide,
    champion_fitness_nonincreasing sampleEnv sampleRef [⟨0⟩, ⟨1⟩] sampleStart (sampleAfter 1)
      (sampleAfter 3) 1 2 (by decide) (by decide)⟩

/-- The theorem of C7 on the instance, in the iteration `gen = 1`. -/
theorem population_sorted_after_selection_witness :
    initialState sampleEnv (.rgba sampleRef) = .ok (sampleRef, sampleStart) ∧
    generations sampleEnv sampleRef [⟨0⟩, ⟨1⟩] 1 0 sampleStart = .ok (sampleAfter 1) ∧
    selection sampleEnv sampleRef 1 (sampleAfter 1) = .ok sampleSelected ∧
    sampleSelected.length = 3 ∧
    sampleSelected.Pairwise (fun a b => a.Fitness ≤ b.Fitness) :=
  have h := population_sorted_after_selection sampleEnv sampleSort_isSortSort (.rgba sampleRef)
    sampleRef [⟨0⟩, ⟨1⟩] sampleStart (sampleAfter 1) 1 sampleSelected (by decide) (by decide)
    (by decide)
  ⟨by decide, by decide, by decide, h.1, h.2.1⟩

/-- The theorem of C8 on the instance. -/
theorem zero_generations_persist_initial_witness :
    initialState sampleEnv (.rgba sampleRef) = .ok (sampleRef, sampleStart) ∧
    SimulateAnnealing sampleEnv 0 (.rgba sampleRef) "out.png" [⟨0⟩, ⟨1⟩] =
      .ok { sampleStart with
        events := [.saved "out.png" sampleStart.mostFit,
          .summary 0 sampleStart.mostFit.Fitness "out.png"] } :=
  ⟨by decide,
    (zero_generations_persist_initial sampleEnv (.rgba sampleRef) "out.png" [⟨0⟩, ⟨1⟩] sampleRef
      sampleStart (by decide)).1⟩

/-- The theorem of C9 on the instance with a population of one and one live sink. -/
theorem single_candidate_run_witness :
    initialState soloEnv (.rgba sampleRef) = .ok (sampleRef, soloStart) ∧
    ∃ s, SimulateAnnealing soloEnv 25 (.rgba sampleRef) "out.png" [⟨0⟩] = .ok s ∧
      s.mostFit = soloStart.mostFit ∧ Event.saved "out.png" soloStart.mostFit ∈ s.events :=
  ⟨by decide,
    (single_candidate_run soloEnv rfl sampleSort_isSortSort (.rgba sampleRef) "out.png" [⟨0⟩]
      (by decide) sampleRef soloStart (by decide) 25).2⟩

/-- C9 fails as stated: with `PopulationCount = 1` and two live sinks the first
generation panics at `candidates[1]`, after the update of the first sink. -/
theorem single_candidate_two_sinks_counterexample :
    soloEnv.PopulationCount = 1 ∧
    initialState soloEnv (.rgba sampleRef) = .ok (sampleRef, soloStart) ∧
    SimulateAnnealing soloEnv 1 (.rgba sampleRef) "out.png" [⟨0⟩, ⟨1⟩] =
      .error ⟨[.stats 0 0 315 315, .update 0 ⟨0⟩ ⟨[0, 0, 0, 0], 4, Rect 0 0 1 1⟩],
        .panic .indexOutOfRange⟩ := by
  decide

/-- The theorem of C10 on two runs: the instance, which completes and saves once,
and the instance whose mutation renders a raster of the wrong size in generation
`1`, which ends with the effects of generation `0` only. -/
theorem destination_written_only_on_completion_witness :
    (SimulateAnnealing sampleEnv 3 (.rgba sampleRef) "out.png" [⟨0⟩, ⟨1⟩] = .ok sampleDone ∧
      sampleDone.events.filter Event.isSaved = [.saved "out.png" sampleDone.mostFit]) ∧
    generations faultyEnv sampleRef [⟨0⟩] 1 0 sampleStart = .ok faultyAfterOne ∧
    FastCompare sampleRef
        (faultyEnv.MutateInPlace 1 2 (faultyAfterOne.mostFit.genome, faultyAfterOne.mostFit.img)).2 =
      .ok (0, some ⟨Rect 0 0 1 1, Rect 0 0 2 1⟩) ∧
    ∃ cause, SimulateAnnealing faultyEnv 3 (.rgba sampleRef) "out.png" [⟨0⟩] =
      .error ⟨faultyAfterOne.events, cause⟩ :=
  ⟨⟨by decide,
      ((destination_written_only_on_completion sampleEnv 3 (.rgba sampleRef) "out.png"
        [⟨0⟩, ⟨1⟩]).2.1 sampleDone (by decide)).1⟩,
    by decide, by decide,
    (destination_written_only_on_completion faultyEnv 3 (.rgba sampleRef) "out.png" [⟨0⟩]).2.2.2
      sampleRef sampleStart 1 faultyAfterOne 2 0 ⟨Rect 0 0 1 1, Rect 0 0 2 1⟩ (by decide)
      (by decide) (by decide) (by decide) (by decide) (by decide)⟩

/-! ## Theorems: `ConvertToRGBA`, `sqDiff` and the buffer accesses of `FastCompare` -/

/-- C11: `ConvertToRGBA` returns an `*image.RGBA` input itself, and converting the
result of a conversion again changes nothing. -/
theorem ConvertToRGBA_idempotent :
    (∀ x : RGBA, ConvertToRGBA (.rgba x) = .ok x) ∧
    (∀ (y : Image) (r : RGBA), ConvertToRGBA y = .ok r → ConvertToRGBA (.rgba r) = .ok r) ∧
    ∀ y : Image, ((ConvertToRGBA y).bind fun r => ConvertToRGBA (.rgba r)) = ConvertToRGBA y := by
  refine ⟨fun _ => rfl, fun _ _ _ => rfl, ?_⟩
  intro y
  cases h : ConvertToRGBA y with
  | error f => rfl
  | ok r => rfl

/-- The theorem of C11 on a `1 × 1` image that is not an `*image.RGBA`. -/
theorem ConvertToRGBA_idempotent_witness :
    ConvertToRGBA (.generic (Rect 3 5 4 6) fun _ _ => ⟨0x0a0a, 0x1414, 0x1e1e, 0xffff⟩) =
      .ok freshRaster ∧
    ConvertToRGBA (.rgba freshRaster) = .ok freshRaster :=
  ⟨by decide,
    ConvertToRGBA_idempotent.2.1
      (.generic (Rect 3 5 4 6) fun _ _ => ⟨0x0a0a, 0x1414, 0x1e1e, 0xffff⟩) freshRaster
      (by decide)⟩

/-- C14: for `x`, `y` in `[0, 0xffff]` the 32-bit `sqDiff x y` is
`floor((x - y)^2 / 4)`, the square itself staying below `2^32`; and the sum of the
four terms of a pixel is below `2^32`, so the 32-bit sum in `Compare` is the
exact sum. -/
theorem sqDiff_exact_and_sum_fits :
    (∀ x y : Nat, x ≤ 0xffff → y ≤ 0xffff →
      ((sqDiff x y : Nat) : Int) = ((x : Int) - (y : Int)) ^ 2 / 4 ∧
      ((x : Int) - (y : Int)) ^ 2 < 2 ^ 32) ∧
    ∀ c1 c2 : Color, c1.Valid → c2.Valid →
      sqDiff c1.R c2.R + sqDiff c1.G c2.G + sqDiff c1.B c2.B + sqDiff c1.A c2.A < 2 ^ 32 ∧
      pixelSum c1 c2 =
        sqDiff c1.R c2.R + sqDiff c1.G c2.G + sqDiff c1.B c2.B + sqDiff c1.A c2.A := by
  constructor
  · intro x y hx hy
    obtain ⟨he, _⟩ := sqDiff_eq x y hx hy
    have hsq : ((x : Int) - (y : Int)) ^ 2 = ((Int.natAbs ((x : Int) - (y : Int)) ^ 2 : Nat) : Int) := by
      rw [Nat.cast_pow, Int.natAbs_sq]
    have hd : Int.natAbs ((x : Int) - (y : Int)) ≤ 0xffff := by omega
    have hdd : Int.natAbs ((x : Int) - (y : Int)) ^ 2 ≤ 0xffff * 0xffff := by
      rw [pow_two]
      exact Nat.mul_le_mul hd hd
    constructor
    · rw [he, hsq]
      unfold specSqDiff
      rw [Nat.shiftRight_eq_div_pow]
      norm_cast
    · rw [hsq]
      have : Int.natAbs ((x : Int) - (y : Int)) ^ 2 < 2 ^ 32 := by omega
      exact_mod_cast this
  · intro c1 c2 h1 h2
    obtain ⟨r1, g1, b1, a1⟩ := h1
    obtain ⟨r2, g2, b2, a2⟩ := h2
    obtain ⟨_, hr⟩ := sqDiff_eq c1.R c2.R r1 r2
    obtain ⟨_, hg⟩ := sqDiff_eq c1.G c2.G g1 g2
    obtain ⟨_, hb⟩ := sqDiff_eq c1.B c2.B b1 b2
    obtain ⟨_, ha⟩ := sqDiff_eq c1.A c2.A a1 a2
    unfold pixelSum
    omega

/-- The theorem of C14 at the extreme channel values: `sqDiff 0xffff 0 = 0x3fff8000`,
and four of them sum to `0xfffe0000`. -/
theorem sqDiff_exact_and_sum_fits_witness :
    (((sqDiff 0xffff 0 : Nat) : Int) = ((0xffff : Int) - (0 : Nat)) ^ 2 / 4 ∧
      ((0xffff : Int) - (0 : Nat)) ^ 2 < 2 ^ 32) ∧
    sqDiff 0xffff 0 + sqDiff 0xffff 0 + sqDiff 0xffff 0 + sqDiff 0xffff 0 < 2 ^ 32 :=
  ⟨sqDiff_exact_and_sum_fits.1 0xffff 0 (by decide) (by decide),
    (sqDiff_exact_and_sum_fits.2 ⟨0xffff, 0xffff, 0xffff, 0xffff⟩ ⟨0, 0, 0, 0⟩ (by decide)
      (by decide)).1⟩

/-- C19, as amended: for rasters with identical bounds whose second pixel buffer is
at least as long as the first (as it is for two rasters made by `image.NewRGBA`),
`FastCompare` returns a distance and no error, and every index `i` below
`len(a.Pix)` is within both buffers; with identical bounds it returns if and only
if the second buffer is that long. -/
theorem FastCompare_returns_of_length_le (a b : RGBA) (hb : a.Bounds = b.Bounds) :
    (a.Pix.length ≤ b.Pix.length →
      (∃ d, FastCompare a b = .ok (d, none)) ∧
      ∀ i, i < a.Pix.length → (a.Pix[i]?).isSome = true ∧ (b.Pix[i]?).isSome = true) ∧
    ((∃ d, FastCompare a b = .ok (d, none)) → a.Pix.length ≤ b.Pix.length) := by
  constructor
  · intro hlen
    constructor
    · obtain ⟨d, hd⟩ := FastCompare.loop_ok a.Pix b.Pix a.Pix.length 0 0 (by omega) (by omega)
      exact ⟨d, by simp [FastCompare, hb, hd]⟩
    · intro i hi
      rw [List.getElem?_eq_getElem hi, List.getElem?_eq_getElem (by omega)]
      exact ⟨rfl, rfl⟩
  · rintro ⟨d, hd⟩
    by_contra hcon
    have hp := FastCompare.loop_panics a.Pix b.Pix a.Pix.length 0 0 (by omega) (by omega)
    simp [FastCompare, hb, hp] at hd

/-- The theorem of C19 on the raster `freshRaster` against the longer buffer of
`subRaster`. -/
theorem FastCompare_returns_of_length_le_witness :
    freshRaster.Bounds = subRaster.Bounds ∧ freshRaster.Pix.length ≤ subRaster.Pix.length ∧
    ∃ d, FastCompare freshRaster subRaster = .ok (d, none) :=
  ⟨by decide, by decide,
    ((FastCompare_returns_of_length_le freshRaster subRaster (by decide)).1 (by decide)).1⟩

/-- C19 fails as stated: `subRaster` and `freshRaster` have identical bounds, and
`FastCompare subRaster freshRaster` panics at `img2.Pix[4]`. -/
theorem FastCompare_panics_counterexample :
    subRaster.Bounds = freshRaster.Bounds ∧
    FastCompare subRaster freshRaster = .error .indexOutOfRange := by
  decide

/-! ## Theorems: acceptance, live sinks, slot `0` -/

section EvolverClaims

variable {G : Type}

/-- The sink loop appends one `update` per sink, each with the raster of the
candidate at the index of the sink. -/
theorem updateSinks_events (candidates : List (Candidate G)) :
    ∀ (sinks : List SafeImage) (i : Nat) (events events2 : List (Event G)),
      updateSinks candidates sinks i events = .ok events2 →
      events2.length = events.length + sinks.length ∧
      (∀ k, k < events.length → events2[k]? = events[k]?) ∧
      ∀ k (hk : k < sinks.length), ∃ c, candidates[i + k]? = some c ∧
        events2[events.length + k]? = some (.update (i + k) sinks[k] c.img) := by
  intro sinks
  induction sinks with
  | nil =>
    intro i events events2 h
    simp only [updateSinks, Except.ok.injEq] at h
    subst h
    exact ⟨rfl, fun _ _ => rfl, fun k hk => absurd hk (by simp)⟩
  | cons sink rest ih =>
    intro i events events2 h
    unfold updateSinks at h
    cases hc : candidates[i]? with
    | none => rw [hc] at h; simp at h
    | some c =>
      rw [hc] at h
      simp only [] at h
      obtain ⟨hlen, hpre, hupd⟩ := ih (i + 1) _ events2 h
      simp only [List.length_append, List.length_singleton] at hlen hpre hupd
      refine ⟨by simp only [List.length_cons]; omega, ?_, ?_⟩
      · intro k hk
        rw [hpre k (by omega), List.getElem?_append_left hk]
      · intro k hk
        cases k with
        | zero =>
          refine ⟨c, hc, ?_⟩
          rw [Nat.add_zero, hpre events.length (by omega), List.getElem?_append_right (Nat.le_refl _)]
          simp
        | succ k =>
          simp only [List.length_cons] at hk
          obtain ⟨c1, hc1, he1⟩ := hupd k (by omega)
          refine ⟨c1, by rw [← hc1]; congr 1; omega, ?_⟩
          rw [show events.length + (k + 1) = events.length + 1 + k by omega, he1]
          simp only [List.getElem_cons_succ]
          congr 2
          omega

/-- C15: a generation that completes replaces the champion exactly when the
candidate at index `0` of the sorted slice has strictly lower fitness, and then
the stale counter is `0`; otherwise, ties included, the champion stays the same
candidate and the stale counter grows by one. -/
theorem acceptance_rule (env : Env G) (ref : RGBA) (sinks : List SafeImage) (gen : Nat)
    (s s1 : LoopState G) (h : generation env ref sinks gen s = .ok s1) :
    ∃ candidates currBest, selection env ref gen s = .ok candidates ∧
      candidates[0]? = some currBest ∧ s1.candidates[0]? = some (some currBest) ∧
      (currBest.Fitness < s.mostFit.Fitness →
        s1.mostFit = currBest ∧ s1.generationsSinceChange = 0) ∧
      (¬ currBest.Fitness < s.mostFit.Fitness →
        s1.mostFit = s.mostFit ∧ s1.generationsSinceChange = s.generationsSinceChange + 1) := by
  obtain ⟨candidates, events1, events2, currBest, hsel, _, _, hb, hs1⟩ :=
    generation_ok_inv env ref sinks gen s s1 h
  refine ⟨candidates, currBest, hsel, hb, ?_, ?_, ?_⟩
  · rw [hs1, accept_candidates, List.getElem?_map, hb]
    rfl
  · intro hlt
    rw [hs1]
    unfold accept
    rw [if_pos hlt]
    exact ⟨rfl, rfl⟩
  · intro hge
    rw [hs1]
    unfold accept
    rw [if_neg hge]
    exact ⟨rfl, rfl⟩

/-- A generation whose selection step succeeded completes when the slice is not
empty and has a candidate for every sink. -/
theorem generation_ok_of_selection (env : Env G) (ref : RGBA) (sinks : List SafeImage)
    (gen : Nat) (s : LoopState G) (candidates : List (Candidate G))
    (hsel : selection env ref gen s = .ok candidates) (hpos : 0 < candidates.length)
    (hs : sinks.length ≤ candidates.length) :
    ∃ events1 events2 currBest, logStats candidates gen s = .ok events1 ∧
      updateSinks candidates sinks 0 events1 = .ok events2 ∧
      candidates[0]? = some currBest ∧
      generation env ref sinks gen s = .ok (accept env candidates currBest events2 s) := by
  have hlast : candidates.length - 1 < candidates.length := by omega
  obtain ⟨events1, h1⟩ : ∃ events1, logStats candidates gen s = .ok events1 := by
    unfold logStats printStats
    rw [List.getElem?_eq_getElem hpos, List.getElem?_eq_getElem hlast]
    split
    · exact ⟨_, rfl⟩
    · exact ⟨_, rfl⟩
  obtain ⟨events2, h2⟩ := updateSinks_ok candidates sinks 0 events1 (by omega)
  refine ⟨events1, events2, candidates[0], h1, h2, List.getElem?_eq_getElem hpos, ?_⟩
  unfold generation
  rw [hsel]
  simp only []
  rw [h1]
  simp only []
  rw [h2]
  simp only []
  rw [List.getElem?_eq_getElem hpos]

/-- C13, as amended: in every generation of a run, for every list of at most
`PopulationCount` live sinks, the sink loop completes, every index `i` it uses is
within the sorted slice, and sink `i` is updated with the raster of the candidate
at index `i` of that slice; the generation then completes. -/
theorem sinks_updated_by_rank (env : Env G) (hsort : IsSortSort env.sortSort)
    (img : Image) (ref : RGBA) (sinks : List SafeImage) (s0 sg : LoopState G) (g : Nat)
    (candidates : List (Candidate G))
    (hs : sinks.length ≤ env.PopulationCount)
    (hinit : initialState env img = .ok (ref, s0))
    (hg : generations env ref sinks g 0 s0 = .ok sg)
    (hsel : selection env ref g sg = .ok candidates) :
    ∃ events1 events2 s1, logStats candidates g sg = .ok events1 ∧
      updateSinks candidates sinks 0 events1 = .ok events2 ∧
      generation env ref sinks g sg = .ok s1 ∧ s1.events = events2 ∧
      events2.length = events1.length + sinks.length ∧
      ∀ i (hi : i < sinks.length), i < candidates.length ∧
        ∃ c, candidates[i]? = some c ∧
          events2[events1.length + i]? = some (.update i sinks[i] c.img) := by
  obtain ⟨_, _, hP, hs0⟩ := initialState_ok_inv env img ref s0 hinit
  have hlen0 : s0.candidates.length = env.PopulationCount := by
    rw [hs0]
    simp
  have hlen : candidates.length = env.PopulationCount := by
    rw [selection_length env hsort ref g sg _ hsel, generations_length env hsort ref sinks g 0 s0 sg hg,
      hlen0]
  obtain ⟨events1, events2, currBest, h1, h2, _, h4⟩ :=
    generation_ok_of_selection env ref sinks g sg candidates hsel (by omega) (by omega)
  obtain ⟨hl, _, hupd⟩ := updateSinks_events candidates sinks 0 events1 events2 h2
  refine ⟨events1, events2, _, h1, h2, h4, accept_events _ _ _ _ _, hl, ?_⟩
  intro i hi
  obtain ⟨c, hc, he⟩ := hupd i hi
  simp only [Nat.zero_add] at hc he
  exact ⟨by omega, c, hc, he⟩

end EvolverClaims

/-- The theorem of C15 on the first two iterations of the instance: the first
replaces the champion, of fitness `315`, by a candidate of fitness `58`. -/
theorem acceptance_rule_witness :
    generation sampleEnv sampleRef [⟨0⟩, ⟨1⟩] 0 sampleStart = .ok (sampleAfter 1) ∧
    sampleStart.mostFit.Fitness = 315 ∧ (sampleAfter 1).mostFit.Fitness = 58 ∧
    (sampleAfter 1).generationsSinceChange = 0 ∧
    ∃ candidates currBest, selection sampleEnv sampleRef 0 sampleStart = .ok candidates ∧
      candidates[0]? = some currBest ∧ (sampleAfter 1).candidates[0]? = some (some currBest) ∧
      (currBest.Fitness < sampleStart.mostFit.Fitness →
        (sampleAfter 1).mostFit = currBest ∧ (sampleAfter 1).generationsSinceChange = 0) ∧
      (¬ currBest.Fitness < sampleStart.mostFit.Fitness →
        (sampleAfter 1).mostFit = sampleStart.mostFit ∧
        (sampleAfter 1).generationsSinceChange = sampleStart.generationsSinceChange + 1) :=
  ⟨by decide, by decide, by decide, by decide,
    acceptance_rule sampleEnv sampleRef [⟨0⟩, ⟨1⟩] 0 sampleStart (sampleAfter 1) (by decide)⟩

/-- The theorem of C13 on the instance with two live sinks, in the iteration
`gen = 1`. -/
theorem sinks_updated_by_rank_witness :
    initialState sampleEnv (.rgba sampleRef) = .ok (sampleRef, sampleStart) ∧
    generations sampleEnv sampleRef [⟨0⟩, ⟨1⟩] 1 0 sampleStart = .ok (sampleAfter 1) ∧
    selection sampleEnv sampleRef 1 (sampleAfter 1) = .ok sampleSelected ∧
    ∃ events1 events2 s1, logStats sampleSelected 1 (sampleAfter 1) = .ok events1 ∧
      updateSinks sampleSelected [⟨0⟩, ⟨1⟩] 0 events1 = .ok events2 ∧
      generation sampleEnv sampleRef [⟨0⟩, ⟨1⟩] 1 (sampleAfter 1) = .ok s1 ∧
      s1.events = events2 ∧
      events2.length = events1.length + ([⟨0⟩, ⟨1⟩] : List SafeImage).length ∧
      ∀ i (hi : i < ([⟨0⟩, ⟨1⟩] : List SafeImage).length), i < sampleSelected.length ∧
        ∃ c, sampleSelected[i]? = some c ∧
          events2[events1.length + i]? =
            some (.update i ([⟨0⟩, ⟨1⟩] : List SafeImage)[i] c.img) :=
  ⟨by decide, by decide, by decide,
    sinks_updated_by_rank sampleEnv sampleSort_isSortSort (.rgba sampleRef) sampleRef [⟨0⟩, ⟨1⟩]
      sampleStart (sampleAfter 1) 1 sampleSelected (by decide) (by decide) (by decide)
      (by decide)⟩

/-- C13 fails as stated: with three candidates and four live sinks the first
generation updates three sinks and panics at `candidates[3]`. -/
theorem sinks_beyond_population_counterexample :
    sampleEnv.PopulationCount = 3 ∧ fourSinks.length = 4 ∧
    SimulateAnnealing sampleEnv 1 (.rgba sampleRef) "out.png" fourSinks =
      .error ⟨[.stats 0 0 58 315,
          .update 0 ⟨0⟩ ⟨[2, 0, 0, 255], 4, Rect 0 0 1 1⟩,
          .update 1 ⟨1⟩ ⟨[1, 0, 0, 255], 4, Rect 0 0 1 1⟩,
          .update 2 ⟨2⟩ ⟨[0, 0, 0, 0], 4, Rect 0 0 1 1⟩],
        .panic .indexOutOfRange⟩ := by
  decide

/-! ## Theorems: the population of a generation -/

section Population

variable {G : Type}

/-- What a task that completes returns: the copy at the fresh pointer, mutated, with
the `FastCompare` distance as fitness. -/
theorem processCandidate_ok_inv (env : Env G) (ref : RGBA) (mostFit c : Candidate G)
    (gen i fresh : Nat) (h : processCandidate env ref mostFit gen i fresh = .ok c) :
    c = ⟨fresh, (env.MutateInPlace gen i (mostFit.genome, mostFit.img)).1,
      (env.MutateInPlace gen i (mostFit.genome, mostFit.img)).2, c.Fitness⟩ ∧
    FastCompare ref (env.MutateInPlace gen i (mostFit.genome, mostFit.img)).2 =
      .ok (c.Fitness, none) := by
  unfold processCandidate at h
  obtain ⟨hf, hc⟩ := evaluateCandidate_ok_inv _ _ _ h
  exact ⟨hc, hf⟩

/-- A fan-out that completes returns one candidate per task, in the order of the
slots. -/
theorem fanOut_ok_spec (env : Env G) (ref : RGBA) (mostFit : Candidate G) (gen : Nat) :
    ∀ (n i fresh : Nat) (cs : List (Candidate G)),
      fanOut env ref mostFit gen n i fresh = .ok cs →
      cs.length = n ∧
      ∀ k (hk : k < cs.length),
        processCandidate env ref mostFit gen (i + k) (fresh + k) = .ok cs[k] := by
  intro n
  induction n with
  | zero =>
    intro i fresh cs h
    simp only [fanOut, Except.ok.injEq] at h
    subst h
    exact ⟨rfl, fun k hk => absurd hk (by simp)⟩
  | succ n ih =>
    intro i fresh cs h
    unfold fanOut at h
    cases hp : processCandidate env ref mostFit gen i fresh with
    | error e => rw [hp] at h; simp at h
    | ok c =>
      rw [hp] at h
      simp only [] at h
      cases hf : fanOut env ref mostFit gen n (i + 1) (fresh + 1) with
      | error e => rw [hf] at h; simp at h
      | ok cs1 =>
        rw [hf] at h
        simp only [Except.ok.injEq] at h
        subst h
        obtain ⟨hl, hk1⟩ := ih (i + 1) (fresh + 1) cs1 hf
        refine ⟨by simp [hl], ?_⟩
        intro k hk
        cases k with
        | zero => simpa using hp
        | succ k =>
          simp only [List.length_cons] at hk
          have := hk1 k (by omega)
          rw [show i + (k + 1) = i + 1 + k by omega, show fresh + (k + 1) = fresh + 1 + k by omega]
          simpa using this

/-- The refill of the slots from `i` on, when the offspring are exactly as many as
the slots left: the slots below `i` are kept, the others receive the offspring. -/
theorem receive_spec : ∀ (offspring : List (Candidate G))
    (candidates : List (Option (Candidate G))) (i : Nat),
    i + offspring.length = candidates.length →
    receive candidates offspring i = .ok (candidates.take i ++ offspring.map some) := by
  intro offspring
  induction offspring with
  | nil =>
    intro candidates i h
    simp only [List.length_nil, Nat.add_zero] at h
    simp [receive, h]
  | cons c cs ih =>
    intro candidates i h
    simp only [List.length_cons] at h
    have hi : i < candidates.length := by omega
    unfold receive
    rw [if_pos hi, ih _ (i + 1) (by rw [List.length_set]; omega)]
    congr 1
    rw [List.set_eq_take_append_cons_drop, if_pos hi, List.take_append_eq_append_take,
      List.take_take, List.length_take]
    simp [Nat.min_eq_left (Nat.le_of_lt hi), List.append_assoc]

theorem nonNil_map_some : ∀ l : List (Candidate G), nonNil (l.map some) = some l := by
  intro l
  induction l with
  | nil => rfl
  | cons c cs ih =>
    simp only [List.map_cons, nonNil, ih]

/-- With `PopulationCount` slots and a candidate in slot `0`, the selection step
sorts that candidate together with the offspring of the fan-out, and fails only
when the fan-out does. -/
theorem selection_eq (env : Env G) (ref : RGBA) (gen : Nat) (s : LoopState G) (c0 : Candidate G)
    (hlen : s.candidates.length = env.PopulationCount)
    (h0 : s.candidates[0]? = some (some c0)) :
    selection env ref gen s =
      match fanOut env ref s.mostFit gen (env.PopulationCount - 1) 1 s.nextPtr with
      | .error h => .error ⟨s.events, h⟩
      | .ok offspring => .ok (env.sortSort (c0 :: offspring)) := by
  unfold selection
  cases hf : fanOut env ref s.mostFit gen (env.PopulationCount - 1) 1 s.nextPtr with
  | error h => rfl
  | ok offspring =>
    simp only []
    obtain ⟨hl, _⟩ := fanOut_ok_spec env ref s.mostFit gen _ 1 s.nextPtr offspring hf
    have hpos : 0 < s.candidates.length := by
      by_contra hcon
      rw [List.getElem?_eq_none (by omega)] at h0
      simp at h0
    have htake : s.candidates.take 1 = [some c0] := by
      cases hc : s.candidates with
      | nil => rw [hc] at hpos; simp at hpos
      | cons x xs =>
        rw [hc] at h0
        simp only [List.getElem?_cons_zero, Option.some.injEq] at h0
        simp [h0]
    rw [receive_spec offspring s.candidates 1 (by omega), htake]
    simp only []
    have : [some c0] ++ offspring.map some = (c0 :: offspring).map some := rfl
    rw [this, nonNil_map_some]

/-- The head of a sorted rearrangement is an element of least fitness. -/
theorem sortSort_head (env : Env G) (hsort : IsSortSort env.sortSort)
    (population : List (Candidate G)) (hpos : 0 < population.length) :
    ∃ currBest, (env.sortSort population)[0]? = some currBest ∧ currBest ∈ population ∧
      ∀ c ∈ population, currBest.Fitness ≤ c.Fitness := by
  have hperm := hsort.perm population
  have hlen : 0 < (env.sortSort population).length := by rw [hperm.length_eq]; exact hpos
  obtain ⟨best, _, hb, _, hall⟩ :=
    pairwise_first_last _ (sorted_of_isSortSort env hsort population) hlen
  refine ⟨best, hb, ?_, ?_⟩
  · exact hperm.subset (List.getElem?_mem hb)
  · intro c hc
    exact (hall c (hperm.symm.subset hc)).1

/-- One generation, from a state with `PopulationCount` slots whose slot `0` holds a
candidate of the champion's fitness: what the population is, and what the champion
and slot `0` are afterwards. -/
theorem generation_step (env : Env G) (hsort : IsSortSort env.sortSort) (ref : RGBA)
    (sinks : List SafeImage) (gen : Nat) (s s1 : LoopState G) (c0 : Candidate G)
    (hlen : s.candidates.length = env.PopulationCount)
    (h0 : s.candidates[0]? = some (some c0)) (hc0 : c0.Fitness = s.mostFit.Fitness)
    (h : generation env ref sinks gen s = .ok s1) :
    ∃ offspring currBest,
      fanOut env ref s.mostFit gen (env.PopulationCount - 1) 1 s.nextPtr = .ok offspring ∧
      offspring.length = env.PopulationCount - 1 ∧
      selection env ref gen s = .ok (env.sortSort (c0 :: offspring)) ∧
      (env.sortSort (c0 :: offspring))[0]? = some currBest ∧
      currBest ∈ c0 :: offspring ∧
      s1.candidates = (env.sortSort (c0 :: offspring)).map some ∧
      s1.candidates.length = env.PopulationCount ∧
      s1.candidates[0]? = some (some currBest) ∧
      currBest.Fitness = s1.mostFit.Fitness ∧
      (s1.mostFit = s.mostFit ∨ (s1.mostFit ∈ offspring ∧ s1.mostFit = currBest)) ∧
      (s1.mostFit = s.mostFit → s1.generationsSinceChange = s.generationsSinceChange + 1 ∨
        s1.generationsSinceChange = 0) ∧
      s1.nextPtr = s.nextPtr + (env.PopulationCount - 1) ∧
      s1.mostFit.Fitness ≤ s.mostFit.Fitness ∧
      ∀ c ∈ offspring, s1.mostFit.Fitness ≤ c.Fitness := by
  obtain ⟨candidates, events1, events2, currBest, hsel, _, _, hb, hs1⟩ :=
    generation_ok_inv env ref sinks gen s s1 h
  have hseq := selection_eq env ref gen s c0 hlen h0
  rw [hsel] at hseq
  cases hf : fanOut env ref s.mostFit gen (env.PopulationCount - 1) 1 s.nextPtr with
  | error e => rw [hf] at hseq; simp at hseq
  | ok offspring =>
    rw [hf] at hseq
    simp only [Except.ok.injEq] at hseq
    subst hseq
    obtain ⟨hl, _⟩ := fanOut_ok_spec env ref s.mostFit gen _ 1 s.nextPtr offspring hf
    obtain ⟨best, hbest, hmem, hmin⟩ := sortSort_head env hsort (c0 :: offspring) (by simp)
    rw [hb] at hbest
    simp only [Option.some.injEq] at hbest
    subst hbest
    have hcand : s1.candidates = (env.sortSort (c0 :: offspring)).map some := by
      rw [hs1, accept_candidates]
    have hle0 : currBest.Fitness ≤ s.mostFit.Fitness := by
      rw [← hc0]
      exact hmin c0 (List.mem_cons_self _ _)
    refine ⟨offspring, currBest, rfl, hl, hsel, hb, hmem, hcand, ?_, ?_, ?_⟩
    · rw [hcand, List.length_map, (hsort.perm _).length_eq, List.length_cons, hl]
      have : 0 < s.candidates.length := by
        by_contra hcon
        rw [List.getElem?_eq_none (by omega)] at h0
        simp at h0
      omega
    · rw [hcand, List.getElem?_map, hb]
      rfl
    · by_cases hlt : currBest.Fitness < s.mostFit.Fitness
      · have hm : s1.mostFit = currBest := by rw [hs1]; unfold accept; rw [if_pos hlt]
        have hq : s1.generationsSinceChange = 0 := by rw [hs1]; unfold accept; rw [if_pos hlt]
        have hn : s1.nextPtr = s.nextPtr + (env.PopulationCount - 1) := by
          rw [hs1]; unfold accept; rw [if_pos hlt]
        have hin : currBest ∈ offspring := by
          rcases List.mem_cons.mp hmem with heq | hin
          · rw [heq, hc0] at hlt
            exact absurd hlt (Nat.lt_irrefl _)
          · exact hin
        refine ⟨by rw [hm], Or.inr ⟨hm ▸ hin, hm⟩, fun _ => Or.inr hq, hn, by rw [hm]; exact hle0, ?_⟩
        intro c hc
        rw [hm]
        exact hmin c (List.mem_cons_of_mem _ hc)
      · have hm : s1.mostFit = s.mostFit := by rw [hs1]; unfold accept; rw [if_neg hlt]
        have hq : s1.generationsSinceChange = s.generationsSinceChange + 1 := by
          rw [hs1]; unfold accept; rw [if_neg hlt]
        have hn : s1.nextPtr = s.nextPtr + (env.PopulationCount - 1) := by
          rw [hs1]; unfold accept; rw [if_neg hlt]
        refine ⟨by rw [hm]; omega, Or.inl hm, fun _ => Or.inl hq, hn, by rw [hm], ?_⟩
        intro c hc
        rw [hm]
        exact Nat.le_trans (Nat.le_of_not_lt hlt) (hmin c (List.mem_cons_of_mem _ hc))

/-- Along a run, the slice keeps `PopulationCount` slots and slot `0` holds a
candidate of the champion's fitness. -/
theorem generations_slot_zero (env : Env G) (hsort : IsSortSort env.sortSort) (ref : RGBA)
    (sinks : List SafeImage) :
    ∀ (n gen : Nat) (s sn : LoopState G),
      s.candidates.length = env.PopulationCount →
      (∃ c0, s.candidates[0]? = some (some c0) ∧ c0.Fitness = s.mostFit.Fitness) →
      generations env ref sinks n gen s = .ok sn →
      sn.candidates.length = env.PopulationCount ∧
      ∃ c0, sn.candidates[0]? = some (some c0) ∧ c0.Fitness = sn.mostFit.Fitness := by
  intro n
  induction n with
  | zero =>
    intro gen s sn hlen h0 h
    simp only [generations, Except.ok.injEq] at h
    subst h
    exact ⟨hlen, h0⟩
  | succ n ih =>
    intro gen s sn hlen h0 h
    rw [generations] at h
    cases hg : generation env ref sinks gen s with
    | error e => rw [hg] at h; simp at h
    | ok s1 =>
      rw [hg] at h
      obtain ⟨c0, hc0, hf0⟩ := h0
      obtain ⟨_, currBest, _, _, _, _, _, _, hl1, hz1, hf1, _⟩ :=
        generation_step env hsort ref sinks gen s s1 c0 hlen hc0 hf0 hg
      exact ih (gen + 1) s1 sn hl1 ⟨currBest, hz1, hf1⟩ h

/-- The state in which a run enters the loop has `PopulationCount` slots, with the
champion in slot `0`. -/
theorem initialState_slot_zero (env : Env G) (img : Image) (ref : RGBA) (s0 : LoopState G)
    (h : initialState env img = .ok (ref, s0)) :
    s0.candidates.length = env.PopulationCount ∧ s0.candidates[0]? = some (some s0.mostFit) ∧
    s0.mostFit.ptr < s0.nextPtr := by
  obtain ⟨_, he, hP, hs0⟩ := initialState_ok_inv env img ref s0 h
  obtain ⟨_, hm⟩ := evaluateCandidate_ok_inv _ _ _ he
  refine ⟨by rw [hs0]; simp, ?_, ?_⟩
  · rw [hs0]
    simp only []
    rw [List.getElem?_set_self (by simpa using hP)]
  · rw [hs0]
    simp only []
    rw [hm]
    exact Nat.zero_lt_one

/-- A run of `g + 1` iterations is a run of `g` iterations followed by the
iteration `gen = g`. -/
theorem generations_succ_last (env : Env G) (ref : RGBA) (sinks : List SafeImage) (g : Nat)
    (s0 s1 : LoopState G) (h : generations env ref sinks (g + 1) 0 s0 = .ok s1) :
    ∃ sg, generations env ref sinks g 0 s0 = .ok sg ∧ generation env ref sinks g sg = .ok s1 := by
  rw [generations_add] at h
  cases hg : generations env ref sinks g 0 s0 with
  | error e => rw [hg] at h; simp at h
  | ok sg =>
    rw [hg] at h
    simp only [Nat.zero_add, generations] at h
    cases hgen : generation env ref sinks g sg with
    | error e => rw [hgen] at h; simp at h
    | ok s2 =>
      rw [hgen] at h
      simp only [Except.ok.injEq] at h
      subst h
      exact ⟨sg, rfl, hgen⟩

/-- The offspring of a fan-out are the results of its tasks: a task of slot `i`
returns the element `i - 1` of the list. -/
theorem fanOut_task_mem (env : Env G) (ref : RGBA) (mostFit c : Candidate G) (gen n fresh i : Nat)
    (offspring : List (Candidate G))
    (hf : fanOut env ref mostFit gen n 1 fresh = .ok offspring) (hi1 : 1 ≤ i) (hi2 : i < n + 1)
    (hp : processCandidate env ref mostFit gen i (fresh + (i - 1)) = .ok c) : c ∈ offspring := by
  obtain ⟨hl, hk⟩ := fanOut_ok_spec env ref mostFit gen n 1 fresh offspring hf
  have hlt : i - 1 < offspring.length := by omega
  have := hk (i - 1) hlt
  rw [show 1 + (i - 1) = i by omega, hp] at this
  simp only [Except.ok.injEq] at this
  rw [this]
  exact List.getElem_mem hlt

theorem fanOut_mem_task (env : Env G) (ref : RGBA) (mostFit c : Candidate G) (gen n fresh : Nat)
    (offspring : List (Candidate G))
    (hf : fanOut env ref mostFit gen n 1 fresh = .ok offspring) (hc : c ∈ offspring) :
    ∃ i, 1 ≤ i ∧ i < n + 1 ∧
      processCandidate env ref mostFit gen i (fresh + (i - 1)) = .ok c := by
  obtain ⟨hl, hk⟩ := fanOut_ok_spec env ref mostFit gen n 1 fresh offspring hf
  obtain ⟨k, hlt, rfl⟩ := List.getElem_of_mem hc
  refine ⟨1 + k, by omega, by omega, ?_⟩
  rw [show 1 + k - 1 = k by omega]
  exact hk k hlt

/-! ### Claims on slot `0` and on the champion as a minimum -/

/-- C16, as amended: at the start of every generation of a run, and so after the
selection and acceptance step of the generation before, slot `0` holds a candidate
of the champion's fitness; it is the very same candidate as the champion as long
as no offspring evaluated so far had the fitness the champion had at that time. -/
theorem slot_zero_has_champion_fitness (env : Env G) (hsort : IsSortSort env.sortSort)
    (img : Image) (ref : RGBA) (sinks : List SafeImage) (s0 : LoopState G)
    (hinit : initialState env img = .ok (ref, s0)) :
    ∀ (g : Nat) (sg : LoopState G), generations env ref sinks g 0 s0 = .ok sg →
      (∃ c0, sg.candidates[0]? = some (some c0) ∧ c0.Fitness = sg.mostFit.Fitness) ∧
      ((∀ g1 s1 i c, g1 < g → generations env ref sinks g1 0 s0 = .ok s1 → 1 ≤ i →
          i < env.PopulationCount →
          processCandidate env ref s1.mostFit g1 i (s1.nextPtr + (i - 1)) = .ok c →
          c.Fitness ≠ s1.mostFit.Fitness) →
        sg.candidates[0]? = some (some sg.mostFit)) := by
  obtain ⟨hlen0, hz0, _⟩ := initialState_slot_zero env img ref s0 hinit
  intro g
  induction g with
  | zero =>
    intro sg hg
    simp only [generations, Except.ok.injEq] at hg
    subst hg
    exact ⟨⟨_, hz0, rfl⟩, fun _ => hz0⟩
  | succ g ih =>
    intro s1 hg1
    obtain ⟨sg, hg, hgen⟩ := generations_succ_last env ref sinks g s0 s1 hg1
    obtain ⟨hinv, hexact⟩ := ih sg hg
    obtain ⟨hlen, _⟩ := generations_slot_zero env hsort ref sinks g 0 s0 sg hlen0 ⟨_, hz0, rfl⟩ hg
    constructor
    · exact (generations_slot_zero env hsort ref sinks (g + 1) 0 s0 s1 hlen0 ⟨_, hz0, rfl⟩ hg1).2
    · intro hno
      have hz : sg.candidates[0]? = some (some sg.mostFit) :=
        hexact fun g1 s2 i c hlt => hno g1 s2 i c (by omega)
      obtain ⟨offspring, currBest, hf, _, _, _, hmem, _, _, hz1, hf1, hcase, _⟩ :=
        generation_step env hsort ref sinks g sg s1 sg.mostFit hlen hz rfl hgen
      rcases hcase with hsame | ⟨_, hnew⟩
      · rcases List.mem_cons.mp hmem with heq | hin
        · rw [hz1, heq, hsame]
        · obtain ⟨i, hi1, hi2, hp⟩ := fanOut_mem_task env ref sg.mostFit currBest g _ _ offspring hf hin
          have hP : 0 < env.PopulationCount := by
            rw [← hlen]
            by_contra hcon
            rw [List.getElem?_eq_none (by omega)] at hz
            simp at hz
          have := hno g sg i currBest (by omega) hg hi1 (by omega) hp
          rw [hf1, hsame] at this
          exact absurd rfl this
      · rw [hz1, hnew]

/-- C20: after every generation of a run the champion's fitness is the minimum of
the fitness of the initial candidate and of all offspring evaluated so far: it is
at most each of them, and the champion is one of these candidates; the candidate
saved at the end of a run is the champion after the last generation. -/
theorem champion_is_minimum (env : Env G) (hsort : IsSortSort env.sortSort)
    (img : Image) (ref : RGBA) (sinks : List SafeImage) (s0 : LoopState G)
    (hinit : initialState env img = .ok (ref, s0)) :
    (∀ (n : Nat) (sn : LoopState G), generations env ref sinks n 0 s0 = .ok sn →
      sn.mostFit.Fitness ≤ s0.mostFit.Fitness ∧
      (∀ g sg i c, g < n → generations env ref sinks g 0 s0 = .ok sg → 1 ≤ i →
        i < env.PopulationCount →
        processCandidate env ref sg.mostFit g i (sg.nextPtr + (i - 1)) = .ok c →
        sn.mostFit.Fitness ≤ c.Fitness) ∧
      (sn.mostFit = s0.mostFit ∨
        ∃ g sg i, g < n ∧ generations env ref sinks g 0 s0 = .ok sg ∧ 1 ≤ i ∧
          i < env.PopulationCount ∧
          processCandidate env ref sg.mostFit g i (sg.nextPtr + (i - 1)) = .ok sn.mostFit)) ∧
    ∀ (maxGen : Int) (destFile : String) (s : LoopState G),
      SimulateAnnealing env maxGen img destFile sinks = .ok s →
      ∃ sn, generations env ref sinks maxGen.toNat 0 s0 = .ok sn ∧
        s.events.filter Event.isSaved = [.saved destFile sn.mostFit] := by
  obtain ⟨hlen0, hz0, _⟩ := initialState_slot_zero env img ref s0 hinit
  constructor
  · intro n
    induction n with
    | zero =>
      intro sn hn
      simp only [generations, Except.ok.injEq] at hn
      subst hn
      exact ⟨Nat.le_refl _, fun g _ _ _ hlt => absurd hlt (by omega), Or.inl rfl⟩
    | succ n ih =>
      intro s1 hn1
      obtain ⟨sn, hn, hgen⟩ := generations_succ_last env ref sinks n s0 s1 hn1
      obtain ⟨hle, hall, hatt⟩ := ih sn hn
      obtain ⟨hlen, c0, hz, hc0⟩ :=
        generations_slot_zero env hsort ref sinks n 0 s0 sn hlen0 ⟨_, hz0, rfl⟩ hn
      have hP : 0 < env.PopulationCount := by
        rw [← hlen]
        by_contra hcon
        rw [List.getElem?_eq_none (by omega)] at hz
        simp at hz
      obtain ⟨offspring, currBest, hf, _, _, _, _, _, _, _, _, hcase, _, _, hle1, hmin⟩ :=
        generation_step env hsort ref sinks n sn s1 c0 hlen hz hc0 hgen
      refine ⟨Nat.le_trans hle1 hle, ?_, ?_⟩
      · intro g sg i c hlt hg hi1 hi2 hp
        rcases Nat.lt_or_ge g n with hlt1 | hge
        · exact Nat.le_trans hle1 (hall g sg i c hlt1 hg hi1 hi2 hp)
        · have hgn : g = n := by omega
          subst hgn
          rw [hn] at hg
          simp only [Except.ok.injEq] at hg
          subst hg
          exact hmin c (fanOut_task_mem env ref sn.mostFit c g _ _ i offspring hf hi1 (by omega) hp)
      · rcases hcase with hsame | ⟨hin, _⟩
        · rcases hatt with h0 | ⟨g, sg, i, hlt, hg, hi1, hi2, hp⟩
          · exact Or.inl (by rw [hsame, h0])
          · exact Or.inr ⟨g, sg, i, by omega, hg, hi1, hi2, by rw [hsame]; exact hp⟩
        · obtain ⟨i, hi1, hi2, hp⟩ :=
            fanOut_mem_task env ref sn.mostFit s1.mostFit n _ _ offspring hf hin
          exact Or.inr ⟨n, sn, i, by omega, hn, hi1, by omega, hp⟩
  · intro maxGen destFile s h
    obtain ⟨ref1, s1, sN, hi, hg, hs⟩ := SimulateAnnealing_ok_inv env maxGen img destFile sinks s h
    rw [hinit] at hi
    simp only [Except.ok.injEq, Prod.mk.injEq] at hi
    obtain ⟨hr, hs1⟩ := hi
    subst hr
    subst hs1
    obtain ⟨_, _, _, hs0⟩ := initialState_ok_inv env img ref s0 hinit
    have hn0 : NoSaved s0.events := by
      rw [hs0]
      intro e he
      simp at he
    have hnN := (generations_noSaved env ref sinks maxGen.toNat 0 s0 hn0).1 sN hg
    refine ⟨sN, hg, ?_⟩
    rw [hs]
    simp only [List.filter_append, filter_isSaved_of_noSaved _ hnN, List.nil_append]
    rfl

/-- The offspring of a fan-out live at the fresh pointers it was given. -/
theorem fanOut_ptr (env : Env G) (ref : RGBA) (mostFit c : Candidate G) (gen n fresh : Nat)
    (offspring : List (Candidate G))
    (hf : fanOut env ref mostFit gen n 1 fresh = .ok offspring) (hc : c ∈ offspring) :
    fresh ≤ c.ptr ∧ c.ptr < fresh + n := by
  obtain ⟨i, hi1, hi2, hp⟩ := fanOut_mem_task env ref mostFit c gen n fresh offspring hf hc
  obtain ⟨hc1, _⟩ := processCandidate_ok_inv env ref mostFit c gen i _ hp
  rw [hc1]
  simp only []
  omega

/-- Along a run the champion and the candidate in slot `0` live below the next
unused pointer. -/
theorem generations_ptr_lt (env : Env G) (hsort : IsSortSort env.sortSort) (ref : RGBA)
    (sinks : List SafeImage) :
    ∀ (n gen : Nat) (s sn : LoopState G),
      s.candidates.length = env.PopulationCount →
      (∃ c0, s.candidates[0]? = some (some c0) ∧ c0.Fitness = s.mostFit.Fitness ∧
        c0.ptr < s.nextPtr) →
      s.mostFit.ptr < s.nextPtr →
      generations env ref sinks n gen s = .ok sn →
      sn.mostFit.ptr < sn.nextPtr := by
  intro n
  induction n with
  | zero =>
    intro gen s sn _ _ hm h
    simp only [generations, Except.ok.injEq] at h
    subst h
    exact hm
  | succ n ih =>
    intro gen s sn hlen h0 hm h
    rw [generations] at h
    cases hg : generation env ref sinks gen s with
    | error e => rw [hg] at h; simp at h
    | ok s1 =>
      rw [hg] at h
      obtain ⟨c0, hz, hc0, hp0⟩ := h0
      obtain ⟨offspring, currBest, hf, _, _, _, hmem, _, hl1, hz1, hf1, hcase, _, hn1, _, _⟩ :=
        generation_step env hsort ref sinks gen s s1 c0 hlen hz hc0 hg
      have hcb : currBest.ptr < s1.nextPtr := by
        rw [hn1]
        rcases List.mem_cons.mp hmem with heq | hin
        · rw [heq]; omega
        · have := fanOut_ptr env ref s.mostFit currBest gen _ _ offspring hf hin
          omega
      have hm1 : s1.mostFit.ptr < s1.nextPtr := by
        rcases hcase with hsame | ⟨_, hnew⟩
        · rw [hsame, hn1]; omega
        · rw [hnew]; exact hcb
      exact ih (gen + 1) s1 sn hl1 ⟨currBest, hz1, hf1, hcb⟩ hm1 h

/-! ### Claim on the population at the selection step -/

/-- C18: at the selection step of every generation of a run the slice holds exactly
`PopulationCount` candidates and no nil slot: the candidate carried over in slot
`0` and `PopulationCount - 1` offspring, the one of slot `1 + k` being the copy of
the champion of the start of the generation at a pointer of its own, mutated and
then evaluated against the reference; the champion after the generation is the
unchanged champion or one of these offspring. -/
theorem population_is_champion_plus_offspring (env : Env G) (hsort : IsSortSort env.sortSort)
    (img : Image) (ref : RGBA) (sinks : List SafeImage) (s0 sg : LoopState G) (g : Nat)
    (candidates : List (Candidate G))
    (hinit : initialState env img = .ok (ref, s0))
    (hg : generations env ref sinks g 0 s0 = .ok sg)
    (hsel : selection env ref g sg = .ok candidates) :
    ∃ c0 offspring,
      sg.candidates[0]? = some (some c0) ∧
      offspring.length = env.PopulationCount - 1 ∧
      candidates.length = env.PopulationCount ∧
      candidates.Perm (c0 :: offspring) ∧
      (∀ k (hk : k < offspring.length),
        offspring[k] = ⟨sg.nextPtr + k,
          (env.MutateInPlace g (1 + k) (sg.mostFit.genome, sg.mostFit.img)).1,
          (env.MutateInPlace g (1 + k) (sg.mostFit.genome, sg.mostFit.img)).2,
          offspring[k].Fitness⟩ ∧
        FastCompare ref (env.MutateInPlace g (1 + k) (sg.mostFit.genome, sg.mostFit.img)).2 =
          .ok (offspring[k].Fitness, none) ∧
        offspring[k].ptr ≠ sg.mostFit.ptr) ∧
      ∀ s1, generation env ref sinks g sg = .ok s1 →
        s1.candidates = candidates.map some ∧ (s1.mostFit = sg.mostFit ∨ s1.mostFit ∈ offspring) := by
  obtain ⟨hlen0, hz0, hp0⟩ := initialState_slot_zero env img ref s0 hinit
  obtain ⟨hlen, c0, hz, hc0⟩ :=
    generations_slot_zero env hsort ref sinks g 0 s0 sg hlen0 ⟨_, hz0, rfl⟩ hg
  have hptr := generations_ptr_lt env hsort ref sinks g 0 s0 sg hlen0 ⟨_, hz0, rfl, hp0⟩ hp0 hg
  have hseq := selection_eq env ref g sg c0 hlen hz
  rw [hsel] at hseq
  cases hf : fanOut env ref sg.mostFit g (env.PopulationCount - 1) 1 sg.nextPtr with
  | error e => rw [hf] at hseq; simp at hseq
  | ok offspring =>
    rw [hf] at hseq
    simp only [Except.ok.injEq] at hseq
    obtain ⟨hl, hk⟩ := fanOut_ok_spec env ref sg.mostFit g _ 1 sg.nextPtr offspring hf
    have hP : 0 < env.PopulationCount := by
      rw [← hlen]
      by_contra hcon
      rw [List.getElem?_eq_none (by omega)] at hz
      simp at hz
    refine ⟨c0, offspring, hz, hl, ?_, ?_, ?_, ?_⟩
    · rw [hseq, (hsort.perm _).length_eq, List.length_cons, hl]
      omega
    · rw [hseq]
      exact hsort.perm _
    · intro k hlt
      obtain ⟨hc1, hf1⟩ := processCandidate_ok_inv env ref sg.mostFit _ g _ _ (hk k hlt)
      refine ⟨hc1, hf1, ?_⟩
      rw [hc1]
      simp only []
      omega
    · intro s1 hgen
      obtain ⟨offspring1, currBest, hf2, _, _, _, _, hcand, _, _, _, hcase, _⟩ :=
        generation_step env hsort ref sinks g sg s1 c0 hlen hz hc0 hgen
      rw [hf] at hf2
      simp only [Except.ok.injEq] at hf2
      subst hf2
      refine ⟨by rw [hcand, hseq], ?_⟩
      rcases hcase with hsame | ⟨hin, _⟩
      · exact Or.inl hsame
      · exact Or.inr hin

end Population

/-- The sort of `tieEnv` meets the contract of `sort.Sort`. -/
theorem tieSort_isSortSort : IsSortSort tieSort := by
  haveI : IsTotal (Candidate Nat) (fun a b => a.Fitness ≤ b.Fitness) :=
    ⟨fun a b => Nat.le_total a.Fitness b.Fitness⟩
  haveI : IsTrans (Candidate Nat) (fun a b => a.Fitness ≤ b.Fitness) :=
    ⟨fun _ _ _ h1 h2 => Nat.le_trans h1 h2⟩
  constructor
  · intro l
    exact (List.perm_insertionSort _ l.reverse).trans (List.reverse_perm l)
  · intro l
    refine (List.sorted_insertionSort (fun a b : Candidate Nat => a.Fitness ≤ b.Fitness)
      l.reverse).imp ?_
    intro a b h
    simp only [ByFitness.Less, decide_eq_false_iff_not, Nat.not_lt]
    exact h

/-- The theorem of C16 on the instance after one iteration, in which no offspring
had the fitness `315` of the champion. -/
theorem slot_zero_has_champion_fitness_witness :
    initialState sampleEnv (.rgba sampleRef) = .ok (sampleRef, sampleStart) ∧
    generations sampleEnv sampleRef [⟨0⟩, ⟨1⟩] 1 0 sampleStart = .ok (sampleAfter 1) ∧
    (∃ c0, (sampleAfter 1).candidates[0]? = some (some c0) ∧
      c0.Fitness = (sampleAfter 1).mostFit.Fitness) ∧
    (sampleAfter 1).candidates[0]? = some (some (sampleAfter 1).mostFit) :=
  have h := slot_zero_has_champion_fitness sampleEnv sampleSort_isSortSort (.rgba sampleRef)
    sampleRef [⟨0⟩, ⟨1⟩] sampleStart (by decide) 1 (sampleAfter 1) (by decide)
  ⟨by decide, by decide, h.1, h.2 (by
    intro g1 s1 i c hg1 hs1 hi1 hi2 hp
    have hg : g1 = 0 := by omega
    subst hg
    simp only [generations, Except.ok.injEq] at hs1
    subst hs1
    have hi3 : i < 3 := hi2
    interval_cases i
    · have hc : processCandidate sampleEnv sampleRef sampleStart.mostFit 0 1 (sampleStart.nextPtr + (1 - 1)) =
          .ok ⟨1, 1, ⟨[1, 0, 0, 255], 4, Rect 0 0 1 1⟩, 59⟩ := by decide
      rw [hc] at hp
      simp only [Except.ok.injEq] at hp
      subst hp
      decide
    · have hc : processCandidate sampleEnv sampleRef sampleStart.mostFit 0 2 (sampleStart.nextPtr + (2 - 1)) =
          .ok ⟨2, 1, ⟨[2, 0, 0, 255], 4, Rect 0 0 1 1⟩, 58⟩ := by decide
      rw [hc] at hp
      simp only [Except.ok.injEq] at hp
      subst hp
      decide)⟩

/-- The theorem of C20 on the instance: the champion after three generations, and
the candidate saved by the run of three generations. -/
theorem champion_is_minimum_witness :
    initialState sampleEnv (.rgba sampleRef) = .ok (sampleRef, sampleStart) ∧
    generations sampleEnv sampleRef [⟨0⟩, ⟨1⟩] 3 0 sampleStart = .ok (sampleAfter 3) ∧
    (sampleAfter 3).mostFit.Fitness ≤ sampleStart.mostFit.Fitness ∧
    ∃ sn, generations sampleEnv sampleRef [⟨0⟩, ⟨1⟩] (3 : Int).toNat 0 sampleStart = .ok sn ∧
      sampleDone.events.filter Event.isSaved = [.saved "out.png" sn.mostFit] :=
  have h := champion_is_minimum sampleEnv sampleSort_isSortSort (.rgba sampleRef) sampleRef
    [⟨0⟩, ⟨1⟩] sampleStart (by decide)
  ⟨by decide, by decide, (h.1 3 (sampleAfter 3) (by decide)).1,
    h.2 3 "out.png" sampleDone (by decide)⟩

/-- The theorem of C18 on the instance, in the iteration `gen = 1`. -/
theorem population_is_champion_plus_offspring_witness :
    initialState sampleEnv (.rgba sampleRef) = .ok (sampleRef, sampleStart) ∧
    generations sampleEnv sampleRef [⟨0⟩, ⟨1⟩] 1 0 sampleStart = .ok (sampleAfter 1) ∧
    selection sampleEnv sampleRef 1 (sampleAfter 1) = .ok sampleSelected ∧
    ∃ c0 offspring,
      (sampleAfter 1).candidates[0]? = some (some c0) ∧
      offspring.length = sampleEnv.PopulationCount - 1 ∧
      sampleSelected.length = sampleEnv.PopulationCount ∧
      sampleSelected.Perm (c0 :: offspring) ∧
      (∀ k (hk : k < offspring.length),
        offspring[k] = ⟨(sampleAfter 1).nextPtr + k,
          (sampleEnv.MutateInPlace 1 (1 + k)
            ((sampleAfter 1).mostFit.genome, (sampleAfter 1).mostFit.img)).1,
          (sampleEnv.MutateInPlace 1 (1 + k)
            ((sampleAfter 1).mostFit.genome, (sampleAfter 1).mostFit.img)).2,
          offspring[k].Fitness⟩ ∧
        FastCompare sampleRef (sampleEnv.MutateInPlace 1 (1 + k)
            ((sampleAfter 1).mostFit.genome, (sampleAfter 1).mostFit.img)).2 =
          .ok (offspring[k].Fitness, none) ∧
        offspring[k].ptr ≠ (sampleAfter 1).mostFit.ptr) ∧
      ∀ s1, generation sampleEnv sampleRef [⟨0⟩, ⟨1⟩] 1 (sampleAfter 1) = .ok s1 →
        s1.candidates = sampleSelected.map some ∧
        (s1.mostFit = (sampleAfter 1).mostFit ∨ s1.mostFit ∈ offspring) :=
  ⟨by decide, by decide, by decide,
    population_is_champion_plus_offspring sampleEnv sampleSort_isSortSort (.rgba sampleRef)
      sampleRef [⟨0⟩, ⟨1⟩] sampleStart (sampleAfter 1) 1 sampleSelected (by decide) (by decide)
      (by decide)⟩

/-! ## Theorems: the loop as written and the re-seeding variant -/

section Reseed

variable {G : Type}

/-- The sink loop panics when the slice has fewer candidates than sinks. -/
theorem updateSinks_error (candidates : List (Candidate G)) :
    ∀ (sinks : List SafeImage) (i : Nat) (events : List (Event G)),
      i ≤ candidates.length → candidates.length < i + sinks.length →
      ∃ events2, updateSinks candidates sinks i events = .error events2 := by
  intro sinks
  induction sinks with
  | nil => intro i events h1 h2; simp at h2; omega
  | cons sink rest ih =>
    intro i events h1 h2
    simp only [List.length_cons] at h2
    unfold updateSinks
    cases hc : candidates[i]? with
    | none => exact ⟨events, rfl⟩
    | some c =>
      have hi : i < candidates.length := by
        by_contra hcon
        rw [List.getElem?_eq_none (by omega)] at hc
        simp at hc
      exact ih (i + 1) _ (by omega) (by omega)

theorem generation_error_of_sinks (env : Env G) (ref : RGBA) (sinks : List SafeImage)
    (gen : Nat) (s : LoopState G) (candidates : List (Candidate G))
    (hsel : selection env ref gen s = .ok candidates) (hpos : 0 < candidates.length)
    (hs : candidates.length < sinks.length) :
    ∃ a, generation env ref sinks gen s = .error a := by
  have hlast : candidates.length - 1 < candidates.length := by omega
  obtain ⟨events1, h1⟩ : ∃ events1, logStats candidates gen s = .ok events1 := by
    unfold logStats printStats
    rw [List.getElem?_eq_getElem hpos, List.getElem?_eq_getElem hlast]
    split
    · exact ⟨_, rfl⟩
    · exact ⟨_, rfl⟩
  obtain ⟨events2, h2⟩ := updateSinks_error candidates sinks 0 events1 (by omega) (by omega)
  refine ⟨⟨events2, .panic .indexOutOfRange⟩, ?_⟩
  unfold generation
  rw [hsel]
  simp only []
  rw [h1]
  simp only []
  rw [h2]

theorem accept_mostFit (env : Env G) (candidates : List (Candidate G)) (currBest : Candidate G)
    (events : List (Event G)) (s : LoopState G) :
    (accept env candidates currBest events s).mostFit =
      if currBest.Fitness < s.mostFit.Fitness then currBest else s.mostFit := by
  unfold accept
  split <;> rfl

theorem accept_since (env : Env G) (candidates : List (Candidate G)) (currBest : Candidate G)
    (events : List (Event G)) (s : LoopState G) :
    (accept env candidates currBest events s).generationsSinceChange =
      if currBest.Fitness < s.mostFit.Fitness then 0 else s.generationsSinceChange + 1 := by
  unfold accept
  split <;> rfl

theorem accept_nextPtr (env : Env G) (candidates : List (Candidate G)) (currBest : Candidate G)
    (events : List (Event G)) (s : LoopState G) :
    (accept env candidates currBest events s).nextPtr = s.nextPtr + (env.PopulationCount - 1) := by
  unfold accept
  split <;> rfl

/-- From corresponding states, one iteration of the loop as written and one of the
variant both end the run, or both complete in corresponding states. -/
theorem corresponds_step (env : Env G) (hsort : IsSortSort env.sortSort)
    (hcmp : IsComparisonSort env.sortSort) (ref : RGBA) (sinks : List SafeImage) (gen : Nat)
    (sw sv : LoopState G) (h : Corresponds env sw sv) :
    (∃ a b, generation env ref sinks gen sw = .error a ∧
      generationReseed env ref sinks gen sv = .error b) ∨
    ∃ sw1 sv1, generation env ref sinks gen sw = .ok sw1 ∧
      generationReseed env ref sinks gen sv = .ok sv1 ∧ Corresponds env sw1 sv1 := by
  obtain ⟨hm, hq, hn, hlw, hlv, hnw, hnv, c0, hz, hc0⟩ := h
  have hP : 0 < env.PopulationCount := by
    rw [← hlw]
    by_contra hcon
    rw [List.getElem?_eq_none (by omega)] at hz
    simp at hz
  have hre : generationReseed env ref sinks gen sv =
      generation env ref sinks gen { sv with candidates := sv.candidates.set 0 (some sv.mostFit) } := by
    unfold generationReseed
    rw [if_pos (by omega)]
  rw [hre]
  generalize hsv2 : ({ sv with candidates := sv.candidates.set 0 (some sv.mostFit) } : LoopState G) = sv2
  have hm2 : sv2.mostFit = sw.mostFit := by rw [← hsv2, hm]
  have hq2 : sv2.generationsSinceChange = sw.generationsSinceChange := by rw [← hsv2, hq]
  have hn2 : sv2.nextPtr = sw.nextPtr := by rw [← hsv2, hn]
  have he2 : sv2.events = sv.events := by rw [← hsv2]
  have hl2 : sv2.candidates.length = env.PopulationCount := by
    rw [← hsv2]
    simp only [List.length_set]
    exact hlv
  have hz2 : sv2.candidates[0]? = some (some sw.mostFit) := by
    rw [← hsv2]
    simp only []
    rw [List.getElem?_set_self (by omega), hm]
  have hselw := selection_eq env ref gen sw c0 hlw hz
  have hselv := selection_eq env ref gen sv2 sw.mostFit hl2 hz2
  rw [hm2, hn2] at hselv
  cases hf : fanOut env ref sw.mostFit gen (env.PopulationCount - 1) 1 sw.nextPtr with
  | error e =>
    left
    exact ⟨_, _, generation_of_fanOut_error env ref sinks gen sw e hf,
      generation_of_fanOut_error env ref sinks gen sv2 e (by rw [hm2, hn2]; exact hf)⟩
  | ok offspring =>
    rw [hf] at hselw hselv
    simp only [] at hselw hselv
    obtain ⟨hl, _⟩ := fanOut_ok_spec env ref sw.mostFit gen _ 1 sw.nextPtr offspring hf
    have hlcw : (env.sortSort (c0 :: offspring)).length = env.PopulationCount := by
      rw [(hsort.perm _).length_eq, List.length_cons, hl]
      omega
    have hlcv : (env.sortSort (sw.mostFit :: offspring)).length = env.PopulationCount := by
      rw [(hsort.perm _).length_eq, List.length_cons, hl]
      omega
    rcases Nat.lt_or_ge env.PopulationCount sinks.length with hs | hs
    · left
      obtain ⟨a, ha⟩ := generation_error_of_sinks env ref sinks gen sw _ hselw (by omega) (by omega)
      obtain ⟨b, hb⟩ := generation_error_of_sinks env ref sinks gen sv2 _ hselv (by omega) (by omega)
      exact ⟨a, b, ha, hb⟩
    · right
      obtain ⟨_, ew, bw, _, _, hbw, hgw⟩ :=
        generation_ok_of_selection env ref sinks gen sw _ hselw (by omega) (by omega)
      obtain ⟨_, ev, bv, _, _, hbv, hgv⟩ :=
        generation_ok_of_selection env ref sinks gen sv2 _ hselv (by omega) (by omega)
      have hrel : List.Forall₂ (fun a b => a = b ∨ (a = c0 ∧ b = sw.mostFit))
          (env.sortSort (c0 :: offspring)) (env.sortSort (sw.mostFit :: offspring)) := by
        apply hcmp.natural
        · intro a b hab
          rcases hab with rfl | ⟨rfl, rfl⟩
          · rfl
          · exact hc0
        · exact List.Forall₂.cons (Or.inr ⟨rfl, rfl⟩)
            (List.forall₂_same.mpr fun _ _ => Or.inl rfl)
      have hheads : bw = bv ∨ (bw = c0 ∧ bv = sw.mostFit) := by
        generalize env.sortSort (c0 :: offspring) = cw at hrel hbw
        generalize env.sortSort (sw.mostFit :: offspring) = cv at hrel hbv
        cases hrel with
        | nil => simp at hbw
        | cons hab htail =>
          simp only [List.getElem?_cons_zero, Option.some.injEq] at hbw hbv
          rw [← hbw, ← hbv]
          exact hab
      have hfit : bw.Fitness = bv.Fitness := by
        rcases hheads with rfl | ⟨rfl, rfl⟩
        · rfl
        · exact hc0
      obtain ⟨_, currBest, _, _, _, _, _, _, hl1, hz1, hf1, _⟩ :=
        generation_step env hsort ref sinks gen sw _ c0 hlw hz hc0 hgw
      refine ⟨_, _, hgw, hgv, ?_, ?_, ?_, hl1, ?_, ?_, ?_, currBest, hz1, hf1⟩
      · rw [accept_mostFit, accept_mostFit, hm2, ← hfit]
        split
        · rename_i hlt
          rcases hheads with heq | ⟨heq, _⟩
          · exact heq
          · rw [heq, hc0] at hlt
            exact absurd hlt (Nat.lt_irrefl _)
        · rfl
      · rw [accept_since, accept_since, hm2, hq2, ← hfit]
      · rw [accept_nextPtr, accept_nextPtr, hn2]
      · rw [accept_candidates, List.length_map]
        exact hlcv
      · exact (generation_noSaved env ref sinks gen sw hnw).1 _ hgw
      · exact (generation_noSaved env ref sinks gen sv2 (by rw [he2]; exact hnv)).1 _ hgv

/-- From corresponding states, the two loops both end the run or both complete in
corresponding states. -/
theorem corresponds_run (env : Env G) (hsort : IsSortSort env.sortSort)
    (hcmp : IsComparisonSort env.sortSort) (ref : RGBA) (sinks : List SafeImage) :
    ∀ (n gen : Nat) (sw sv : LoopState G), Corresponds env sw sv →
      (∃ a b, generations env ref sinks n gen sw = .error a ∧
        generationsReseed env ref sinks n gen sv = .error b) ∨
      ∃ sw1 sv1, generations env ref sinks n gen sw = .ok sw1 ∧
        generationsReseed env ref sinks n gen sv = .ok sv1 ∧ Corresponds env sw1 sv1 := by
  intro n
  induction n with
  | zero => intro gen sw sv h; exact Or.inr ⟨sw, sv, rfl, rfl, h⟩
  | succ n ih =>
    intro gen sw sv h
    rw [generations, generationsReseed]
    rcases corresponds_step env hsort hcmp ref sinks gen sw sv h with
      ⟨a, b, ha, hb⟩ | ⟨sw1, sv1, hw, hv, h1⟩
    · rw [ha, hb]
      exact Or.inl ⟨a, b, rfl, rfl⟩
    · rw [hw, hv]
      exact ih (gen + 1) sw1 sv1 h1

/-- The state in which a run enters the loop corresponds to itself. -/
theorem corresponds_initial (env : Env G) (img : Image) (ref : RGBA) (s0 : LoopState G)
    (hinit : initialState env img = .ok (ref, s0)) : Corresponds env s0 s0 := by
  obtain ⟨hlen0, hz0, _⟩ := initialState_slot_zero env img ref s0 hinit
  obtain ⟨_, _, _, hs0⟩ := initialState_ok_inv env img ref s0 hinit
  have hn0 : NoSaved s0.events := by
    rw [hs0]
    intro e he
    simp at he
  exact ⟨rfl, rfl, rfl, hlen0, hlen0, hn0, hn0, s0.mostFit, hz0, rfl⟩

/-! ### Claim on the equivalence with the re-seeding variant -/

/-- C17: with a `sort.Sort` that meets its contract and reaches the elements only
through `Less` and `Swap`, the loop as written and the variant that sets
`Population[0] = Champion` at the top of every generation agree: after every
number of generations both have ended the run or both hold the same champion and
the same stale counter, and the two runs save the same candidate, or neither
saves. -/
theorem reseed_equivalent (env : Env G) (hsort : IsSortSort env.sortSort)
    (hcmp : IsComparisonSort env.sortSort) (img : Image) (sinks : List SafeImage) :
    (∀ ref s0, initialState env img = .ok (ref, s0) → ∀ g,
      championOf (generations env ref sinks g 0 s0) =
        championOf (generationsReseed env ref sinks g 0 s0)) ∧
    ∀ (maxGen : Int) (destFile : String),
      savedOf (SimulateAnnealing env maxGen img destFile sinks) =
        savedOf (SimulateAnnealingReseed env maxGen img destFile sinks) := by
  constructor
  · intro ref s0 hinit g
    rcases corresponds_run env hsort hcmp ref sinks g 0 s0 s0
        (corresponds_initial env img ref s0 hinit) with
      ⟨a, b, ha, hb⟩ | ⟨sw1, sv1, hw, hv, h1⟩
    · rw [ha, hb]
      rfl
    · rw [hw, hv]
      obtain ⟨hm, hq, _⟩ := h1
      simp only [championOf, hm, hq]
  · intro maxGen destFile
    unfold SimulateAnnealing SimulateAnnealingReseed
    cases hinit : initialState env img with
    | error a => rfl
    | ok p =>
      obtain ⟨ref, s0⟩ := p
      simp only []
      rcases corresponds_run env hsort hcmp ref sinks maxGen.toNat 0 s0 s0
          (corresponds_initial env img ref s0 hinit) with
        ⟨a, b, ha, hb⟩ | ⟨sw1, sv1, hw, hv, h1⟩
      · rw [ha, hb]
        rfl
      · rw [hw, hv]
        obtain ⟨hm, _, _, _, _, hnw, hnv, _⟩ := h1
        simp only [savedOf, List.filter_append, filter_isSaved_of_noSaved _ hnw,
          filter_isSaved_of_noSaved _ hnv, List.nil_append, hm]

end Reseed

/-- Insertion sort by fitness keeps corresponding elements in correspondence. -/
theorem insertionSort_forall₂ (R : Candidate Nat → Candidate Nat → Prop)
    (hR : ∀ a b, R a b → a.Fitness = b.Fitness) (l1 l2 : List (Candidate Nat))
    (h : List.Forall₂ R l1 l2) :
    List.Forall₂ R (l1.insertionSort fun a b => a.Fitness ≤ b.Fitness)
      (l2.insertionSort fun a b => a.Fitness ≤ b.Fitness) := by
  induction h with
  | nil => exact List.Forall₂.nil
  | cons hab htail ih =>
    rename_i a b t1 t2
    simp only [List.insertionSort]
    generalize List.insertionSort (fun a b : Candidate Nat => a.Fitness ≤ b.Fitness) t1 = u1 at ih ⊢
    generalize List.insertionSort (fun a b : Candidate Nat => a.Fitness ≤ b.Fitness) t2 = u2 at ih ⊢
    induction ih with
    | nil => exact List.Forall₂.cons hab List.Forall₂.nil
    | cons hxy hrest ih2 =>
      rename_i x y v1 v2
      simp only [List.orderedInsert]
      have hab1 := hR a b hab
      have hxy1 := hR x y hxy
      by_cases hle : a.Fitness ≤ x.Fitness
      · rw [if_pos hle, if_pos (by omega)]
        exact List.Forall₂.cons hab (List.Forall₂.cons hxy hrest)
      · rw [if_neg hle, if_neg (by omega)]
        exact List.Forall₂.cons hxy ih2

/-- Insertion sort by fitness reaches the elements only through their fitness. -/
theorem sampleSort_isComparisonSort : IsComparisonSort sampleSort :=
  ⟨fun R hR l1 l2 h => insertionSort_forall₂ R hR l1 l2 h⟩

/-- The sort of `tieEnv` reaches the elements only through their fitness. -/
theorem tieSort_isComparisonSort : IsComparisonSort tieSort :=
  ⟨fun R hR l1 l2 h =>
    insertionSort_forall₂ R hR l1.reverse l2.reverse (List.forall₂_reverse_iff.mpr h)⟩

/-- The theorem of C17 on the instance: three generations of both loops, and the
candidate saved by both runs. -/
theorem reseed_equivalent_witness :
    initialState sampleEnv (.rgba sampleRef) = .ok (sampleRef, sampleStart) ∧
    championOf (generations sampleEnv sampleRef [⟨0⟩, ⟨1⟩] 3 0 sampleStart) =
      championOf (generationsReseed sampleEnv sampleRef [⟨0⟩, ⟨1⟩] 3 0 sampleStart) ∧
    savedOf (SimulateAnnealing sampleEnv 3 (.rgba sampleRef) "out.png" [⟨0⟩, ⟨1⟩]) =
      savedOf (SimulateAnnealingReseed sampleEnv 3 (.rgba sampleRef) "out.png" [⟨0⟩, ⟨1⟩]) :=
  have h := reseed_equivalent sampleEnv sampleSort_isSortSort sampleSort_isComparisonSort
    (.rgba sampleRef) [⟨0⟩, ⟨1⟩]
  ⟨by decide, h.1 sampleRef sampleStart (by decide) 3, h.2 3 "out.png"⟩

/-- C16 fails as stated: `tieEnv` sorts with a `sort.Sort` that meets the contract
and reaches the elements only through their fitness; in its first generation the
offspring of the even slots tie with the champion at fitness `315`, the champion
stays the candidate at pointer `0`, and slot `0` holds the offspring at pointer
`12`. -/
theorem slot_zero_not_champion_counterexample :
    IsSortSort tieEnv.sortSort ∧ IsComparisonSort tieEnv.sortSort ∧
    initialState tieEnv (.rgba sampleRef) = .ok (sampleRef, tieStart) ∧
    tieStart.candidates[0]? = some (some tieStart.mostFit) ∧
    generations tieEnv sampleRef [] 1 0 tieStart = .ok tieAfterOne ∧
    tieAfterOne.mostFit = ⟨0, 0, ⟨[0, 0, 0, 0], 4, Rect 0 0 1 1⟩, 315⟩ ∧
    tieAfterOne.candidates[0]? = some (some ⟨12, 1, ⟨[20, 0, 0, 0], 4, Rect 0 0 1 1⟩, 315⟩) ∧
    tieAfterOne.candidates[0]? ≠ some (some tieAfterOne.mostFit) :=
  ⟨tieSort_isSortSort, tieSort_isComparisonSort, by decide, by decide, by decide, by decide,
    by decide, by decide⟩

/-! ## Theorems: the two distances compared -/

/-- Four consecutive elements of a list, read through a slice. -/
theorem take_four_drop {α : Type} (d : α) : ∀ (l : List α) (i : Nat), i + 4 ≤ l.length →
    (l.drop i).take 4 = [l.getD i d, l.getD (i + 1) d, l.getD (i + 2) d, l.getD (i + 3) d] := by
  intro l
  induction l with
  | nil => intro i h; simp at h
  | cons x xs ih =>
    intro i h
    cases i with
    | zero =>
      match xs, h with
      | y :: z :: w :: _, _ => simp
    | succ k =>
      simp only [List.length_cons] at h
      have := ih k (by omega)
      simpa [Nat.add_right_comm k 1] using this

/-- In the canonical layout the four bytes of every point of the bounds lie within
the buffer. -/
theorem canonical_offset (p : RGBA) (hp : p.Canonical) (x y : Int)
    (hx0 : p.Rect.Min.X ≤ x) (hx1 : x < p.Rect.Max.X) (hy0 : p.Rect.Min.Y ≤ y)
    (hy1 : y < p.Rect.Max.Y) :
    0 ≤ p.PixOffset x y ∧ p.PixOffset x y + 4 ≤ (p.Pix.length : Int) := by
  obtain ⟨hx, hy, hstride, hlen⟩ := hp
  have hoff : p.PixOffset x y =
      (y - p.Rect.Min.Y) * (4 * (p.Rect.Max.X - p.Rect.Min.X)) + (x - p.Rect.Min.X) * 4 := by
    unfold RGBA.PixOffset
    rw [hstride]
  have h1 : 0 ≤ (y - p.Rect.Min.Y) * (p.Rect.Max.X - p.Rect.Min.X) :=
    Int.mul_nonneg (by omega) (by omega)
  have h2 : (y - p.Rect.Min.Y + 1) * (p.Rect.Max.X - p.Rect.Min.X) ≤
      (p.Rect.Max.Y - p.Rect.Min.Y) * (p.Rect.Max.X - p.Rect.Min.X) :=
    Int.mul_le_mul_of_nonneg_right (by omega) (by omega)
  have h3 : (y - p.Rect.Min.Y + 1) * (p.Rect.Max.X - p.Rect.Min.X) =
      (y - p.Rect.Min.Y) * (p.Rect.Max.X - p.Rect.Min.X) + (p.Rect.Max.X - p.Rect.Min.X) := by ring
  have h4 : (y - p.Rect.Min.Y) * (4 * (p.Rect.Max.X - p.Rect.Min.X)) =
      4 * ((y - p.Rect.Min.Y) * (p.Rect.Max.X - p.Rect.Min.X)) := by ring
  have h5 : 4 * (p.Rect.Max.X - p.Rect.Min.X) * (p.Rect.Max.Y - p.Rect.Min.Y) =
      4 * ((p.Rect.Max.Y - p.Rect.Min.Y) * (p.Rect.Max.X - p.Rect.Min.X)) := by ring
  constructor
  · rw [hoff]; omega
  · rw [hoff, hlen]; omega

/-- A raster in the canonical layout can be read at every point of its bounds. -/
theorem canonical_readsAs (p : RGBA) (hp : p.Canonical) : (Image.rgba p).ReadsAs p.colorAt := by
  intro x y hx0 hx1 hy0 hy1
  simp only [Image.Bounds] at hx0 hx1 hy0 hy1
  obtain ⟨hlo, hhi⟩ := canonical_offset p hp x y hx0 hx1 hy0 hy1
  have hin : Point.In ⟨x, y⟩ p.Rect = true := by
    simp [Point.In, hx0, hx1, hy0, hy1]
  have htake := take_four_drop (0 : Fin 256) p.Pix (p.PixOffset x y).toNat (by omega)
  constructor
  · simp only [Image.At, RGBA.At, hin, Bool.not_true, Bool.false_eq_true, if_false]
    rw [if_neg (by omega)]
    simp only [htake]
    rfl
  · unfold RGBA.colorAt Color.Valid colorRGBA
    simp only []
    have hb : ∀ v : Fin 256, v.val * 0x101 ≤ 0xffff := fun v => by have := v.isLt; omega
    exact ⟨hb _, hb _, hb _, hb _⟩

theorem colorAt_valid (p : RGBA) (x y : Int) : (p.colorAt x y).Valid := by
  unfold RGBA.colorAt Color.Valid colorRGBA
  simp only []
  have hb : ∀ v : Fin 256, v.val * 0x101 ≤ 0xffff := fun v => by have := v.isLt; omega
  exact ⟨hb _, hb _, hb _, hb _⟩

/-- The channel term grows with the distance of the bytes. -/
theorem specSqDiff_mono (p q r : Fin 256) (h : absDiff p q ≤ absDiff p r) :
    specSqDiff (p.val * 0x101) (q.val * 0x101) ≤ specSqDiff (p.val * 0x101) (r.val * 0x101) := by
  unfold specSqDiff
  unfold absDiff at h
  have hd : Int.natAbs (((p.val * 0x101 : Nat) : Int) - ((q.val * 0x101 : Nat) : Int)) ≤
      Int.natAbs (((p.val * 0x101 : Nat) : Int) - ((r.val * 0x101 : Nat) : Int)) := by
    omega
  rw [Nat.shiftRight_eq_div_pow, Nat.shiftRight_eq_div_pow]
  exact Nat.div_le_div_right (Nat.pow_le_pow_left hd 2)

/-- The binary logarithm is monotone on positive numbers. -/
theorem log2_mono {v w : Nat} (hv : v ≠ 0) (h : v ≤ w) : Nat.log2 v ≤ Nat.log2 w := by
  have hw : w ≠ 0 := by omega
  by_contra hcon
  have h1 : w < 2 ^ Nat.log2 v := (Nat.log2_lt hw).mp (by omega)
  have h2 := Nat.log2_self_le hv
  omega

/-- What `float64OfNat` returns from `2^53` on: a multiple of the spacing `2^e`
between the quotient and its successor. -/
theorem float64OfNat_bounds (n : Nat) (h : 2 ^ 53 ≤ n) :
    n / 2 ^ (Nat.log2 n - 52) * 2 ^ (Nat.log2 n - 52) ≤ float64OfNat n ∧
    float64OfNat n ≤ (n / 2 ^ (Nat.log2 n - 52) + 1) * 2 ^ (Nat.log2 n - 52) := by
  unfold float64OfNat
  rw [if_neg (by omega)]
  simp only []
  split
  · exact ⟨Nat.mul_le_mul_right _ (by omega), Nat.le_refl _⟩
  · exact ⟨Nat.le_refl _, Nat.mul_le_mul_right _ (by omega)⟩

/-- From `2^53` on the quotient by the spacing is a 53-bit number. -/
theorem float64_quotient (n : Nat) (h : 2 ^ 53 ≤ n) :
    2 ^ 52 ≤ n / 2 ^ (Nat.log2 n - 52) ∧ n / 2 ^ (Nat.log2 n - 52) < 2 ^ 53 ∧
    2 ^ 52 * 2 ^ (Nat.log2 n - 52) = 2 ^ Nat.log2 n := by
  have hn : n ≠ 0 := by omega
  have hL : 53 ≤ Nat.log2 n := (Nat.le_log2 hn).mpr h
  have h1 := Nat.log2_self_le hn
  have h2 : n < 2 ^ (Nat.log2 n + 1) := Nat.lt_log2_self
  have hp : (2 : Nat) ^ 52 * 2 ^ (Nat.log2 n - 52) = 2 ^ Nat.log2 n := by
    rw [← Nat.pow_add]
    congr 1
    omega
  have hpos : 0 < 2 ^ (Nat.log2 n - 52) := Nat.pow_pos (by decide)
  refine ⟨?_, ?_, hp⟩
  · rw [Nat.le_div_iff_mul_le hpos, hp]
    exact h1
  · rw [Nat.div_lt_iff_lt_mul hpos]
    have : (2 : Nat) ^ 53 * 2 ^ (Nat.log2 n - 52) = 2 ^ (Nat.log2 n + 1) := by
      rw [← Nat.pow_add]
      congr 1
      omega
    omega

/-- The conversion `float64(n)` is monotone. -/
theorem float64OfNat_mono {v w : Nat} (h : v ≤ w) : float64OfNat v ≤ float64OfNat w := by
  by_cases hw : w < 2 ^ 53
  · unfold float64OfNat
    rw [if_pos hw, if_pos (by omega)]
    exact h
  · have hw1 : 2 ^ 53 ≤ w := by omega
    obtain ⟨hwlo, _⟩ := float64OfNat_bounds w hw1
    obtain ⟨hq52, _, hpw⟩ := float64_quotient w hw1
    have hwge : 2 ^ Nat.log2 w ≤ float64OfNat w := by
      rw [← hpw]
      exact Nat.le_trans (Nat.mul_le_mul_right _ hq52) hwlo
    by_cases hv : v < 2 ^ 53
    · have hL : 53 ≤ Nat.log2 w := (Nat.le_log2 (by omega)).mpr hw1
      have : (2 : Nat) ^ 53 ≤ 2 ^ Nat.log2 w := Nat.pow_le_pow_right (by decide) hL
      have hfv : float64OfNat v = v := by
        unfold float64OfNat
        rw [if_pos hv]
      omega
    · have hv1 : 2 ^ 53 ≤ v := by omega
      obtain ⟨_, hvhi⟩ := float64OfNat_bounds v hv1
      obtain ⟨_, hq53, hpv⟩ := float64_quotient v hv1
      have hLL := log2_mono (by omega : v ≠ 0) h
      rcases Nat.lt_or_ge (Nat.log2 v) (Nat.log2 w) with hlt | hge
      · have h1 : (v / 2 ^ (Nat.log2 v - 52) + 1) * 2 ^ (Nat.log2 v - 52) ≤
            2 ^ 53 * 2 ^ (Nat.log2 v - 52) := Nat.mul_le_mul_right _ (by omega)
        have h2 : (2 : Nat) ^ 53 * 2 ^ (Nat.log2 v - 52) = 2 ^ (Nat.log2 v + 1) := by
          rw [← Nat.pow_add]
          congr 1
          have : 53 ≤ Nat.log2 v := (Nat.le_log2 (by omega)).mpr hv1
          omega
        have h3 : (2 : Nat) ^ (Nat.log2 v + 1) ≤ 2 ^ Nat.log2 w :=
          Nat.pow_le_pow_right (by decide) hlt
        omega
      · have he : Nat.log2 v = Nat.log2 w := by omega
        unfold float64OfNat
        rw [if_neg hv, if_neg hw]
        simp only []
        rw [he]
        generalize Nat.log2 w - 52 = e
        have hpos : 0 < 2 ^ e := Nat.pow_pos (by decide)
        have hdv := Nat.div_add_mod v (2 ^ e)
        have hdw := Nat.div_add_mod w (2 ^ e)
        have hrv := Nat.mod_lt v hpos
        have hrw := Nat.mod_lt w hpos
        have hq : v / 2 ^ e ≤ w / 2 ^ e := Nat.div_le_div_right h
        generalize v / 2 ^ e = qv at *
        generalize w / 2 ^ e = qw at *
        generalize v % 2 ^ e = rv at *
        generalize w % 2 ^ e = rw1 at *
        generalize 2 ^ (e - 1) = half at *
        generalize 2 ^ e = E at *
        rcases Nat.lt_or_ge qv qw with hqlt | hqge
        · have hstep : (qv + 1) * E ≤ qw * E := Nat.mul_le_mul_right _ hqlt
          have h1 : qv * E ≤ (qv + 1) * E := Nat.mul_le_mul_right _ (by omega)
          have h2 : qw * E ≤ (qw + 1) * E := Nat.mul_le_mul_right _ (by omega)
          split <;> split <;> omega
        · have hqq : qv = qw := by omega
          subst hqq
          have hr : rv ≤ rw1 := by
            rw [Nat.mul_comm] at hdv hdw
            omega
          have h1 : qv * E ≤ (qv + 1) * E := Nat.mul_le_mul_right _ (by omega)
          split
          · rename_i hup
            rw [if_pos (by omega)]
          · split <;> omega

/-- The truncated root of a positive `v` lies between `2^j` and `2^(j+1)`, for
`j` half the binary logarithm of `v`. -/
theorem sqrtFloat64ToInt_bounds (v : Nat) (hv : v ≠ 0) :
    2 ^ (Nat.log2 v / 2) ≤ sqrtFloat64ToInt v ∧
    sqrtFloat64ToInt v ≤ 2 ^ (Nat.log2 v / 2 + 1) := by
  unfold sqrtFloat64ToInt
  rw [if_neg hv]
  simp only []
  have h1 := Nat.log2_self_le hv
  have h2 : v < 2 ^ (Nat.log2 v + 1) := Nat.lt_log2_self
  generalize hj : Nat.log2 v / 2 = j
  have hlo : 2 ^ j * 2 ^ j ≤ v := by
    rw [← Nat.pow_add]
    exact Nat.le_trans (Nat.pow_le_pow_right (by decide) (by omega)) h1
  have hhi : v < 2 ^ (j + 1) * 2 ^ (j + 1) := by
    rw [← Nat.pow_add]
    exact Nat.lt_of_lt_of_le h2 (Nat.pow_le_pow_right (by decide) (by omega))
  have h4 : (4 : Nat) ^ (52 - j) = 2 ^ (52 - j) * 2 ^ (52 - j) := by
    rw [← Nat.mul_pow]
  rw [h4]
  have hSpos : 0 < 2 ^ (52 - j) := Nat.pow_pos (by decide)
  generalize 2 ^ (52 - j) = S at hSpos ⊢
  have hslo : 2 ^ j * S ≤ Nat.sqrt (v * (S * S)) := by
    rw [Nat.le_sqrt]
    calc 2 ^ j * S * (2 ^ j * S) = (2 ^ j * 2 ^ j) * (S * S) := by ring
      _ ≤ v * (S * S) := Nat.mul_le_mul_right _ hlo
  have hshi : Nat.sqrt (v * (S * S)) < 2 ^ (j + 1) * S := by
    rw [Nat.sqrt_lt]
    calc v * (S * S) < (2 ^ (j + 1) * 2 ^ (j + 1)) * (S * S) :=
          Nat.mul_lt_mul_of_pos_right hhi (Nat.mul_pos hSpos hSpos)
      _ = 2 ^ (j + 1) * S * (2 ^ (j + 1) * S) := by ring
  generalize Nat.sqrt (v * (S * S)) = s at *
  constructor
  · rw [Nat.le_div_iff_mul_le hSpos]
    split <;> omega
  · apply Nat.div_le_of_le_mul
    have hcomm : S * 2 ^ (j + 1) = 2 ^ (j + 1) * S := Nat.mul_comm _ _
    rw [hcomm]
    split <;> omega

/-- The truncated rounded root `int64(math.Sqrt(v))` is monotone. -/
theorem sqrtFloat64ToInt_mono {v w : Nat} (h : v ≤ w) :
    sqrtFloat64ToInt v ≤ sqrtFloat64ToInt w := by
  by_cases hv : v = 0
  · subst hv
    simp [sqrtFloat64ToInt]
  have hw : w ≠ 0 := by omega
  have hL := log2_mono hv h
  rcases Nat.lt_or_ge (Nat.log2 v / 2) (Nat.log2 w / 2) with hlt | hge
  · obtain ⟨_, hvhi⟩ := sqrtFloat64ToInt_bounds v hv
    obtain ⟨hwlo, _⟩ := sqrtFloat64ToInt_bounds w hw
    have : (2 : Nat) ^ (Nat.log2 v / 2 + 1) ≤ 2 ^ (Nat.log2 w / 2) :=
      Nat.pow_le_pow_right (by decide) hlt
    omega
  · have hj : Nat.log2 v / 2 = Nat.log2 w / 2 := by omega
    unfold sqrtFloat64ToInt
    rw [if_neg hv, if_neg hw]
    simp only []
    rw [hj]
    apply Nat.div_le_div_right
    generalize (4 : Nat) ^ (52 - Nat.log2 w / 2) = F
    have hm : v * F ≤ w * F := Nat.mul_le_mul_right _ h
    have hs : Nat.sqrt (v * F) ≤ Nat.sqrt (w * F) := Nat.sqrt_le_sqrt hm
    have hv1 := Nat.sqrt_le (v * F)
    have hw1 := Nat.sqrt_le (w * F)
    generalize v * F = mv at *
    generalize w * F = mw at *
    rcases Nat.lt_or_ge (Nat.sqrt mv) (Nat.sqrt mw) with hslt | hsge
    · split <;> split <;> omega
    · have hseq : Nat.sqrt mv = Nat.sqrt mw := by omega
      rw [hseq] at hv1 ⊢
      generalize Nat.sqrt mw = s at *
      generalize s * s = ss at *
      split <;> split <;> omega

/-- The last line of `Compare`, on a non-negative total, is monotone in the total. -/
theorem float_root_mono {v w : Nat} (h : v ≤ w) :
    sqrtFloat64ToInt (float64OfNat v) ≤ sqrtFloat64ToInt (float64OfNat w) :=
  sqrtFloat64ToInt_mono (float64OfNat_mono h)

/-- The total of two rasters in the canonical layout with at most `2^31` pixels
is below `2^63`: the `int64` accumulator of `Compare` does not wrap on them. -/
theorem specTotal_lt (a b : RGBA) (ha : a.Canonical) (hsize : a.Pix.length ≤ 2 ^ 33) :
    specTotal a.Rect a.colorAt b.colorAt < 2 ^ 63 := by
  obtain ⟨hx, hy, _, hlen⟩ := ha
  unfold specTotal
  generalize hW : (a.Rect.Max.X - a.Rect.Min.X).toNat = W
  generalize hH : (a.Rect.Max.Y - a.Rect.Min.Y).toNat = H
  have hWi : ((W : Nat) : Int) = a.Rect.Max.X - a.Rect.Min.X := by
    rw [← hW]; exact Int.toNat_of_nonneg (by omega)
  have hHi : ((H : Nat) : Int) = a.Rect.Max.Y - a.Rect.Min.Y := by
    rw [← hH]; exact Int.toNat_of_nonneg (by omega)
  have hlenN : a.Pix.length = 4 * (H * W) := by
    have : (a.Pix.length : Int) = ((4 * (H * W) : Nat) : Int) := by
      rw [hlen]; push_cast; rw [hWi, hHi]; ring
    exact_mod_cast this
  have hpix : ∀ j i, specPixel (a.colorAt (a.Rect.Min.X + i) (a.Rect.Min.Y + j))
      (b.colorAt (a.Rect.Min.X + i) (a.Rect.Min.Y + j)) ≤ 2 ^ 32 - 1 := by
    intro j i
    obtain ⟨he, hl⟩ := pixelSum_eq _ _ (colorAt_valid a (a.Rect.Min.X + i) (a.Rect.Min.Y + j))
      (colorAt_valid b (a.Rect.Min.X + i) (a.Rect.Min.Y + j))
    rw [← he]
    omega
  have hsum : (∑ j ∈ Finset.range H, ∑ i ∈ Finset.range W,
      specPixel (a.colorAt (a.Rect.Min.X + i) (a.Rect.Min.Y + j))
        (b.colorAt (a.Rect.Min.X + i) (a.Rect.Min.Y + j))) ≤
      ∑ _j ∈ Finset.range H, ∑ _i ∈ Finset.range W, (2 ^ 32 - 1) :=
    Finset.sum_le_sum fun j _ => Finset.sum_le_sum fun i _ => hpix j i
  simp only [Finset.sum_const, Finset.card_range, smul_eq_mul] at hsum
  have hmul : H * (W * (2 ^ 32 - 1)) = (H * W) * (2 ^ 32 - 1) := by ring
  have hHW : H * W ≤ 2 ^ 31 := by omega
  have hle : (H * W) * (2 ^ 32 - 1) ≤ 2 ^ 31 * (2 ^ 32 - 1) := Nat.mul_le_mul_right _ hHW
  have hnum : (2 : Nat) ^ 31 * (2 ^ 32 - 1) < 2 ^ 63 := by norm_num
  omega

theorem specPixel_mono (a b c : RGBA) (x y : Int)
    (hoffb : b.PixOffset x y = a.PixOffset x y) (hoffc : c.PixOffset x y = a.PixOffset x y)
    (hk : (a.PixOffset x y).toNat + 4 ≤ a.Pix.length)
    (hdom : ∀ k, k < a.Pix.length →
      absDiff (a.Pix.getD k 0) (b.Pix.getD k 0) ≤ absDiff (a.Pix.getD k 0) (c.Pix.getD k 0)) :
    specPixel (a.colorAt x y) (b.colorAt x y) ≤ specPixel (a.colorAt x y) (c.colorAt x y) := by
  unfold specPixel RGBA.colorAt colorRGBA
  simp only [hoffb, hoffc]
  have h0 := specSqDiff_mono _ _ _ (hdom (a.PixOffset x y).toNat (by omega))
  have h1 := specSqDiff_mono _ _ _ (hdom ((a.PixOffset x y).toNat + 1) (by omega))
  have h2 := specSqDiff_mono _ _ _ (hdom ((a.PixOffset x y).toNat + 2) (by omega))
  have h3 := specSqDiff_mono _ _ _ (hdom ((a.PixOffset x y).toNat + 3) (by omega))
  omega

/-- Rasters in the canonical layout with the same bounds have the same stride and
buffers of the same length. -/
theorem canonical_same_layout (a b : RGBA) (ha : a.Canonical) (hb : b.Canonical)
    (hab : a.Bounds = b.Bounds) :
    b.Rect = a.Rect ∧ b.Stride = a.Stride ∧ b.Pix.length = a.Pix.length := by
  have hr : b.Rect = a.Rect := hab.symm
  obtain ⟨_, _, hsa, hla⟩ := ha
  obtain ⟨_, _, hsb, hlb⟩ := hb
  rw [hr] at hsb hlb
  refine ⟨hr, by rw [hsa, hsb], ?_⟩
  have : (b.Pix.length : Int) = (a.Pix.length : Int) := by rw [hla, hlb]
  exact_mod_cast this

/-! ### Claim on the relation of the two distances -/

/-- C12, as amended: for rasters `a`, `b`, `c` in the canonical layout and of
identical bounds, on which neither accumulator wraps (`255 * len(a.Pix) < 2^64` for
`FastCompare`, the total of `a` and `c` below `2^63` for `Compare`), if every byte
of `b` is at least as close to the byte of `a` at its index as the byte of `c` is,
then both comparators return, `FastCompare a b ≤ FastCompare a c` and
`Compare a b ≤ Compare a c`. -/
theorem comparators_monotone_bytewise (a b c : RGBA) (ha : a.Canonical) (hb : b.Canonical)
    (hc : c.Canonical) (hab : a.Bounds = b.Bounds) (hac : a.Bounds = c.Bounds)
    (hfast : 255 * a.Pix.length < 2 ^ 64)
    (hprec : specTotal a.Rect a.colorAt c.colorAt < 2 ^ 63)
    (hdom : ∀ k, k < a.Pix.length →
      absDiff (a.Pix.getD k 0) (b.Pix.getD k 0) ≤ absDiff (a.Pix.getD k 0) (c.Pix.getD k 0)) :
    ∃ (fb fc : Nat) (pb pc : Int),
      FastCompare a b = .ok (fb, none) ∧ FastCompare a c = .ok (fc, none) ∧
      Compare (.rgba a) (.rgba b) = .ok (pb, none) ∧
      Compare (.rgba a) (.rgba c) = .ok (pc, none) ∧ fb ≤ fc ∧ pb ≤ pc := by
  obtain ⟨hrb, hsb, hlb⟩ := canonical_same_layout a b ha hb hab
  obtain ⟨hrc, hsc, hlc⟩ := canonical_same_layout a c ha hc hac
  have hfb := FastCompare.loop_eq_sum a.Pix b.Pix a.Pix.length 0 0 (by omega) (by omega) (by omega)
  have hfc := FastCompare.loop_eq_sum a.Pix c.Pix a.Pix.length 0 0 (by omega) (by omega) (by omega)
  simp only [Nat.zero_add] at hfb hfc
  have hmono : specTotal a.Rect a.colorAt b.colorAt ≤ specTotal a.Rect a.colorAt c.colorAt := by
    unfold specTotal
    refine Finset.sum_le_sum fun j hj => Finset.sum_le_sum fun i hi => ?_
    have hj1 := Finset.mem_range.mp hj
    have hi1 := Finset.mem_range.mp hi
    obtain ⟨hlo, hhi⟩ := canonical_offset a ha (a.Rect.Min.X + i) (a.Rect.Min.Y + j)
      (by omega) (by omega) (by omega) (by omega)
    refine specPixel_mono a b c _ _ ?_ ?_ (by omega) hdom
    · unfold RGBA.PixOffset; rw [hrb, hsb]
    · unfold RGBA.PixOffset; rw [hrc, hsc]
  have hpb := Compare_eq_float (.rgba a) (.rgba b) a.colorAt b.colorAt hab
    (canonical_readsAs a ha) (canonical_readsAs b hb)
    (by show specTotal a.Rect _ _ < 2 ^ 63; omega)
  have hpc := Compare_eq_float (.rgba a) (.rgba c) a.colorAt c.colorAt hac
    (canonical_readsAs a ha) (canonical_readsAs c hc)
    (by show specTotal a.Rect _ _ < 2 ^ 63; omega)
  have hFb : FastCompare a b = .ok (∑ i ∈ Finset.range a.Pix.length,
      absDiff (a.Pix.getD i 0) (b.Pix.getD i 0), none) := by simp [FastCompare, hab, hfb]
  have hFc : FastCompare a c = .ok (∑ i ∈ Finset.range a.Pix.length,
      absDiff (a.Pix.getD i 0) (c.Pix.getD i 0), none) := by simp [FastCompare, hac, hfc]
  refine ⟨_, _, _, _, hFb, hFc, hpb, hpc, ?_, ?_⟩
  · refine Finset.sum_le_sum fun k hk => hdom k (Finset.mem_range.mp hk)
  · show ((sqrtFloat64ToInt (float64OfNat (specTotal a.Rect a.colorAt b.colorAt)) : Nat) : Int) ≤
      ((sqrtFloat64ToInt (float64OfNat (specTotal a.Rect a.colorAt c.colorAt)) : Nat) : Int)
    exact_mod_cast float_root_mono hmono

/-- The theorem of C12 on three `1 × 1` rasters: `pixelFourBytes` is bytewise at
least as close to `pixelClear` as `freshRaster` is. -/
theorem comparators_monotone_bytewise_witness :
    pixelClear.Canonical ∧ pixelFourBytes.Canonical ∧ freshRaster.Canonical ∧
    ∃ (fb fc : Nat) (pb pc : Int),
      FastCompare pixelClear pixelFourBytes = .ok (fb, none) ∧
      FastCompare pixelClear freshRaster = .ok (fc, none) ∧
      Compare (.rgba pixelClear) (.rgba pixelFourBytes) = .ok (pb, none) ∧
      Compare (.rgba pixelClear) (.rgba freshRaster) = .ok (pc, none) ∧ fb ≤ fc ∧ pb ≤ pc :=
  ⟨by decide, by decide, by decide,
    comparators_monotone_bytewise pixelClear pixelFourBytes freshRaster (by decide) (by decide)
      (by decide) (by decide) (by decide) (by decide)
      (specTotal_lt pixelClear freshRaster (by decide) (by decide)) (by
        intro k hk
        have hk4 : k < 4 := hk
        interval_cases k <;> decide)⟩

/-- C12 fails as stated: `pixelOneByte` is closer to `pixelClear` than
`pixelFourBytes` by `FastCompare`, `5` against `8`, and farther by `Compare`, `642`
against `514`. -/
theorem comparators_not_monotone_counterexample :
    pixelClear.Canonical ∧ pixelOneByte.Canonical ∧ pixelFourBytes.Canonical ∧
    pixelClear.Bounds = pixelOneByte.Bounds ∧ pixelClear.Bounds = pixelFourBytes.Bounds ∧
    FastCompare pixelClear pixelOneByte = .ok (5, none) ∧
    FastCompare pixelClear pixelFourBytes = .ok (8, none) ∧
    Compare (.rgba pixelClear) (.rgba pixelOneByte) = .ok (642, none) ∧
    Compare (.rgba pixelClear) (.rgba pixelFourBytes) = .ok (514, none) := by
  refine ⟨by decide, by decide, by decide, by decide, by decide, by decide, by decide, ?_, ?_⟩
  · have h := Compare_eq_float (.rgba pixelClear) (.rgba pixelOneByte) _ _ rfl
      (pixel_readsAs 0 0 0 0) (pixel_readsAs 0 0 0 5) (by decide)
    have hT : specTotal (Image.rgba pixelClear).Bounds (fun _ _ => colorRGBA 0 0 0 0)
        (fun _ _ => colorRGBA 0 0 0 5) = 412806 := by decide
    rw [h, hT, sqrtFloat64ToInt_eq_sqrt _ (by norm_num),
      ← (Nat.eq_sqrt.mpr ⟨by norm_num, by norm_num⟩ : 642 = Nat.sqrt 412806)]
    rfl
  · have h := Compare_eq_float (.rgba pixelClear) (.rgba pixelFourBytes) _ _ rfl
      (pixel_readsAs 0 0 0 0) (pixel_readsAs 2 2 2 2) (by decide)
    have hT : specTotal (Image.rgba pixelClear).Bounds (fun _ _ => colorRGBA 0 0 0 0)
        (fun _ _ => colorRGBA 2 2 2 2) = 264196 := by decide
    rw [h, hT, sqrtFloat64ToInt_eq_sqrt _ (by norm_num),
      ← (Nat.eq_sqrt.mpr ⟨by norm_num, by norm_num⟩ : 514 = Nat.sqrt 264196)]
    rfl

end Polygen
